import Mathlib

/-!
Connector: reconciliation and traffic metering

A shallow embedding of `connector/main.go`, `connector/xray_grpc.go` and
`connector/state.go`.

* Go `string` values are Lean `String`s. Every string the connector handles
  comes out of a JSON decoder or a formatter, so it is valid UTF-8; on valid
  UTF-8 Go's bytewise comparison is the comparison of code point sequences.
* Go `int` and `int64` values are `Int`; `int64` subtraction wraps explicitly.
* `map[string]struct{}` is a duplicate-free key list; `map[int]string` is a
  total function with the zero value `""` for absent keys.
* The panel, the file system, the clock, the shell and the Xray API are an
  environment `Env σ` of state-passing operations; every run also returns
  the list of calls it made (`Event`), with the answer each call got.
  Messages printed to stdout / stderr are not part of the model.
-/

namespace Connector

/-! ## Go library functions -/

/-- Go `unicode.IsSpace`: the Latin-1 spaces and the `White_Space` code points. -/
def isSpace (c : Char) : Bool :=
  let n := c.toNat
  (0x09 ≤ n && n ≤ 0x0D) || n == 0x20 || n == 0x85 || n == 0xA0 || n == 0x1680 ||
    (0x2000 ≤ n && n ≤ 0x200A) || n == 0x2028 || n == 0x2029 || n == 0x202F ||
    n == 0x205F || n == 0x3000

/-- Go `strings.TrimSpace`: leading and trailing white space removed. -/
def trimSpace (s : String) : String :=
  String.mk ((s.toList.dropWhile isSpace).reverse.dropWhile isSpace).reverse

/-- Go `>` on strings, decided on the code point lists. -/
def strGt (a b : String) : Bool := decide (b.toList < a.toList)

/-- Go `strings.Contains`. -/
def strContains (s sub : String) : Bool :=
  s.toList.tails.any (fun t => sub.toList.isPrefixOf t)

/-- Go `unicode.ToLower`: computed for ASCII, looked up in the Unicode case
table `tbl` elsewhere. -/
def toLowerRune (tbl : Char → Char) (c : Char) : Char :=
  if c.toNat ≤ 127 then
    (if 65 ≤ c.toNat ∧ c.toNat ≤ 90 then Char.ofNat (c.toNat + 32) else c)
  else tbl c

/-- Go `strings.ToLower`. -/
def toLower (tbl : Char → Char) (s : String) : String :=
  String.mk (s.toList.map (toLowerRune tbl))

/-- Go `strings.Join`. -/
def strJoin : List String → String → String
  | [], _ => ""
  | [a], _ => a
  | a :: b :: t, sep => a ++ sep ++ strJoin (b :: t) sep

/-- Worker of `replaceAll`: `skip` characters of a match are still to be dropped. -/
def replaceAux (old new : List Char) : Nat → List Char → List Char
  | _, [] => []
  | k + 1, _ :: t => replaceAux old new k t
  | 0, c :: t =>
    if old.isPrefixOf (c :: t) then new ++ replaceAux old new (old.length - 1) t
    else c :: replaceAux old new 0 t

/-- Go `strings.ReplaceAll` for a non-empty `old` (the connector only passes
the three fixed placeholders). -/
def replaceAll (s old new : String) : String :=
  String.mk (replaceAux old.toList new.toList 0 s.toList)

/-- Go `int64` wrap-around of a mathematical integer. -/
def wrapInt64 (x : Int) : Int := (x + 9223372036854775808) % 18446744073709551616 - 9223372036854775808

/-! ## `sortStrings` (main.go) -/

/-- Body of the inner loop of `sortStrings`:
`if a[j] > a[j+1] { a[j], a[j+1] = a[j+1], a[j] }`. -/
def sortSwap (a : List String) (j : Nat) : List String :=
  if strGt (a.getD j "") (a.getD (j + 1) "") then
    (a.set j (a.getD (j + 1) "")).set (j + 1) (a.getD j "")
  else a

/-- Source `sortStrings`: `for i := 0; i < n; i++ { for j := 0; j < n-1-i; j++ { … } }`.
The slice is sorted in place; the model returns the final contents. -/
def sortStrings (a : List String) : List String :=
  let n := a.length
  (List.range n).foldl (fun a i => (List.range (n - 1 - i)).foldl sortSwap a) a

/-! ## Normalisation and diff inside `syncOnce` (main.go) -/

/-- The loop at main.go 389-401: `seen` is the key set built so far,
`normalized` the slice appended to. -/
def normalizeLoop : List String → List String → List String → List String
  | [], _, normalized => normalized
  | u :: rest, seen, normalized =>
    let u := trimSpace u
    if u = "" then normalizeLoop rest seen normalized
    else if u ∈ seen then normalizeLoop rest seen normalized
    else normalizeLoop rest (u :: seen) (normalized ++ [u])

/-- Lines 388-403 of `syncOnce`: trim, drop empties, dedupe, `sortStrings`. -/
def normalize (uuids : List String) : List String :=
  sortStrings (normalizeLoop uuids [] [])

/-- Keys of the `map[string]struct{}` built by `for _, u := range l { m[u] = struct{}{} }`,
in order of first insertion. -/
def setKeys (l : List String) : List String :=
  l.foldl (fun m u => if u ∈ m then m else m ++ [u]) []

/-- Lines 457-479 of `syncOnce`. `orderNow` and `orderPrev` are the orders in
which the two `range` loops visit the keys of `nowSet` and `prevSet`; Go leaves
them unspecified. Returns `(toAdd, toRemove)`. -/
def diffUsers (prev normalized orderNow orderPrev : List String) : List String × List String :=
  let prevSet := setKeys prev
  let nowSet := setKeys normalized
  let toAdd := orderNow.filter (fun u => !decide (u ∈ prevSet))
  let toRemove := orderPrev.filter (fun u => !decide (u ∈ nowSet))
  (sortStrings toAdd, sortStrings toRemove)

/-! ## `sha256Hex` (main.go): SHA-256 of a byte string, printed with `%x` -/

namespace Sha256

/-- Round constants of SHA-256 (FIPS 180-4, section 4.2.2). -/
def roundK : List Nat :=
  [1116352408, 1899447441, 3049323471, 3921009573, 961987163, 1508970993, 2453635748,
   2870763221, 3624381080, 310598401, 607225278, 1426881987, 1925078388, 2162078206,
   2614888103, 3248222580, 3835390401, 4022224774, 264347078, 604807628, 770255983,
   1249150122, 1555081692, 1996064986, 2554220882, 2821834349, 2952996808, 3210313671,
   3336571891, 3584528711, 113926993, 338241895, 666307205, 773529912, 1294757372,
   1396182291, 1695183700, 1986661051, 2177026350, 2456956037, 2730485921, 2820302411,
   3259730800, 3345764771, 3516065817, 3600352804, 4094571909, 275423344, 430227734,
   506948616, 659060556, 883997877, 958139571, 1322822218, 1537002063, 1747873779,
   1955562222, 2024104815, 2227730452, 2361852424, 2428436474, 2756734187, 3204031479,
   3329325298]

/-- Initial hash value of SHA-256 (FIPS 180-4, section 5.3.3). -/
def initH : List Nat :=
  [1779033703, 3144134277, 1013904242, 2773480762, 1359893119, 2600822924, 528734635,
   1541459225]

/-- Reduction to a 32-bit word. -/
def w32 (v : Nat) : Nat := v % 4294967296

/-- Rotation of a 32-bit word to the right by `k` bits. -/
def rotr (v k : Nat) : Nat := w32 ((v <<< (32 - k)) ||| (v >>> k))

/-- Exclusive or of three words. -/
def xor3 (a b c : Nat) : Nat := Nat.xor (Nat.xor a b) c

/-- The function Ch of FIPS 180-4, section 4.1.2. -/
def ch (e f g : Nat) : Nat := Nat.xor (e &&& f) ((4294967295 - e) &&& g)

/-- The function Maj of FIPS 180-4, section 4.1.2. -/
def maj (a b c : Nat) : Nat := xor3 (a &&& b) (a &&& c) (b &&& c)

/-- The sigma functions of FIPS 180-4, section 4.1.2: the two of the rounds. -/
def bigSigma0 (a : Nat) : Nat := xor3 (rotr a 2) (rotr a 13) (rotr a 22)

def bigSigma1 (e : Nat) : Nat := xor3 (rotr e 6) (rotr e 11) (rotr e 25)

/-- The sigma functions of FIPS 180-4, section 4.1.2: the two of the schedule. -/
def smallSigma0 (w : Nat) : Nat := xor3 (rotr w 7) (rotr w 18) (w >>> 3)

def smallSigma1 (w : Nat) : Nat := xor3 (rotr w 17) (rotr w 19) (w >>> 10)

/-- Message schedule, newest word first: `n` more words are computed. -/
def extend : Nat → List Nat → List Nat
  | 0, rev => rev
  | n + 1, rev =>
    extend n (w32 (smallSigma1 (rev.getD 1 0) + rev.getD 6 0 + smallSigma0 (rev.getD 14 0) + rev.getD 15 0)
      :: rev)

def round (st : List Nat) (kw : Nat × Nat) : List Nat :=
  match st with
  | [a, b, c, d, e, f, g, h] =>
    let t1 := w32 (h + bigSigma1 e + ch e f g + kw.1 + kw.2)
    let t2 := w32 (bigSigma0 a + maj a b c)
    [w32 (t1 + t2), a, b, c, w32 (d + t1), e, f, g]
  | _ => st

/-- Compression of one 16-word block into the state. -/
def block (st : List Nat) (ws : List Nat) : List Nat :=
  let w := (extend 48 ws.reverse).reverse
  List.zipWith (fun x y => w32 (x + y)) st ((roundK.zip w).foldl round st)

def toWords : List Nat → List Nat
  | a :: b :: c :: d :: t => (((a * 256 + b) * 256 + c) * 256 + d) :: toWords t
  | _ => []

def chunks : Nat → List Nat → List (List Nat)
  | 0, _ => []
  | n + 1, l => l.take 16 :: chunks n (l.drop 16)

def lenBytes (n : Nat) : List Nat :=
  [7, 6, 5, 4, 3, 2, 1, 0].map (fun i => (n >>> (8 * i)) % 256)

/-- Padding: a one bit, zeros, and the bit length in 64 bits. -/
def pad (msg : List Nat) : List Nat :=
  msg ++ [128] ++ List.replicate ((119 - msg.length % 64) % 64) 0 ++ lenBytes (8 * msg.length)

def hexDigit (n : Nat) : Char := "0123456789abcdef".toList.getD n (Char.ofNat 48)

def hexWord (w : Nat) : List Char :=
  [7, 6, 5, 4, 3, 2, 1, 0].map (fun i => hexDigit ((w >>> (4 * i)) % 16))

/-- Go `sha256.Sum256`, as eight 32-bit words. -/
def sum256 (msg : List Nat) : List Nat :=
  let p := pad msg
  (chunks (p.length / 64) (toWords p)).foldl block initH

/-- UTF-8 encoding of one code point. -/
def utf8 (c : Char) : List Nat :=
  let n := c.toNat
  if n < 0x80 then [n]
  else if n < 0x800 then [0xC0 + n / 64, 0x80 + n % 64]
  else if n < 0x10000 then [0xE0 + n / 4096, 0x80 + n / 64 % 64, 0x80 + n % 64]
  else [0xF0 + n / 262144, 0x80 + n / 4096 % 64, 0x80 + n / 64 % 64, 0x80 + n % 64]

end Sha256

/-- Source `sha256Hex`: `fmt.Sprintf("%x", sha256.Sum256(b))`; the byte slice is
the UTF-8 encoding of the text `b`. -/
def sha256Hex (b : String) : String :=
  String.mk (List.flatten ((Sha256.sum256 (List.flatten (b.toList.map Sha256.utf8))).map Sha256.hexWord))

/-! ## JSON written by the connector (`encoding/json`, `MarshalIndent(v, "", "  ")`) -/

/-- Escape of one code point inside a JSON string, as `encoding/json` writes it
with HTML escaping on (the default of `Marshal`). -/
def jsonEscape (c : Char) : List Char :=
  let n := c.toNat
  let bs := Char.ofNat 92
  if n = 34 ∨ n = 92 then [bs, c]
  else if n = 8 then [bs, Char.ofNat 98]
  else if n = 12 then [bs, Char.ofNat 102]
  else if n = 10 then [bs, Char.ofNat 110]
  else if n = 13 then [bs, Char.ofNat 114]
  else if n = 9 then [bs, Char.ofNat 116]
  else if n < 32 ∨ n = 60 ∨ n = 62 ∨ n = 38 then
    [bs, Char.ofNat 117, Char.ofNat 48, Char.ofNat 48, Sha256.hexDigit (n / 16),
      Sha256.hexDigit (n % 16)]
  else if n = 0x2028 ∨ n = 0x2029 then
    [bs, Char.ofNat 117, Char.ofNat 50, Char.ofNat 48, Char.ofNat 50, Sha256.hexDigit (n % 16)]
  else [c]

/-- A Go string as a JSON string literal. -/
def jsonString (s : String) : String :=
  String.mk (Char.ofNat 34 :: (List.flatten (s.toList.map jsonEscape) ++ [Char.ofNat 34]))

/-- A `[]string` field at nesting depth one: a nil slice is `null`. -/
def jsonStringArray : List String → String
  | [] => "null"
  | l => "[\n" ++ strJoin (l.map (fun u => "    " ++ jsonString u)) ",\n" ++ "\n  ]"

/-- Lines 405-411 of `syncOnce`: the bytes of `allowed-uuids.json`. The keys of a
Go map are written in sorted order; `generated` is
`time.Now().Format(time.RFC3339)`. -/
def allowedJSON (nodeID : Int) (generated : String) (normalized : List String) : String :=
  "\x7b\n  \"generated\": " ++ jsonString generated ++
  ",\n  \"node_id\": " ++ toString nodeID ++
  ",\n  \"uuids\": " ++ jsonStringArray normalized ++
  ",\n  \"uuids_count\": " ++ toString normalized.length ++ "\n\x7d" ++ "\n"

/-- Bytes written by `saveAppliedState` (state.go): the struct `appliedState`
in field order, plus a newline. -/
def appliedJSON (nodeID : Int) (updatedAt : String) (uuids : List String) : String :=
  "\x7b\n  \"node_id\": " ++ toString nodeID ++
  ",\n  \"updated_at\": " ++ jsonString updatedAt ++
  ",\n  \"uuids\": " ++ jsonStringArray uuids ++ "\n\x7d" ++ "\n"

/-- The fingerprint `hash` of `syncOnce` (line 424). -/
def fingerprint (nodeID : Int) (generated : String) (normalized : List String) : String :=
  sha256Hex (allowedJSON nodeID generated normalized)

/-! ## Environment -/

/-- Fields of `config` (main.go) that the engine reads. Durations are nanoseconds. -/
structure Config where
  NodeIDs : List Int
  OutputDir : String
  ApplyCommand : String
  ApplyMode : String
  FailFast : Bool
  XrayAPIAddr : String
  XrayTagMap : Int → String
  XrayVlessFlow : String
  XrayRPCTimeout : Int

/-- The account wrapped into a `protocol.User` by `buildUser`. -/
inductive Account where
  | vless (id encryption flow : String)
  | vmess (id : String)
  deriving DecidableEq, Repr

/-- Go `protocol.User` as built by `buildUser`. -/
structure User where
  level : Nat
  email : String
  account : Account
  deriving DecidableEq, Repr

/-- The operation carried by an `AlterInboundRequest`. -/
inductive Operation where
  | addUser (user : User)
  | removeUser (email : String)
  deriving DecidableEq, Repr

/-- One entry of `traffic-state.json`. -/
structure Traffic where
  upload : Int
  download : Int
  deriving DecidableEq, Repr

/-- Go `map[string]struct{Upload, Download int64}` as an association list with
distinct keys. -/
abbrev TrafficMap := List (String × Traffic)

/-- Map read `m[k]` with the comma-ok result. -/
def mapGet (m : TrafficMap) (k : String) : Option Traffic :=
  match m with
  | [] => none
  | (k1, v) :: rest => if k1 = k then some v else mapGet rest k

/-- Map write `m[k] = v`. -/
def mapSet (m : TrafficMap) (k : String) (v : Traffic) : TrafficMap :=
  match m with
  | [] => [(k, v)]
  | (k1, v1) :: rest => if k1 = k then (k1, v) :: rest else (k1, v1) :: mapSet rest k v

deriving instance DecidableEq for Except

/-- A call made by the connector together with the answer it got. Errors are
the text of the Go `error`; `none` is `nil`. The first group are calls into the
environment, the second group marks the return of a connector function. -/
inductive Event where
  | mkdirAll (path : String) (err : Option String)
  | readFile (path : String) (res : Except String String)
  | writeFile (path content : String) (err : Option String)
  | now (t : String)
  | fetchAllowedUUIDs (nodeID : Int) (res : Except String (List String))
  | reportTraffic (nodeID : Int) (uuid : String) (upload download : Int) (err : Option String)
  | dial (addr : String) (timeout : Int) (err : Option String)
  | alterInbound (tag : String) (op : Operation) (err : Option String)
  | queryStats (pattern : String) (res : Except String (List Int))
  | exec (argv : List String) (err : Option String)
  | removeUser (tag email : String) (err : Option String)
  | addUser (tag uuid protoName : String) (err : Option String)
  | saveAppliedState (path : String) (nodeID : Int) (uuids : List String) (err : Option String)
  | saveTrafficState (path : String) (state : TrafficMap) (err : Option String)
  deriving DecidableEq

/-- Everything outside the connector. `σ` is the state of the outside world;
each operation answers and moves the world on. The last fields are pure
library functions that are not modelled. -/
structure Env (σ : Type) where
  /-- Go `os.MkdirAll(dir, 0o755)`. -/
  mkdirAll : String → σ → Option String × σ
  /-- Go `os.ReadFile`. -/
  readFile : String → σ → Except String String × σ
  /-- Go `os.WriteFile(path, content, 0o644)`. -/
  writeFile : String → String → σ → Option String × σ
  /-- Go `time.Now().Format(time.RFC3339)`. -/
  now : σ → String × σ
  /-- Source `fetchAllowedUUIDs`: the panel's answer for a node. -/
  fetchAllowedUUIDs : Int → σ → Except String (List String) × σ
  /-- Source `reportTraffic`: POST of one delta to the panel. -/
  reportTraffic : Int → String → Int → Int → σ → Option String × σ
  /-- Go `grpc.DialContext` to the Xray API. -/
  dial : String → Int → σ → Option String × σ
  /-- Xray `HandlerService.AlterInbound`. -/
  alterInbound : String → Operation → σ → Option String × σ
  /-- Xray `StatsService.QueryStats`: the values of the returned stats. -/
  queryStats : String → σ → Except String (List Int) × σ
  /-- Go `exec.Cmd.Run` of the given argument vector. -/
  exec : List String → σ → Option String × σ
  /-- Order in which a `range` over a map with the given keys visits them. -/
  mapRange : List String → σ → List String × σ
  /-- Go leaves the order open but visits every key once. -/
  mapRange_perm : ∀ keys s, (mapRange keys s).1.Perm keys
  /-- Source `isWindows`. -/
  isWindows : Bool
  /-- Go `filepath.Join` of two elements. -/
  joinPath : String → String → String
  /-- Go `unicode.ToLower` outside ASCII. -/
  lowerTable : Char → Char
  /-- Go `json.Unmarshal` into `appliedState`, then the field `UUIDs`. -/
  unmarshalApplied : String → Except String (List String)
  /-- Go `json.Unmarshal` into the traffic map. -/
  unmarshalTraffic : String → Except String TrafficMap
  /-- Go `json.MarshalIndent` of the traffic map. -/
  marshalTraffic : TrafficMap → Except String String

/-- A returned value, the world after the call, and the calls made. -/
structure Res (σ α : Type) where
  val : α
  st : σ
  log : List Event

/-! ## state.go and the file helpers of main.go -/

variable {σ : Type}

/-- Source `ensureDir`. -/
def ensureDir (env : Env σ) (dir : String) (s : σ) : Res σ (Option String) :=
  let r := env.mkdirAll dir s
  ⟨r.1, r.2, [Event.mkdirAll dir r.1]⟩

/-- Source `writeIfChanged`: returns `(changed, err)`. -/
def writeIfChanged (env : Env σ) (path content : String) (s : σ) :
    Res σ (Bool × Option String) :=
  let rd := env.readFile path s
  let same : Bool := match rd.1 with
    | .ok existing => decide (existing = content)
    | .error _ => false
  if same then ⟨(false, none), rd.2, [Event.readFile path rd.1]⟩
  else
    let w := env.writeFile path content rd.2
    match w.1 with
    | some e => ⟨(false, some e), w.2, [Event.readFile path rd.1, Event.writeFile path content w.1]⟩
    | none => ⟨(true, none), w.2, [Event.readFile path rd.1, Event.writeFile path content w.1]⟩

/-- Source `loadAppliedState` (state.go). -/
def loadAppliedState (env : Env σ) (path : String) (s : σ) :
    Res σ (Except String (List String)) :=
  let rd := env.readFile path s
  match rd.1 with
  | .error e => ⟨.error e, rd.2, [Event.readFile path rd.1]⟩
  | .ok b => ⟨env.unmarshalApplied b, rd.2, [Event.readFile path rd.1]⟩

/-- Source `saveAppliedState` (state.go). `json.MarshalIndent` cannot fail on
this struct. -/
def saveAppliedState (env : Env σ) (path : String) (nodeID : Int) (uuids : List String)
    (s : σ) : Res σ (Option String) :=
  let t := env.now s
  let b := appliedJSON nodeID t.1 uuids
  let w := env.writeFile path b t.2
  ⟨w.1, w.2, [Event.now t.1, Event.writeFile path b w.1,
    Event.saveAppliedState path nodeID uuids w.1]⟩

/-- Source `loadTrafficState`: an unreadable file is an empty map. -/
def loadTrafficState (env : Env σ) (path : String) (s : σ) :
    Res σ (Except String TrafficMap) :=
  let rd := env.readFile path s
  match rd.1 with
  | .error _ => ⟨.ok [], rd.2, [Event.readFile path rd.1]⟩
  | .ok data => ⟨env.unmarshalTraffic data, rd.2, [Event.readFile path rd.1]⟩

/-- Source `saveTrafficState`. -/
def saveTrafficState (env : Env σ) (path : String) (state : TrafficMap) (s : σ) :
    Res σ (Option String) :=
  match env.marshalTraffic state with
  | .error e => ⟨some e, s, [Event.saveTrafficState path state (some e)]⟩
  | .ok data =>
    let w := env.writeFile path data s
    ⟨w.1, w.2, [Event.writeFile path data w.1, Event.saveTrafficState path state w.1]⟩

/-- Source `runApplyCommand`. -/
def runApplyCommand (env : Env σ) (cmdTemplate : String) (nodeID : Int)
    (uuidsFile uuidsJSON : String) (s : σ) : Res σ (Option String) :=
  if trimSpace cmdTemplate = "" then ⟨none, s, []⟩
  else
    let cmd := replaceAll cmdTemplate "\x7bnode_id\x7d" (toString nodeID)
    let cmd := replaceAll cmd "\x7buuids_file\x7d" uuidsFile
    let cmd := replaceAll cmd "\x7buuids_json\x7d" uuidsJSON
    let argv := if env.isWindows then ["powershell", "-NoProfile", "-Command", cmd]
      else ["sh", "-lc", cmd]
    let r := env.exec argv s
    ⟨r.1, r.2, [Event.exec argv r.1]⟩

/-- Source `inferProtoFromTag`. -/
def inferProtoFromTag (env : Env σ) (tag : String) : String :=
  let t := toLower env.lowerTable tag
  if strContains t "vmess" then "vmess"
  else if strContains t "vless" then "vless"
  else "vless"

/-! ## xray_grpc.go -/

/-- Source `xrayClient`. -/
structure XrayClient where
  addr : String
  timeout : Int
  vlessFlow : String

/-- Source `isXrayAlreadyExistsErr`. -/
def isXrayAlreadyExistsErr (env : Env σ) (err : Option String) : Bool :=
  match err with
  | none => false
  | some text =>
    let msg := toLower env.lowerTable text
    strContains msg "already exists" || strContains msg "already exist"

/-- Source `isXrayNotFoundErr`. -/
def isXrayNotFoundErr (env : Env σ) (err : Option String) : Bool :=
  match err with
  | none => false
  | some text =>
    let msg := toLower env.lowerTable text
    strContains msg "not found" || strContains msg "does not exist" ||
      strContains msg "no such user"

/-- Source `newXrayClient`. -/
def newXrayClient (addr : String) (timeout : Int) (vlessFlow : String) : XrayClient :=
  let addr := if trimSpace addr = "" then "127.0.0.1:10085" else addr
  let timeout := if timeout ≤ 0 then 5000000000 else timeout
  let vlessFlow := if trimSpace vlessFlow = "" then "xtls-rprx-vision" else vlessFlow
  ⟨addr, timeout, vlessFlow⟩

/-- Source `xrayClient.dial`. -/
def XrayClient.dial (env : Env σ) (c : XrayClient) (s : σ) : Res σ (Option String) :=
  let r := env.dial c.addr c.timeout s
  ⟨r.1, r.2, [Event.dial c.addr c.timeout r.1]⟩

/-- Source `xrayClient.buildUser`. -/
def XrayClient.buildUser (env : Env σ) (c : XrayClient) (uuid protoName : String) :
    Except String User :=
  let protoName := toLower env.lowerTable (trimSpace protoName)
  let email := uuid
  if protoName = "vless" then .ok ⟨0, email, Account.vless uuid "none" c.vlessFlow⟩
  else if protoName = "vmess" then .ok ⟨0, email, Account.vmess uuid⟩
  else .error ("unsupported proto for grpc add/remove: " ++ protoName)

/-- Source `xrayClient.addUser`. -/
def XrayClient.addUser (env : Env σ) (c : XrayClient) (inboundTag uuid protoName : String)
    (s : σ) : Res σ (Option String) :=
  let d := c.dial env s
  match d.val with
  | some e => ⟨some e, d.st, d.log ++ [Event.addUser inboundTag uuid protoName (some e)]⟩
  | none =>
    match c.buildUser env uuid protoName with
    | .error e => ⟨some e, d.st, d.log ++ [Event.addUser inboundTag uuid protoName (some e)]⟩
    | .ok user =>
      let r := env.alterInbound inboundTag (Operation.addUser user) d.st
      let err := if r.1.isSome && isXrayAlreadyExistsErr env r.1 then none else r.1
      ⟨err, r.2, d.log ++ [Event.alterInbound inboundTag (Operation.addUser user) r.1,
        Event.addUser inboundTag uuid protoName err]⟩

/-- Source `xrayClient.removeUser`. -/
def XrayClient.removeUser (env : Env σ) (c : XrayClient) (inboundTag email : String)
    (s : σ) : Res σ (Option String) :=
  let d := c.dial env s
  match d.val with
  | some e => ⟨some e, d.st, d.log ++ [Event.removeUser inboundTag email (some e)]⟩
  | none =>
    let r := env.alterInbound inboundTag (Operation.removeUser email) d.st
    let err := if r.1.isSome && isXrayNotFoundErr env r.1 then none else r.1
    ⟨err, r.2, d.log ++ [Event.alterInbound inboundTag (Operation.removeUser email) r.1,
      Event.removeUser inboundTag email err]⟩

/-- Source `xrayClient.getUserTraffic`: `(upload, download)` or an error. -/
def XrayClient.getUserTraffic (env : Env σ) (c : XrayClient) (email : String) (s : σ) :
    Res σ (Except String (Int × Int)) :=
  let d := c.dial env s
  match d.val with
  | some e => ⟨.error e, d.st, d.log⟩
  | none =>
    let pu := "user>>>" ++ email ++ ">>>traffic>>>uplink"
    let u := env.queryStats pu d.st
    match u.1 with
    | .error e => ⟨.error ("query uplink failed: " ++ e), u.2, d.log ++ [Event.queryStats pu u.1]⟩
    | .ok ups =>
      let pd := "user>>>" ++ email ++ ">>>traffic>>>downlink"
      let dn := env.queryStats pd u.2
      match dn.1 with
      | .error e => ⟨.error ("query downlink failed: " ++ e), dn.2,
          d.log ++ [Event.queryStats pu u.1, Event.queryStats pd dn.1]⟩
      | .ok downs => ⟨.ok (ups.headD 0, downs.headD 0), dn.2,
          d.log ++ [Event.queryStats pu u.1, Event.queryStats pd dn.1]⟩

/-! ## `syncOnce` (main.go) -/

/-- The two loops of the closure `applyErr` of `syncOnce` have one shape:
call `f` on each element in turn and return the first error, wrapped by
`fmt.Errorf(msg + "%w", err)`. -/
def forUsers (f : String → σ → Res σ (Option String)) (msg : String) :
    List String → σ → Res σ (Option String)
  | [], s => ⟨none, s, []⟩
  | u :: rest, s =>
    let r := f u s
    match r.val with
    | some e => ⟨some (msg ++ e), r.st, r.log⟩
    | none =>
      let r2 := forUsers f msg rest r.st
      ⟨r2.val, r2.st, r.log ++ r2.log⟩

/-- First loop of `applyErr`: `for _, u := range toRemove { x.removeUser(ctx, tag, u) }`. -/
def removeAll (env : Env σ) (x : XrayClient) (tag : String) (toRemove : List String) (s : σ) :
    Res σ (Option String) :=
  forUsers (fun u s => x.removeUser env tag u s) "remove user failed: " toRemove s

/-- Second loop of `applyErr`: `for _, u := range toAdd { x.addUser(ctx, tag, u, protoName) }`. -/
def addAll (env : Env σ) (x : XrayClient) (tag protoName : String) (toAdd : List String)
    (s : σ) : Res σ (Option String) :=
  forUsers (fun u s => x.addUser env tag u protoName s) "add user failed: " toAdd s

/-- The closure `applyErr` of `syncOnce` (lines 482-495): remove first, then add. -/
def applyUsers (env : Env σ) (x : XrayClient) (tag protoName : String)
    (toRemove toAdd : List String) (s : σ) : Res σ (Option String) :=
  let r := removeAll env x tag toRemove s
  match r.val with
  | some e => ⟨some e, r.st, r.log⟩
  | none =>
    let a := addAll env x tag protoName toAdd r.st
    ⟨a.val, a.st, r.log ++ a.log⟩

/-- Lines 451-455 of `syncOnce`: the previously applied list, empty when
`applied.json` is missing, empty or unreadable. -/
def loadPrev (env : Env σ) (appliedPath : String) (s : σ) : Res σ (List String) :=
  let rd := env.readFile appliedPath s
  match rd.1 with
  | .error _ => ⟨[], rd.2, [Event.readFile appliedPath rd.1]⟩
  | .ok b =>
    if b = "" then ⟨[], rd.2, [Event.readFile appliedPath rd.1]⟩
    else
      let l := loadAppliedState env appliedPath rd.2
      match l.val with
      | .ok prev => ⟨prev, l.st, Event.readFile appliedPath rd.1 :: l.log⟩
      | .error _ => ⟨[], l.st, Event.readFile appliedPath rd.1 :: l.log⟩

/-- What one pass of the `for _, nodeID := range cfg.NodeIDs` body leaves:
`ret = some e` when `syncOnce` returns `e` from inside the body, `none` when the
loop goes on to the next node. -/
structure NodeResult (σ : Type) where
  ret : Option String
  lastHash : Int → String
  st : σ
  log : List Event

/-- The tag used for a node (lines 444-448). -/
def nodeTag (cfg : Config) (nodeID : Int) : String :=
  if cfg.XrayTagMap nodeID = "" then "in-vless-reality" else cfg.XrayTagMap nodeID

/-- Lines 444-495 of `syncOnce`: load the applied list, compute the diff and run
the closure `applyErr`. The value is `applyErr`. -/
def xrayApply (env : Env σ) (cfg : Config) (nodeID : Int) (normalized : List String)
    (appliedPath : String) (s : σ) : Res σ (Option String) :=
  let tag := nodeTag cfg nodeID
  let protoName := inferProtoFromTag env tag
  let p := loadPrev env appliedPath s
  let orderNow := env.mapRange (setKeys normalized) p.st
  let orderPrev := env.mapRange (setKeys p.val) orderNow.2
  let d := diffUsers p.val normalized orderNow.1 orderPrev.1
  let x := newXrayClient cfg.XrayAPIAddr cfg.XrayRPCTimeout cfg.XrayVlessFlow
  let a := applyUsers env x tag protoName d.2 d.1 orderPrev.2
  ⟨a.val, a.st, p.log ++ a.log⟩

/-- Lines 443-510 and 522 of `syncOnce`: the `xray-grpc` branch. -/
def syncXray (env : Env σ) (cfg : Config) (nodeID : Int) (normalized : List String)
    (appliedPath hash : String) (lastHash : Int → String) (s : σ) : NodeResult σ :=
  let a := xrayApply env cfg nodeID normalized appliedPath s
  match a.val with
  | some e =>
    if cfg.FailFast then
      ⟨some ("node " ++ toString nodeID ++ " xray-grpc apply failed: " ++ e), lastHash, a.st,
        a.log⟩
    else ⟨none, lastHash, a.st, a.log⟩
  | none =>
    let sv := saveAppliedState env appliedPath nodeID normalized a.st
    match sv.val with
    | some e =>
      if cfg.FailFast then
        ⟨some ("node " ++ toString nodeID ++ " save applied state failed: " ++ e), lastHash,
          sv.st, a.log ++ sv.log⟩
      else ⟨none, Function.update lastHash nodeID hash, sv.st, a.log ++ sv.log⟩
    | none => ⟨none, Function.update lastHash nodeID hash, sv.st, a.log ++ sv.log⟩

/-- Lines 511-522 of `syncOnce`: the command branch. -/
def syncCommand (env : Env σ) (cfg : Config) (nodeID : Int) (txtPath jsonPath hash : String)
    (lastHash : Int → String) (s : σ) : NodeResult σ :=
  let r := runApplyCommand env cfg.ApplyCommand nodeID txtPath jsonPath s
  match r.val with
  | some e =>
    if cfg.FailFast then
      ⟨some ("node " ++ toString nodeID ++ " apply failed: " ++ e), lastHash, r.st, r.log⟩
    else ⟨none, lastHash, r.st, r.log⟩
  | none => ⟨none, Function.update lastHash nodeID hash, r.st, r.log⟩

/-- Lines 415-522 of `syncOnce`: what is done with a normalised list. `t` is the
clock reading embedded in `allowed-uuids.json`. -/
def syncFiles (env : Env σ) (cfg : Config) (nodeID : Int) (normalized : List String)
    (t : String) (lastHash : Int → String) (s : σ) : NodeResult σ :=
  let jsonBytes := allowedJSON nodeID t normalized
  let txtBytes := strJoin normalized "\n" ++ "\n"
  let nodeDir := env.joinPath cfg.OutputDir ("node-" ++ toString nodeID)
  let d := ensureDir env nodeDir s
  match d.val with
  | some e => ⟨some e, lastHash, d.st, d.log⟩
  | none =>
    let jsonPath := env.joinPath nodeDir "allowed-uuids.json"
    let txtPath := env.joinPath nodeDir "allowed-uuids.txt"
    let appliedPath := env.joinPath nodeDir "applied.json"
    let hash := sha256Hex jsonBytes
    if lastHash nodeID = hash then ⟨none, lastHash, d.st, d.log⟩
    else
      let w1 := writeIfChanged env jsonPath jsonBytes d.st
      match w1.val.2 with
      | some e => ⟨some e, lastHash, w1.st, d.log ++ w1.log⟩
      | none =>
        let w2 := writeIfChanged env txtPath txtBytes w1.st
        match w2.val.2 with
        | some e => ⟨some e, lastHash, w2.st, d.log ++ w1.log ++ w2.log⟩
        | none =>
          let r :=
            if cfg.ApplyMode = "xray-grpc" then
              syncXray env cfg nodeID normalized appliedPath hash lastHash w2.st
            else syncCommand env cfg nodeID txtPath jsonPath hash lastHash w2.st
          ⟨r.ret, r.lastHash, r.st, d.log ++ w1.log ++ w2.log ++ r.log⟩

/-- The body of the loop of `syncOnce` for one node (lines 379-522). -/
def syncNode (env : Env σ) (cfg : Config) (nodeID : Int) (lastHash : Int → String) (s : σ) :
    NodeResult σ :=
  let f := env.fetchAllowedUUIDs nodeID s
  match f.1 with
  | .error e =>
    if cfg.FailFast then
      ⟨some ("node " ++ toString nodeID ++ " fetch failed: " ++ e), lastHash, f.2,
        [Event.fetchAllowedUUIDs nodeID f.1]⟩
    else ⟨none, lastHash, f.2, [Event.fetchAllowedUUIDs nodeID f.1]⟩
  | .ok uuids =>
    let normalized := normalize uuids
    let t := env.now f.2
    let r := syncFiles env cfg nodeID normalized t.1 lastHash t.2
    ⟨r.ret, r.lastHash, r.st, Event.fetchAllowedUUIDs nodeID f.1 :: Event.now t.1 :: r.log⟩

/-- The loop of `syncOnce` over `cfg.NodeIDs`. -/
def syncNodes (env : Env σ) (cfg : Config) :
    List Int → (Int → String) → σ → NodeResult σ
  | [], lastHash, s => ⟨none, lastHash, s, []⟩
  | nodeID :: rest, lastHash, s =>
    let r := syncNode env cfg nodeID lastHash s
    match r.ret with
    | some e => ⟨some e, r.lastHash, r.st, r.log⟩
    | none =>
      let r2 := syncNodes env cfg rest r.lastHash r.st
      ⟨r2.ret, r2.lastHash, r2.st, r.log ++ r2.log⟩

/-- Source `syncOnce`: `ret` is the returned error, `lastHash` the map as the
call leaves it. -/
def syncOnce (env : Env σ) (cfg : Config) (lastHash : Int → String) (s : σ) : NodeResult σ :=
  let d := ensureDir env cfg.OutputDir s
  match d.val with
  | some e => ⟨some e, lastHash, d.st, d.log⟩
  | none =>
    let r := syncNodes env cfg cfg.NodeIDs lastHash d.st
    ⟨r.ret, r.lastHash, r.st, d.log ++ r.log⟩

/-! ## `reportTrafficOnce` (main.go) -/

/-- The deltas of lines 306-314: `(deltaUpload, deltaDownload)`. -/
def trafficDelta (prev : Option Traffic) (upload download : Int) : Int × Int :=
  match prev with
  | some p => (wrapInt64 (upload - p.upload), wrapInt64 (download - p.download))
  | none => (upload, download)

/-- The body of the loop of `reportTrafficOnce` for one identity (lines 285-323). -/
def trafficStep (env : Env σ) (x : XrayClient) (nodeID : Int) (prevTraffic : TrafficMap)
    (uuid : String) (newTraffic : TrafficMap) (s : σ) : Res σ TrafficMap :=
  let q := x.getUserTraffic env uuid s
  match q.val with
  | .error _ =>
    match mapGet prevTraffic uuid with
    | some prev => ⟨mapSet newTraffic uuid prev, q.st, q.log⟩
    | none => ⟨mapSet newTraffic uuid ⟨0, 0⟩, q.st, q.log⟩
  | .ok (upload, download) =>
    let newTraffic := mapSet newTraffic uuid ⟨upload, download⟩
    let delta := trafficDelta (mapGet prevTraffic uuid) upload download
    if 0 < delta.1 ∨ 0 < delta.2 then
      let r := env.reportTraffic nodeID uuid delta.1 delta.2 q.st
      ⟨newTraffic, r.2, q.log ++ [Event.reportTraffic nodeID uuid delta.1 delta.2 r.1]⟩
    else ⟨newTraffic, q.st, q.log⟩

/-- The loop of `reportTrafficOnce` over the applied identities. -/
def trafficLoop (env : Env σ) (x : XrayClient) (nodeID : Int) (prevTraffic : TrafficMap) :
    List String → TrafficMap → σ → Res σ TrafficMap
  | [], newTraffic, s => ⟨newTraffic, s, []⟩
  | uuid :: rest, newTraffic, s =>
    let r := trafficStep env x nodeID prevTraffic uuid newTraffic s
    let r2 := trafficLoop env x nodeID prevTraffic rest r.val r.st
    ⟨r2.val, r2.st, r.log ++ r2.log⟩

/-- Source `reportTrafficOnce`. The returned error is always `nil`. -/
def reportTrafficOnce (env : Env σ) (cfg : Config) (nodeID : Int) (s : σ) :
    Res σ (Option String) :=
  let nodeDir := env.joinPath cfg.OutputDir ("node-" ++ toString nodeID)
  let appliedPath := env.joinPath nodeDir "applied.json"
  let trafficStatePath := env.joinPath nodeDir "traffic-state.json"
  let a := loadAppliedState env appliedPath s
  match a.val with
  | .error _ => ⟨none, a.st, a.log⟩
  | .ok appliedState =>
    if appliedState.length = 0 then ⟨none, a.st, a.log⟩
    else
      let p := loadTrafficState env trafficStatePath a.st
      let prevTraffic : TrafficMap := match p.val with
        | .ok m => m
        | .error _ => []
      let x := newXrayClient cfg.XrayAPIAddr cfg.XrayRPCTimeout cfg.XrayVlessFlow
      let l := trafficLoop env x nodeID prevTraffic appliedState [] p.st
      let sv := saveTrafficState env trafficStatePath l.val l.st
      ⟨none, sv.st, a.log ++ p.log ++ l.log ++ sv.log⟩

/-! ## Auxiliary definitions used in the proofs -/

/-- One pass of the inner loop, by recursion on the list: `k` compare-and-swap steps. -/
def bubble : Nat → List String → List String
  | 0, l => l
  | _ + 1, [] => []
  | _ + 1, [x] => [x]
  | k + 1, x :: y :: t =>
    if strGt x y then y :: bubble k (x :: t) else x :: bubble k (y :: t)

/-- State of the slice after `i` rounds of the outer loop of `sortStrings`. -/
def sortRounds (a : List String) (i : Nat) : List String :=
  (List.range i).foldl (fun a j => (List.range (a.length - 1 - j)).foldl sortSwap a) a

/-! ## Observations on a log -/

/-- A call of `xrayClient.removeUser` or `xrayClient.addUser`. -/
inductive Call where
  | remove (tag email : String)
  | add (tag uuid protoName : String)
  deriving DecidableEq, Repr

/-- The connector-level backend call an event marks, if any. -/
def Event.call? : Event → Option Call
  | Event.removeUser tag email _ => some (Call.remove tag email)
  | Event.addUser tag uuid protoName _ => some (Call.add tag uuid protoName)
  | _ => none

/-- The `removeUser` / `addUser` calls of a log, in order. -/
def calls (log : List Event) : List Call := log.filterMap Event.call?

/-- A `removeUser` / `addUser` call that returned an error. -/
def Event.failed : Event → Bool
  | Event.removeUser _ _ (some _) => true
  | Event.addUser _ _ _ (some _) => true
  | _ => false

/-- A call of `saveAppliedState` (a write of `applied.json`). -/
def Event.isSaveApplied : Event → Bool
  | Event.saveAppliedState _ _ _ _ => true
  | _ => false

/-- Events other than a `removeUser` / `addUser` return or a `saveAppliedState`. -/
def Event.quiet : Event → Bool
  | Event.removeUser _ _ _ => false
  | Event.addUser _ _ _ _ => false
  | Event.saveAppliedState _ _ _ _ => false
  | _ => true

/-- A write to the file system. -/
def Event.isWrite : Event → Bool
  | Event.writeFile _ _ _ => true
  | _ => false

/-- A failed `MkdirAll` or `WriteFile`. -/
def Event.fsFailed : Event → Bool
  | Event.mkdirAll _ (some _) => true
  | Event.writeFile _ _ (some _) => true
  | _ => false

/-- A run of the apply command. -/
def Event.isExec : Event → Bool
  | Event.exec _ _ => true
  | _ => false

/-- A fetch for the given node. -/
def Event.isFetchOf (nodeID : Int) : Event → Bool
  | Event.fetchAllowedUUIDs n _ => decide (n = nodeID)
  | _ => false

/-- The reports sent to the panel, in order: `(nodeID, uuid, upload, download)`. -/
def reports (log : List Event) : List (Int × String × Int × Int) :=
  log.filterMap (fun e => match e with
    | Event.reportTraffic nodeID uuid up down _ => some (nodeID, uuid, up, down)
    | _ => none)

/-- The planned call sequence of the closure `applyErr`. -/
def plan (tag protoName : String) (toRemove toAdd : List String) : List Call :=
  toRemove.map (Call.remove tag) ++ toAdd.map (fun u => Call.add tag u protoName)

/-- The diff `(toAdd, toRemove)` of a node, with the map keys visited in
insertion order. -/
def nodeDiff (env : Env σ) (normalized : List String) (appliedPath : String) (s : σ) :
    List String × List String :=
  diffUsers (loadPrev env appliedPath s).val normalized (setKeys normalized)
    (setKeys (loadPrev env appliedPath s).val)

/-- The planned call sequence of a node: `removeUser` for `toRemove`, then
`addUser` for `toAdd`. -/
def nodePlan (env : Env σ) (cfg : Config) (nodeID : Int) (normalized : List String)
    (appliedPath : String) (s : σ) : List Call :=
  plan (nodeTag cfg nodeID) (inferProtoFromTag env (nodeTag cfg nodeID))
    (nodeDiff env normalized appliedPath s).2 (nodeDiff env normalized appliedPath s).1

/-- Texts made of the characters of an RFC 3339 time only: the digits and
`+ - . : T Z` all have code points in 40-59 or 63-91, and none of these is
escaped in a JSON string. -/
def plainTime (t : String) : Prop :=
  ∀ c ∈ t.data, 39 < c.toNat ∧ c.toNat < 60 ∨ 62 < c.toNat ∧ c.toNat < 92

/-! ## A simulated outside world

Used to run the model on concrete inputs: a clock that ticks at every reading,
an in-memory file system, and an Xray inbound holding a set of users. -/

/-- State of the simulated world. -/
structure World where
  tick : Nat
  files : List (String × String)
  users : List String

/-- What the simulated world is configured with. -/
structure Sim where
  /-- The panel's answer for a node. -/
  panel : Int → Except String (List String)
  /-- The clock reading at a tick. -/
  clock : Nat → String
  /-- Paths for which `MkdirAll` / `WriteFile` fail. -/
  readOnly : String → Bool
  /-- Xray operations rejected with the given error, the user set left alone. -/
  fault : Operation → Option String
  /-- Answers of the stats query. -/
  stats : String → Except String (List Int)
  /-- Decoder of `applied.json`. -/
  decodeApplied : String → Except String (List String)

/-- File lookup. -/
def fileGet : List (String × String) → String → Option String
  | [], _ => none
  | (p, c) :: rest, path => if p = path then some c else fileGet rest path

/-- File update. -/
def fileSet : List (String × String) → String → String → List (String × String)
  | [], path, c => [(path, c)]
  | (p, c1) :: rest, path, c => if p = path then (p, c) :: rest else (p, c1) :: fileSet rest path c

/-- Split at every occurrence of `sep`. -/
def splitOn (sep : Char) : List Char → List (List Char)
  | [] => [[]]
  | c :: t =>
    if c = sep then [] :: splitOn sep t
    else
      match splitOn sep t with
      | [] => [[c]]
      | h :: r => (c :: h) :: r

/-- One entry of `traffic-state.json` as `json.MarshalIndent` writes it. -/
def trafficEntryJSON (uuid : String) (v : Traffic) : String :=
  "  " ++ jsonString uuid ++ ": \x7b\n    \"upload\": " ++ toString v.upload ++
  ",\n    \"download\": " ++ toString v.download ++ "\n  \x7d"

/-- The bytes of `traffic-state.json` for a snapshot: the keys of a Go map are
written in sorted order. -/
def encodeTraffic (m : TrafficMap) : String :=
  match m with
  | [] => "\x7b\x7d"
  | _ =>
    "\x7b\n" ++ strJoin ((sortStrings (m.map Prod.fst)).filterMap (fun k =>
      (mapGet m k).map (trafficEntryJSON k))) ",\n" ++ "\n\x7d"

/-- The rest of a line after the given lead, when the line starts with it. -/
def dropLead (lead : String) (line : List Char) : Option (List Char) :=
  if lead.toList.isPrefixOf line then some (line.drop lead.length) else none

/-- A decimal integer at the start of a text. -/
def parseInt (l : List Char) : Int :=
  let digits := fun (t : List Char) =>
    (t.takeWhile Char.isDigit).foldl (fun (n : Nat) c => 10 * n + (c.toNat - 48)) 0
  match l with
  | c :: r => if c = Char.ofNat 45 then - (digits r : Int) else (digits (c :: r) : Int)
  | [] => 0

/-- One line of `traffic-state.json` read: the state is the key and the upload
counter read last, and the entries read so far. -/
def decodeTrafficLine (st : String × Int × TrafficMap) (line : List Char) :
    String × Int × TrafficMap :=
  match dropLead "    \"upload\": " line with
  | some r => (st.1, parseInt r, st.2.2)
  | none =>
    match dropLead "    \"download\": " line with
    | some r => (st.1, st.2.1, st.2.2 ++ [(st.1, ⟨st.2.1, parseInt r⟩)])
    | none =>
      match dropLead "  \"" line with
      | some r => (String.mk (r.takeWhile (fun c => c != Char.ofNat 34)), st.2.1, st.2.2)
      | none => st

/-- Decoder of a `traffic-state.json` as `encodeTraffic` writes it, for
identities that need no escaping. -/
def decodeTraffic (b : String) : Except String TrafficMap :=
  if b.toList.head? = some (Char.ofNat 123) then
    .ok ((splitOn (Char.ofNat 10) b.toList).foldl decodeTrafficLine ("", 0, [])).2.2
  else .error "invalid character looking for beginning of value"

/-- Xray's handling of an inbound operation on its user set: adding a present
user and removing an absent one are rejected. -/
def xrayAlter (sim : Sim) (op : Operation) (users : List String) : Option String × List String :=
  match sim.fault op with
  | some e => (some e, users)
  | none =>
    match op with
    | Operation.addUser user =>
      if user.email ∈ users then (some ("User " ++ user.email ++ " already exists."), users)
      else (none, users ++ [user.email])
    | Operation.removeUser email =>
      if email ∈ users then (none, users.filter (fun u => decide (u ≠ email)))
      else (some ("User " ++ email ++ " not found."), users)

/-- The simulated world as an environment. -/
def simEnv (sim : Sim) : Env World where
  mkdirAll := fun p w => (if sim.readOnly p then some "read-only file system" else none, w)
  readFile := fun p w =>
    (match fileGet w.files p with
      | some c => .ok c
      | none => .error "no such file or directory", w)
  writeFile := fun p c w =>
    if sim.readOnly p then (some "read-only file system", w)
    else (none, { w with files := fileSet w.files p c })
  now := fun w => (sim.clock w.tick, { w with tick := w.tick + 1 })
  fetchAllowedUUIDs := fun n w => (sim.panel n, w)
  reportTraffic := fun _ _ _ _ w => (none, w)
  dial := fun _ _ w => (none, w)
  alterInbound := fun _ op w => ((xrayAlter sim op w.users).1, { w with users := (xrayAlter sim op w.users).2 })
  queryStats := fun p w => (sim.stats p, w)
  exec := fun _ w => (none, w)
  mapRange := fun keys w => (keys, w)
  mapRange_perm := fun keys _ => List.Perm.refl keys
  isWindows := false
  joinPath := fun a b => a ++ "/" ++ b
  lowerTable := fun c => c
  unmarshalApplied := sim.decodeApplied
  unmarshalTraffic := decodeTraffic
  marshalTraffic := fun m => .ok (encodeTraffic m)

/-- Decoder of an `applied.json` as `saveAppliedState` writes it, for identities
that need no escaping: the array elements are the lines indented by four
blanks. -/
def decodeAppliedPlain (b : String) : Except String (List String) :=
  if b.toList.head? = some (Char.ofNat 123) then
    .ok ((splitOn (Char.ofNat 10) b.toList).filterMap (fun l =>
      if [Char.ofNat 32, Char.ofNat 32, Char.ofNat 32, Char.ofNat 32, Char.ofNat 34].isPrefixOf l
      then some (String.mk ((l.drop 5).takeWhile (fun c => c != Char.ofNat 34)))
      else none))
  else .error "invalid character looking for beginning of value"

/-- A clock that reads one minute later at every reading (for ten readings). -/
def clockMinutes (tick : Nat) : String :=
  "2024-01-01T00:0" ++ toString (tick % 10) ++ ":00Z"

/-- A world with nothing wrong: the panel lists `a` for every node. -/
def simPlain : Sim where
  panel := fun _ => .ok ["a"]
  clock := clockMinutes
  readOnly := fun _ => false
  fault := fun _ => none
  stats := fun _ => .ok [0]
  decodeApplied := decodeAppliedPlain

/-- A world whose Xray rejects every operation with an internal error. -/
def simFault : Sim := { simPlain with fault := fun _ => some "internal error" }

/-- A world whose Xray reports 180 bytes up and 50 bytes down for every user. -/
def simTraffic : Sim :=
  { simPlain with stats := fun p => if strContains p "uplink" then .ok [180] else .ok [50] }

/-- A world in which `allowed-uuids.json` of node 1 cannot be written. -/
def simReadOnly : Sim :=
  { simPlain with readOnly := fun p => decide (p = "out/node-1/allowed-uuids.json") }

/-- A world in which the directory of node 1 cannot be made. -/
def simNoDir : Sim := { simPlain with readOnly := fun p => decide (p = "out/node-1") }

/-- A world in which the panel fails for node 1. -/
def simFetchDown : Sim :=
  { simPlain with panel := fun n => if n = 1 then .error "panel status=500 body=" else .ok ["a"] }

/-- An empty world. -/
def world0 : World := ⟨0, [], []⟩

/-- A configuration for the command mode with two nodes. -/
def cfgCmd : Config where
  NodeIDs := [1, 2]
  OutputDir := "out"
  ApplyCommand := "reload \x7bnode_id\x7d"
  ApplyMode := "cmd"
  FailFast := false
  XrayAPIAddr := ""
  XrayTagMap := fun _ => ""
  XrayVlessFlow := ""
  XrayRPCTimeout := 0

/-- A configuration for the xray-grpc mode with two nodes. -/
def cfgXray : Config := { cfgCmd with ApplyMode := "xray-grpc" }

/-- The command mode with the single node 1. -/
def cfgCmdOne : Config := { cfgCmd with NodeIDs := [1] }

/-- The xray-grpc mode with the single node 1. -/
def cfgXrayOne : Config := { cfgCmd with NodeIDs := [1], ApplyMode := "xray-grpc" }

/-! ## Observations on traffic cycles -/

/-- The path of `applied.json` of a node, as `reportTrafficOnce` builds it. -/
def appliedPathOf (env : Env σ) (cfg : Config) (nodeID : Int) : String :=
  env.joinPath (env.joinPath cfg.OutputDir ("node-" ++ toString nodeID)) "applied.json"

/-- The path of `traffic-state.json` of a node, as `reportTrafficOnce` builds it. -/
def trafficPathOf (env : Env σ) (cfg : Config) (nodeID : Int) : String :=
  env.joinPath (env.joinPath cfg.OutputDir ("node-" ++ toString nodeID)) "traffic-state.json"

/-- The Xray client that `reportTrafficOnce` and `syncOnce` make. -/
def clientOf (cfg : Config) : XrayClient :=
  newXrayClient cfg.XrayAPIAddr cfg.XrayRPCTimeout cfg.XrayVlessFlow

/-- The `(upload, download)` deltas of the reports for `uuid` that the panel
accepted (the report returned nil), in order. -/
def delivered (uuid : String) (log : List Event) : List (Int × Int) :=
  log.filterMap (fun e => match e with
    | Event.reportTraffic _ u up down none => if u = uuid then some (up, down) else none
    | _ => none)

/-- Sum of the upload deltas. -/
def sumUp (l : List (Int × Int)) : Int := (l.map Prod.fst).sum

/-- Sum of the download deltas. -/
def sumDown (l : List (Int × Int)) : Int := (l.map Prod.snd).sum

/-- A call of `reportTraffic` for `uuid`, whatever the panel answered. -/
def Event.isReportFor (uuid : String) : Event → Bool
  | Event.reportTraffic _ u _ _ _ => decide (u = uuid)
  | _ => false

/-- The calls of `reportTraffic` for `uuid` in a log. -/
def attempts (uuid : String) (log : List Event) : List Event :=
  log.filter (Event.isReportFor uuid)

/-- The world in which the loop of `reportTrafficOnce` starts: after the two loads. -/
def loopStartOf (env : Env σ) (cfg : Config) (nodeID : Int) (s : σ) : σ :=
  (loadTrafficState env (trafficPathOf env cfg nodeID)
    (loadAppliedState env (appliedPathOf env cfg nodeID) s).st).st

/-- The variable `prevTraffic` of `reportTrafficOnce` when the loop starts: the
loaded snapshot, or a fresh map when loading fails. -/
def prevOf (env : Env σ) (cfg : Config) (nodeID : Int) (s : σ) : TrafficMap :=
  match (loadTrafficState env (trafficPathOf env cfg nodeID)
    (loadAppliedState env (appliedPathOf env cfg nodeID) s).st).val with
  | .ok m => m
  | .error _ => []

/-- The loop of `reportTrafficOnce` over the identities `l`, from the empty
`newTraffic`. -/
def loopOver (env : Env σ) (cfg : Config) (nodeID : Int) (s : σ) (l : List String) :
    Res σ TrafficMap :=
  trafficLoop env (clientOf cfg) nodeID (prevOf env cfg nodeID s) l [] (loopStartOf env cfg nodeID s)

/-- The pass of the loop over `uuid` after the identities `pre`. -/
def stepAfter (env : Env σ) (cfg : Config) (nodeID : Int) (s : σ) (pre : List String)
    (uuid : String) : Res σ TrafficMap :=
  trafficStep env (clientOf cfg) nodeID (prevOf env cfg nodeID s) uuid
    (loopOver env cfg nodeID s pre).val (loopOver env cfg nodeID s pre).st

/-- The query of the pass over `uuid` after the identities `pre`. -/
def queryAfter (env : Env σ) (cfg : Config) (nodeID : Int) (s : σ) (pre : List String)
    (uuid : String) : Res σ (Except String (Int × Int)) :=
  (clientOf cfg).getUserTraffic env uuid (loopOver env cfg nodeID s pre).st

/-- What is seen of one `reportTrafficOnce` cycle for one identity: the
environment and the world the cycle runs in, the applied identities before and
after the identity, the snapshot the cycle loads, and the counters queried for
the identity. -/
structure CycleObs (σ : Type) where
  env : Env σ
  start : σ
  pre : List String
  post : List String
  prev : TrafficMap
  up : Int
  down : Int

/-- The snapshot that the cycle hands to `saveTrafficState`. -/
def CycleObs.snapshot (cfg : Config) (nodeID : Int) (uuid : String) (c : CycleObs σ) :
    TrafficMap :=
  (loopOver c.env cfg nodeID c.start (c.pre ++ uuid :: c.post)).val

/-- The cycle is as the observation says: `applied.json` lists the identity
once, between `pre` and `post`; the loaded snapshot is `prev`; the query for the
identity succeeds with the counters `(up, down)`, which are non-negative `int64`
values; and the panel accepts a report for the identity. -/
def CycleObs.ok (cfg : Config) (nodeID : Int) (uuid : String) (c : CycleObs σ) : Prop :=
  uuid ∉ c.pre ∧ uuid ∉ c.post ∧
  (loadAppliedState c.env (appliedPathOf c.env cfg nodeID) c.start).val =
    .ok (c.pre ++ uuid :: c.post) ∧
  (loadTrafficState c.env (trafficPathOf c.env cfg nodeID)
    (loadAppliedState c.env (appliedPathOf c.env cfg nodeID) c.start).st).val = .ok c.prev ∧
  (queryAfter c.env cfg nodeID c.start c.pre uuid).val = .ok (c.up, c.down) ∧
  (∀ du dd, (c.env.reportTraffic nodeID uuid du dd
    (queryAfter c.env cfg nodeID c.start c.pre uuid).st).1 = none) ∧
  0 ≤ c.up ∧ c.up < 9223372036854775808 ∧ 0 ≤ c.down ∧ c.down < 9223372036854775808

/-- Every cycle after the first loads the snapshot that the cycle before it
handed to `saveTrafficState`, and the counters of the identity do not decrease
from one cycle to the next. -/
def chained (cfg : Config) (nodeID : Int) (uuid : String) : List (CycleObs σ) → Prop
  | [] => True
  | [_] => True
  | c1 :: c2 :: rest =>
    c2.prev = c1.snapshot cfg nodeID uuid ∧ c1.up ≤ c2.up ∧ c1.down ≤ c2.down ∧
      chained cfg nodeID uuid (c2 :: rest)

/-- The accepted deltas for `uuid` over the cycles, in order. -/
def deliveredOver (cfg : Config) (nodeID : Int) (uuid : String) (cs : List (CycleObs σ)) :
    List (Int × Int) :=
  List.flatten (cs.map (fun c => delivered uuid (reportTrafficOnce c.env cfg nodeID c.start).log))

/-- The last cycle of a non-empty sequence. -/
def lastCycle (c : CycleObs σ) : List (CycleObs σ) → CycleObs σ
  | [] => c
  | c1 :: rest => lastCycle c1 rest

/-- An error of a node's pass in `syncOnce`: a failed fetch, `MkdirAll`,
`WriteFile`, apply command, `removeUser`, `addUser` or `saveAppliedState`. -/
def Event.isError : Event → Bool
  | Event.fetchAllowedUUIDs _ (.error _) => true
  | Event.mkdirAll _ (some _) => true
  | Event.writeFile _ _ (some _) => true
  | Event.exec _ (some _) => true
  | Event.removeUser _ _ (some _) => true
  | Event.addUser _ _ _ (some _) => true
  | Event.saveAppliedState _ _ _ (some _) => true
  | _ => false

/-- A world whose Xray reports the given counters for every user. -/
def simCounters (up down : Int) : Sim :=
  { simPlain with stats := fun p => if strContains p "uplink" then .ok [up] else .ok [down] }

/-- The same, with a `traffic-state.json` of node 1 that cannot be written. -/
def simCountersNoSave (up down : Int) : Sim :=
  { simCounters up down with readOnly := fun p => decide (p = "out/node-1/traffic-state.json") }

/-- A world whose stats query fails for the user `a` and answers 7 otherwise. -/
def simStatsDownA : Sim :=
  { simPlain with stats := fun p =>
      if strContains p ">>>a>>>" then .error "rpc error: code = Unavailable" else .ok [7] }

/-- A world in which `applied.json` of node 1 cannot be written. -/
def simNoSaveApplied : Sim :=
  { simPlain with readOnly := fun p => decide (p = "out/node-1/applied.json") }

/-- A world in which node 1 has the applied identity `a` and no traffic snapshot. -/
def worldApplied : World :=
  ⟨0, [("out/node-1/applied.json", appliedJSON 1 "2024-01-01T00:00:00Z" ["a"])], ["a"]⟩

/-- A world in which node 1 has the applied identities `a` and `b`, and a traffic
snapshot with the entry `(5, 6)` for `a`. -/
def worldAppliedTwo : World :=
  ⟨0, [("out/node-1/applied.json", appliedJSON 1 "2024-01-01T00:00:00Z" ["a", "b"]),
    ("out/node-1/traffic-state.json", encodeTraffic [("a", ⟨5, 6⟩)])], ["a", "b"]⟩

/-- A first cycle for `a`: counters `(100, 40)`, no snapshot yet, and a
`traffic-state.json` that cannot be written. -/
def lostFirst : CycleObs World :=
  ⟨simEnv (simCountersNoSave 100 40), worldApplied, [], [], [], 100, 40⟩

/-- The cycle after `lostFirst`, in the world that cycle left: counters
`(150, 40)`. -/
def lostSecond : CycleObs World :=
  ⟨simEnv (simCountersNoSave 150 40),
    (reportTrafficOnce (simEnv (simCountersNoSave 100 40)) cfgXrayOne 1 worldApplied).st,
    [], [], [], 150, 40⟩

/-- A first cycle for `a`: counters `(100, 40)`, no snapshot yet. -/
def keptFirst : CycleObs World :=
  ⟨simEnv (simCounters 100 40), worldApplied, [], [], [], 100, 40⟩

/-- The cycle after `keptFirst`, in the world that cycle left: counters
`(150, 40)` and the snapshot `keptFirst` saved. -/
def keptSecond : CycleObs World :=
  ⟨simEnv (simCounters 150 40),
    (reportTrafficOnce (simEnv (simCounters 100 40)) cfgXrayOne 1 worldApplied).st,
    [], [], [("a", ⟨100, 40⟩)], 150, 40⟩

/-- A log without an error of a node's pass. -/
def clean (l : List Event) : Prop := ∀ e ∈ l, e.isError = false

/-- The only error of the log is its end: the failed write and return of the
`saveAppliedState` of the node. -/
def onlySaveFailed (nodeID : Int) (log : List Event) : Prop :=
  ∃ pre p b u err, clean pre ∧
    log = pre ++ [Event.writeFile p b (some err), Event.saveAppliedState p nodeID u (some err)]

/-- The world of `simNoSaveApplied` with a clock that stands still. -/
def simNoSaveFrozen : Sim :=
  { simNoSaveApplied with clock := fun _ => "2024-01-01T00:00:00Z" }

/-- A world whose panel lists `b` for every node. -/
def simPanelB : Sim := { simPlain with panel := fun _ => .ok ["b"] }

/-! # Theorems -/

set_option maxRecDepth 100000

/-! ## Correctness of `sortStrings` -/

theorem strGt_iff (a b : String) : strGt a b = true ↔ b < a := by
  simp [strGt]

theorem sortSwap_append (pre : List String) (x y : String) (t : List String) :
    sortSwap (pre ++ x :: y :: t) pre.length =
      if strGt x y then pre ++ y :: x :: t else pre ++ x :: y :: t := by
  unfold sortSwap
  have h0 : (pre ++ x :: y :: t).getD pre.length "" = x := by
    rw [List.getD_eq_getElem?_getD, List.getElem?_append_right (le_refl _)]; simp
  have h1 : (pre ++ x :: y :: t).getD (pre.length + 1) "" = y := by
    rw [List.getD_eq_getElem?_getD, List.getElem?_append_right (Nat.le_succ _)]; simp
  rw [h0, h1]
  split
  · simp [List.set_append_right]
  · rfl

theorem foldl_sortSwap (k : Nat) : ∀ (pre l : List String), k + 1 ≤ l.length →
    (List.range' pre.length k).foldl sortSwap (pre ++ l) = pre ++ bubble k l := by
  induction k with
  | zero => intro pre l _; simp [bubble]
  | succ k ih =>
    intro pre l hl
    match l, hl with
    | x :: y :: t, hl =>
      simp only [List.range'_succ, List.foldl_cons, sortSwap_append, bubble]
      by_cases h : strGt x y = true
      · simp only [h, if_true]
        have := ih (pre ++ [y]) (x :: t) (by simp at hl ⊢; omega)
        simpa using this
      · simp only [h]
        have := ih (pre ++ [x]) (y :: t) (by simp at hl ⊢; omega)
        simpa using this

theorem innerLoop_eq (k : Nat) (l : List String) (h : k + 1 ≤ l.length) :
    (List.range k).foldl sortSwap l = bubble k l := by
  have := foldl_sortSwap k [] l h
  simpa [List.range_eq_range'] using this

theorem bubble_perm (k : Nat) : ∀ l : List String, (bubble k l).Perm l := by
  induction k with
  | zero => intro l; simp [bubble]
  | succ k ih =>
    intro l
    match l with
    | [] => simp [bubble]
    | [x] => simp [bubble]
    | x :: y :: t =>
      simp only [bubble]
      split
      · exact ((ih (x :: t)).cons y).trans (List.Perm.swap x y t)
      · exact (ih (y :: t)).cons x

theorem bubble_length (k : Nat) (l : List String) : (bubble k l).length = l.length :=
  (bubble_perm k l).length_eq

theorem bubble_append (k : Nat) : ∀ (pre suf : List String), k + 1 ≤ pre.length →
    bubble k (pre ++ suf) = bubble k pre ++ suf := by
  induction k with
  | zero => intro pre suf _; simp [bubble]
  | succ k ih =>
    intro pre suf h
    match pre, h with
    | x :: y :: t, h =>
      have h1 : k + 1 ≤ (x :: t).length := by simp at h ⊢; omega
      have h2 : k + 1 ≤ (y :: t).length := by simp at h ⊢; omega
      have e1 := ih (x :: t) suf h1
      have e2 := ih (y :: t) suf h2
      simp only [List.cons_append] at e1 e2 ⊢
      simp only [bubble, e1, e2]
      split <;> simp

theorem bubble_last (k : Nat) : ∀ l : List String, l.length = k + 1 →
    ∃ init m, bubble k l = init ++ [m] ∧ ∀ x ∈ init, x ≤ m := by
  induction k with
  | zero =>
    intro l hl
    match l, hl with
    | [x], _ => exact ⟨[], x, by simp [bubble], by simp⟩
  | succ k ih =>
    intro l hl
    match l, hl with
    | x :: y :: t, hl =>
      simp only [bubble]
      by_cases h : strGt x y = true
      · obtain ⟨init, m, e, hm⟩ := ih (x :: t) (by simp at hl ⊢; omega)
        have hx : x ≤ m := by
          have : x ∈ init ++ [m] := by
            rw [← e]; exact (bubble_perm k (x :: t)).mem_iff.mpr (by simp)
          rcases List.mem_append.mp this with h1 | h1
          · exact hm x h1
          · simp at h1; exact le_of_eq h1
        refine ⟨y :: init, m, by simp [h, e], ?_⟩
        intro z hz
        rcases List.mem_cons.mp hz with rfl | hz
        · exact le_trans (le_of_lt ((strGt_iff _ _).mp h)) hx
        · exact hm z hz
      · obtain ⟨init, m, e, hm⟩ := ih (y :: t) (by simp at hl ⊢; omega)
        have hy : y ≤ m := by
          have : y ∈ init ++ [m] := by
            rw [← e]; exact (bubble_perm k (y :: t)).mem_iff.mpr (by simp)
          rcases List.mem_append.mp this with h1 | h1
          · exact hm y h1
          · simp at h1; exact le_of_eq h1
        have hxy : x ≤ y := by
          rw [strGt_iff] at h; exact not_lt.mp h
        refine ⟨x :: init, m, by simp [h, e], ?_⟩
        intro z hz
        rcases List.mem_cons.mp hz with rfl | hz
        · exact le_trans hxy hy
        · exact hm z hz

theorem sortRounds_succ (a : List String) (i : Nat) :
    sortRounds a (i + 1) =
      (List.range ((sortRounds a i).length - 1 - i)).foldl sortSwap (sortRounds a i) := by
  simp [sortRounds, List.range_succ, List.foldl_append]

theorem sortRounds_inv (a : List String) : ∀ i, i ≤ a.length →
    (sortRounds a i).Perm a ∧ ∃ pre suf, sortRounds a i = pre ++ suf ∧ suf.length = i ∧
      suf.Sorted (· ≤ ·) ∧ ∀ x ∈ pre, ∀ y ∈ suf, x ≤ y := by
  intro i
  induction i with
  | zero => intro _; exact ⟨by simp [sortRounds], a, [], by simp [sortRounds]⟩
  | succ i ih =>
    intro hi
    obtain ⟨hp, pre, suf, e, hlen, hs, hle⟩ := ih (by omega)
    have hlen_a : (sortRounds a i).length = a.length := hp.length_eq
    have hpre : pre.length = (a.length - 1 - i) + 1 := by
      have : pre.length + suf.length = a.length := by
        rw [← hlen_a, e, List.length_append]
      omega
    rw [sortRounds_succ, hlen_a, innerLoop_eq _ _ (by rw [hlen_a]; omega), e,
      bubble_append _ _ _ (by omega)]
    obtain ⟨init, m, eb, hm⟩ := bubble_last _ pre hpre
    have hperm : (init ++ [m]).Perm pre := eb ▸ bubble_perm _ pre
    refine ⟨?_, init, m :: suf, by simp [eb], by simp [hlen], ?_, ?_⟩
    · rw [eb]
      exact ((hperm.append_right suf).trans (e ▸ List.Perm.refl _)).trans hp
    · refine List.sorted_cons.mpr ⟨fun y hy => hle m (hperm.mem_iff.mp (by simp)) y hy, hs⟩
    · intro x hx y hy
      rcases List.mem_cons.mp hy with rfl | hy
      · exact hm x hx
      · exact hle x (hperm.mem_iff.mp (by simp [hx])) y hy

theorem sortSwap_length (a : List String) (j : Nat) : (sortSwap a j).length = a.length := by
  unfold sortSwap
  split <;> simp

theorem foldl_sortSwap_length (l : List Nat) : ∀ a : List String,
    (l.foldl sortSwap a).length = a.length := by
  induction l with
  | nil => intro a; rfl
  | cons j l ih => intro a; simp [List.foldl_cons, ih, sortSwap_length]

theorem sortStrings_eq_rounds (a : List String) : sortStrings a = sortRounds a a.length := by
  unfold sortStrings sortRounds
  have key : ∀ (l : List Nat) (b : List String), b.length = a.length →
      l.foldl (fun a_1 i => (List.range (a.length - 1 - i)).foldl sortSwap a_1) b =
      l.foldl (fun a_1 j => (List.range (a_1.length - 1 - j)).foldl sortSwap a_1) b ∧
      (l.foldl (fun a_1 i => (List.range (a.length - 1 - i)).foldl sortSwap a_1) b).length
        = a.length := by
    intro l
    induction l with
    | nil => intro b hb; simp [hb]
    | cons j l ih =>
      intro b hb
      simp only [List.foldl_cons, hb]
      apply ih
      rw [foldl_sortSwap_length, hb]
  exact (key _ a rfl).1

theorem sortStrings_perm (a : List String) : (sortStrings a).Perm a := by
  rw [sortStrings_eq_rounds]
  exact (sortRounds_inv a a.length le_rfl).1

theorem sortStrings_sorted (a : List String) : (sortStrings a).Sorted (· ≤ ·) := by
  rw [sortStrings_eq_rounds]
  obtain ⟨hp, pre, suf, e, hlen, hs, _⟩ := sortRounds_inv a a.length le_rfl
  have : pre = [] := by
    have h1 : (sortRounds a a.length).length = a.length := hp.length_eq
    rw [e, List.length_append, hlen] at h1
    exact List.length_eq_zero.mp (by omega)
  rw [e, this]
  simpa using hs

/-! ## Normalisation and diff -/

theorem sortStrings_mem (a : List String) (u : String) : u ∈ sortStrings a ↔ u ∈ a :=
  (sortStrings_perm a).mem_iff

theorem sortStrings_strict (a : List String) (h : a.Nodup) : (sortStrings a).Sorted (· < ·) :=
  (sortStrings_sorted a).lt_of_le ((sortStrings_perm a).nodup_iff.mpr h)

theorem sortStrings_congr {a b : List String} (h : a.Perm b) : sortStrings a = sortStrings b :=
  List.eq_of_perm_of_sorted (((sortStrings_perm a).trans h).trans (sortStrings_perm b).symm)
    (sortStrings_sorted a) (sortStrings_sorted b)

theorem normalizeLoop_mem (l : List String) : ∀ (seen acc : List String),
    (∀ x, x ∈ seen ↔ x ∈ acc) → ∀ u, u ∈ normalizeLoop l seen acc ↔
      u ∈ acc ∨ (u ≠ "" ∧ ∃ r ∈ l, trimSpace r = u) := by
  induction l with
  | nil => intro seen acc _ u; simp [normalizeLoop]
  | cons r l ih =>
    intro seen acc hs u
    simp only [normalizeLoop]
    by_cases h1 : trimSpace r = ""
    · rw [if_pos h1, ih seen acc hs u]
      constructor
      · rintro (h | ⟨hu, r1, hr1, e⟩)
        · exact Or.inl h
        · exact Or.inr ⟨hu, r1, List.mem_cons_of_mem _ hr1, e⟩
      · rintro (h | ⟨hu, r1, hr1, e⟩)
        · exact Or.inl h
        · rcases List.mem_cons.mp hr1 with rfl | hr1
          · exact absurd (e ▸ h1) hu
          · exact Or.inr ⟨hu, r1, hr1, e⟩
    · rw [if_neg h1]
      by_cases h2 : trimSpace r ∈ seen
      · rw [if_pos h2, ih seen acc hs u]
        constructor
        · rintro (h | ⟨hu, r1, hr1, e⟩)
          · exact Or.inl h
          · exact Or.inr ⟨hu, r1, List.mem_cons_of_mem _ hr1, e⟩
        · rintro (h | ⟨hu, r1, hr1, e⟩)
          · exact Or.inl h
          · rcases List.mem_cons.mp hr1 with rfl | hr1
            · exact Or.inl (e ▸ (hs _).mp h2)
            · exact Or.inr ⟨hu, r1, hr1, e⟩
      · rw [if_neg h2, ih (trimSpace r :: seen) (acc ++ [trimSpace r])
          (by intro x; simp [hs x, or_comm]) u]
        constructor
        · rintro (h | ⟨hu, r1, hr1, e⟩)
          · rcases List.mem_append.mp h with h | h
            · exact Or.inl h
            · simp at h
              exact Or.inr ⟨h ▸ h1, r, List.mem_cons_self _ _, h.symm⟩
          · exact Or.inr ⟨hu, r1, List.mem_cons_of_mem _ hr1, e⟩
        · rintro (h | ⟨hu, r1, hr1, e⟩)
          · exact Or.inl (List.mem_append_left _ h)
          · rcases List.mem_cons.mp hr1 with rfl | hr1
            · exact Or.inl (List.mem_append_right _ (by simp [e]))
            · exact Or.inr ⟨hu, r1, hr1, e⟩

theorem normalizeLoop_nodup (l : List String) : ∀ (seen acc : List String),
    (∀ x, x ∈ seen ↔ x ∈ acc) → acc.Nodup → (normalizeLoop l seen acc).Nodup := by
  induction l with
  | nil => intro seen acc _ h; simpa [normalizeLoop] using h
  | cons r l ih =>
    intro seen acc hs hn
    simp only [normalizeLoop]
    split
    · exact ih seen acc hs hn
    · split
      · exact ih seen acc hs hn
      · rename_i h2
        refine ih _ _ (by intro x; simp [hs x, or_comm]) ?_
        rw [List.nodup_append]
        refine ⟨hn, by simp, ?_⟩
        intro a ha hb
        simp at hb
        subst hb
        exact h2 ((hs _).mpr ha)

theorem normalize_mem (raw : List String) (u : String) :
    u ∈ normalize raw ↔ u ≠ "" ∧ ∃ r ∈ raw, trimSpace r = u := by
  unfold normalize
  rw [sortStrings_mem, normalizeLoop_mem raw [] [] (by simp) u]
  simp

theorem normalize_strict (raw : List String) : (normalize raw).Sorted (· < ·) :=
  sortStrings_strict _ (normalizeLoop_nodup raw [] [] (by simp) List.nodup_nil)

theorem strict_ext {a b : List String} (ha : a.Sorted (· < ·)) (hb : b.Sorted (· < ·))
    (h : ∀ u, u ∈ a ↔ u ∈ b) : a = b :=
  List.eq_of_perm_of_sorted ((List.perm_ext_iff_of_nodup ha.nodup hb.nodup).mpr h) ha hb

theorem setKeys_aux (l : List String) : ∀ m : List String, m.Nodup →
    (l.foldl (fun m u => if u ∈ m then m else m ++ [u]) m).Nodup ∧
    ∀ u, u ∈ l.foldl (fun m u => if u ∈ m then m else m ++ [u]) m ↔ u ∈ m ∨ u ∈ l := by
  induction l with
  | nil => intro m hm; simp [hm]
  | cons a l ih =>
    intro m hm
    simp only [List.foldl_cons]
    by_cases h : a ∈ m
    · rw [if_pos h]
      refine ⟨(ih m hm).1, fun u => ?_⟩
      rw [(ih m hm).2 u]
      constructor
      · rintro (h1 | h1)
        · exact Or.inl h1
        · exact Or.inr (List.mem_cons_of_mem _ h1)
      · rintro (h1 | h1)
        · exact Or.inl h1
        · rcases List.mem_cons.mp h1 with rfl | h1
          · exact Or.inl h
          · exact Or.inr h1
    · rw [if_neg h]
      have hm2 : (m ++ [a]).Nodup := by
        rw [List.nodup_append]
        refine ⟨hm, by simp, ?_⟩
        intro x hx hy
        simp at hy
        subst hy
        exact h hx
      refine ⟨(ih _ hm2).1, fun u => ?_⟩
      rw [(ih _ hm2).2 u]
      simp only [List.mem_append, List.mem_singleton, List.mem_cons]
      tauto

theorem setKeys_nodup (l : List String) : (setKeys l).Nodup :=
  (setKeys_aux l [] List.nodup_nil).1

theorem setKeys_mem (l : List String) (u : String) : u ∈ setKeys l ↔ u ∈ l := by
  unfold setKeys
  rw [(setKeys_aux l [] List.nodup_nil).2 u]
  simp

theorem diffUsers_mem (prev now orderNow orderPrev : List String)
    (hNow : orderNow.Perm (setKeys now)) (hPrev : orderPrev.Perm (setKeys prev)) :
    (∀ u, u ∈ (diffUsers prev now orderNow orderPrev).1 ↔ u ∈ now ∧ u ∉ prev) ∧
    (∀ u, u ∈ (diffUsers prev now orderNow orderPrev).2 ↔ u ∈ prev ∧ u ∉ now) := by
  constructor
  · intro u
    simp [diffUsers, sortStrings_mem, hNow.mem_iff, setKeys_mem]
  · intro u
    simp [diffUsers, sortStrings_mem, hPrev.mem_iff, setKeys_mem]

theorem diffUsers_sorted (prev now orderNow orderPrev : List String)
    (hNow : orderNow.Perm (setKeys now)) (hPrev : orderPrev.Perm (setKeys prev)) :
    (diffUsers prev now orderNow orderPrev).1.Sorted (· < ·) ∧
    (diffUsers prev now orderNow orderPrev).2.Sorted (· < ·) :=
  ⟨sortStrings_strict _ ((hNow.nodup_iff.mpr (setKeys_nodup now)).filter _),
    sortStrings_strict _ ((hPrev.nodup_iff.mpr (setKeys_nodup prev)).filter _)⟩

/-- C1. In `syncOnce` (xray-grpc mode), whatever order the two `range` loops
visit the map keys in, `toAdd` holds exactly the identities of `now` that are
not in `prev`, `toRemove` exactly those of `prev` that are not in `now`, so
together the symmetric difference; the two are disjoint, and each is strictly
ascending (sorted, no duplicates). -/
theorem C1_diff_spec (prev now orderNow orderPrev : List String)
    (hNow : orderNow.Perm (setKeys now)) (hPrev : orderPrev.Perm (setKeys prev)) :
    (∀ u, u ∈ (diffUsers prev now orderNow orderPrev).1 ↔ u ∈ now ∧ u ∉ prev) ∧
    (∀ u, u ∈ (diffUsers prev now orderNow orderPrev).2 ↔ u ∈ prev ∧ u ∉ now) ∧
    (∀ u, (u ∈ (diffUsers prev now orderNow orderPrev).1 ∨
        u ∈ (diffUsers prev now orderNow orderPrev).2) ↔ ¬ (u ∈ now ↔ u ∈ prev)) ∧
    (∀ u, u ∈ (diffUsers prev now orderNow orderPrev).1 →
        u ∉ (diffUsers prev now orderNow orderPrev).2) ∧
    (diffUsers prev now orderNow orderPrev).1.Sorted (· < ·) ∧
    (diffUsers prev now orderNow orderPrev).2.Sorted (· < ·) := by
  obtain ⟨hA, hR⟩ := diffUsers_mem prev now orderNow orderPrev hNow hPrev
  obtain ⟨sA, sR⟩ := diffUsers_sorted prev now orderNow orderPrev hNow hPrev
  refine ⟨hA, hR, ?_, ?_, sA, sR⟩
  · intro u
    rw [hA, hR]
    tauto
  · intro u h1 h2
    exact ((hA u).mp h1).2 ((hR u).mp h2).1

theorem C1_diff_witness :
    (diffUsers ["a", "b", "b"] ["b", "c"] ["c", "b"] ["b", "a"]).1 = ["c"] ∧
    (diffUsers ["a", "b", "b"] ["b", "c"] ["c", "b"] ["b", "a"]).2 = ["a"] ∧
    (∀ u, u ∈ (diffUsers ["a", "b", "b"] ["b", "c"] ["c", "b"] ["b", "a"]).1 ↔
      u ∈ ["b", "c"] ∧ u ∉ ["a", "b", "b"]) :=
  ⟨by decide, by decide,
    (C1_diff_spec ["a", "b", "b"] ["b", "c"] ["c", "b"] ["b", "a"]
      (by decide) (by decide)).1⟩

/-- C5. The normalisation of `syncOnce` returns a strictly ascending list whose
elements are exactly the non-empty trimmed input values, each once; two inputs
with the same set of non-empty trimmed values normalise to the same list; and
`[" b ", "a", "a", ""]` gives `["a", "b"]`. -/
theorem C5_normalize_canonical :
    (∀ raw : List String, (normalize raw).Sorted (· < ·) ∧ (normalize raw).Nodup ∧
      (∀ u, u ∈ normalize raw ↔ u ≠ "" ∧ ∃ r ∈ raw, trimSpace r = u)) ∧
    (∀ raw1 raw2 : List String,
      (∀ u, (u ≠ "" ∧ ∃ r ∈ raw1, trimSpace r = u) ↔ (u ≠ "" ∧ ∃ r ∈ raw2, trimSpace r = u)) →
      normalize raw1 = normalize raw2) ∧
    normalize [" b ", "a", "a", ""] = ["a", "b"] := by
  refine ⟨fun raw => ⟨normalize_strict raw, (normalize_strict raw).nodup, normalize_mem raw⟩,
    ?_, by decide⟩
  intro raw1 raw2 h
  apply strict_ext (normalize_strict raw1) (normalize_strict raw2)
  intro u
  rw [normalize_mem, normalize_mem, h u]

theorem C5_normalize_witness :
    normalize ["a", " b", "a "] = normalize ["b ", "", "a"] :=
  C5_normalize_canonical.2.1 ["a", " b", "a "] ["b ", "", "a"] (by
    intro u
    constructor
    · rintro ⟨hu, r, hr, e⟩
      refine ⟨hu, ?_⟩
      simp only [List.mem_cons, List.mem_singleton, List.not_mem_nil, or_false] at hr
      rcases hr with rfl | rfl | rfl
      · exact ⟨"a", by simp, e⟩
      · exact ⟨"b ", by simp, e⟩
      · exact ⟨"a", by simp, e⟩
    · rintro ⟨hu, r, hr, e⟩
      refine ⟨hu, ?_⟩
      simp only [List.mem_cons, List.mem_singleton, List.not_mem_nil, or_false] at hr
      rcases hr with rfl | rfl | rfl
      · exact ⟨" b", by simp, e⟩
      · exact absurd (by rw [← e]; decide) hu
      · exact ⟨"a", by simp, e⟩)

/-! ## The remove-then-add sequence -/

theorem quiet_call {e : Event} (h : e.quiet = true) : e.call? = none := by
  cases e <;> simp_all [Event.quiet, Event.call?]

theorem quiet_failed {e : Event} (h : e.quiet = true) : e.failed = false := by
  cases e <;> simp_all [Event.quiet, Event.failed]

theorem quiet_save {e : Event} (h : e.quiet = true) : e.isSaveApplied = false := by
  cases e <;> simp_all [Event.quiet, Event.isSaveApplied]

theorem calls_quiet {l : List Event} (h : ∀ e ∈ l, e.quiet = true) : calls l = [] := by
  unfold calls
  rw [List.filterMap_eq_nil_iff]
  exact fun e he => quiet_call (h e he)

theorem calls_append (a b : List Event) : calls (a ++ b) = calls a ++ calls b := by
  simp [calls, List.filterMap_append]

theorem removeUser_log (env : Env σ) (x : XrayClient) (tag u : String) (s : σ) :
    ∃ pre, (x.removeUser env tag u s).log =
        pre ++ [Event.removeUser tag u (x.removeUser env tag u s).val] ∧
      ∀ e ∈ pre, e.quiet = true := by
  unfold XrayClient.removeUser XrayClient.dial
  cases h : (env.dial x.addr x.timeout s).1 with
  | some e =>
    simp only [h]
    exact ⟨[Event.dial x.addr x.timeout (some e)], by simp, by simp [Event.quiet]⟩
  | none =>
    simp only [h]
    exact ⟨[Event.dial x.addr x.timeout none, Event.alterInbound tag (Operation.removeUser u)
      (env.alterInbound tag (Operation.removeUser u) (env.dial x.addr x.timeout s).2).1],
      by simp, by simp [Event.quiet]⟩

theorem addUser_log (env : Env σ) (x : XrayClient) (tag u protoName : String) (s : σ) :
    ∃ pre, (x.addUser env tag u protoName s).log =
        pre ++ [Event.addUser tag u protoName (x.addUser env tag u protoName s).val] ∧
      ∀ e ∈ pre, e.quiet = true := by
  unfold XrayClient.addUser XrayClient.dial
  cases h : (env.dial x.addr x.timeout s).1 with
  | some e =>
    simp only [h]
    exact ⟨[Event.dial x.addr x.timeout (some e)], by simp, by simp [Event.quiet]⟩
  | none =>
    simp only [h]
    cases hb : x.buildUser env u protoName with
    | error e =>
      simp only []
      exact ⟨[Event.dial x.addr x.timeout none], by simp, by simp [Event.quiet]⟩
    | ok user =>
      simp only []
      exact ⟨[Event.dial x.addr x.timeout none, Event.alterInbound tag (Operation.addUser user)
        (env.alterInbound tag (Operation.addUser user) (env.dial x.addr x.timeout s).2).1],
        by simp, by simp [Event.quiet]⟩

/-- Shape of the log of one of the two loops of `applyErr`. -/
theorem forUsers_shape (f : String → σ → Res σ (Option String)) (msg : String)
    (ev : String → Option String → Event) (c : String → Call)
    (hev : ∀ u err, (ev u err).call? = some (c u) ∧ (ev u err).failed = err.isSome ∧
      (ev u err).isSaveApplied = false)
    (hf : ∀ u s, ∃ pre, (f u s).log = pre ++ [ev u (f u s).val] ∧ ∀ e ∈ pre, e.quiet = true) :
    ∀ (l : List String) (s : σ),
      (∀ e ∈ (forUsers f msg l s).log, e.isSaveApplied = false) ∧
      ((forUsers f msg l s).val = none →
        calls (forUsers f msg l s).log = l.map c ∧
        ∀ e ∈ (forUsers f msg l s).log, e.failed = false) ∧
      ((forUsers f msg l s).val ≠ none →
        (∃ pre last, (forUsers f msg l s).log = pre ++ [last] ∧ last.failed = true ∧
          ∀ e ∈ pre, e.failed = false) ∧
        ∃ k, k < l.length ∧ calls (forUsers f msg l s).log = (l.take (k + 1)).map c) := by
  intro l
  induction l with
  | nil => intro s; simp [forUsers, calls]
  | cons u rest ih =>
    intro s
    obtain ⟨pre, hlog, hq⟩ := hf u s
    have hsave : ∀ e ∈ (f u s).log, e.isSaveApplied = false := by
      intro e he
      rw [hlog] at he
      rcases List.mem_append.mp he with h | h
      · exact quiet_save (hq e h)
      · simp at h; subst h; exact (hev _ _).2.2
    have hcalls : calls (f u s).log = [c u] := by
      rw [hlog, calls_append, calls_quiet hq]
      simp [calls, (hev _ _).1]
    cases hv : (f u s).val with
    | some e =>
      have hr : forUsers f msg (u :: rest) s = ⟨some (msg ++ e), (f u s).st, (f u s).log⟩ := by
        simp [forUsers, hv]
      rw [hr]
      refine ⟨hsave, by simp, fun _ => ⟨⟨pre, ev u (some e), by rw [hlog, hv], ?_, ?_⟩,
        0, by simp, by simpa using hcalls⟩⟩
      · simp [(hev u (some e)).2.1]
      · exact fun e he => quiet_failed (hq e he)
    | none =>
      have hr : forUsers f msg (u :: rest) s =
          ⟨(forUsers f msg rest (f u s).st).val, (forUsers f msg rest (f u s).st).st,
            (f u s).log ++ (forUsers f msg rest (f u s).st).log⟩ := by
        simp [forUsers, hv]
      rw [hr]
      obtain ⟨i1, i2, i3⟩ := ih (f u s).st
      have hnf : ∀ e ∈ (f u s).log, e.failed = false := by
        intro e he
        rw [hlog] at he
        rcases List.mem_append.mp he with h | h
        · exact quiet_failed (hq e h)
        · simp at h; subst h; rw [(hev _ _).2.1, hv]; rfl
      refine ⟨?_, ?_, ?_⟩
      · intro e he
        rcases List.mem_append.mp he with h | h
        · exact hsave e h
        · exact i1 e h
      · intro h
        obtain ⟨j1, j2⟩ := i2 h
        refine ⟨by simp [calls_append, hcalls, j1], ?_⟩
        intro e he
        rcases List.mem_append.mp he with h | h
        · exact hnf e h
        · exact j2 e h
      · intro h
        obtain ⟨⟨pre2, last, j1, j2, j3⟩, k, hk, j4⟩ := i3 h
        refine ⟨⟨(f u s).log ++ pre2, last, by simp [j1], j2, ?_⟩, k + 1, by simpa using hk, ?_⟩
        · intro e he
          rcases List.mem_append.mp he with h | h
          · exact hnf e h
          · exact j3 e h
        · simp only [calls_append, hcalls, j4]
          simp

/-- Shape of the log of the closure `applyErr`. -/
theorem applyUsers_shape (env : Env σ) (x : XrayClient) (tag protoName : String)
    (toRemove toAdd : List String) (s : σ) :
    (∀ e ∈ (applyUsers env x tag protoName toRemove toAdd s).log, e.isSaveApplied = false) ∧
    ((applyUsers env x tag protoName toRemove toAdd s).val = none →
      calls (applyUsers env x tag protoName toRemove toAdd s).log =
        plan tag protoName toRemove toAdd ∧
      ∀ e ∈ (applyUsers env x tag protoName toRemove toAdd s).log, e.failed = false) ∧
    ((applyUsers env x tag protoName toRemove toAdd s).val ≠ none →
      (∃ pre last, (applyUsers env x tag protoName toRemove toAdd s).log = pre ++ [last] ∧
        last.failed = true ∧ ∀ e ∈ pre, e.failed = false) ∧
      ∃ k, k < (plan tag protoName toRemove toAdd).length ∧
        calls (applyUsers env x tag protoName toRemove toAdd s).log =
          (plan tag protoName toRemove toAdd).take (k + 1)) := by
  have hR := forUsers_shape (fun u s => x.removeUser env tag u s) "remove user failed: "
    (fun u err => Event.removeUser tag u err) (Call.remove tag)
    (by intro u err; cases err <;> simp [Event.call?, Event.failed, Event.isSaveApplied])
    (fun u s => removeUser_log env x tag u s) toRemove s
  obtain ⟨r1, r2, r3⟩ := hR
  cases hv : (removeAll env x tag toRemove s).val with
  | some e =>
    have hr : applyUsers env x tag protoName toRemove toAdd s =
        ⟨some e, (removeAll env x tag toRemove s).st, (removeAll env x tag toRemove s).log⟩ := by
      simp [applyUsers, hv]
    rw [hr]
    have hv2 : (forUsers (fun u s => x.removeUser env tag u s) "remove user failed: "
        toRemove s).val ≠ none := by
      have : (removeAll env x tag toRemove s).val ≠ none := by simp [hv]
      exact this
    obtain ⟨j1, k, hk, j2⟩ := r3 hv2
    refine ⟨r1, by simp, fun _ => ⟨j1, k, ?_, ?_⟩⟩
    · simp [plan]; omega
    · show calls (removeAll env x tag toRemove s).log = _
      unfold removeAll
      rw [j2, plan, List.take_append_of_le_length (by simp; omega), List.map_take]
  | none =>
    have hA := forUsers_shape (fun u s => x.addUser env tag u protoName s) "add user failed: "
      (fun u err => Event.addUser tag u protoName err) (fun u => Call.add tag u protoName)
      (by intro u err; cases err <;> simp [Event.call?, Event.failed, Event.isSaveApplied])
      (fun u s => addUser_log env x tag u protoName s) toAdd (removeAll env x tag toRemove s).st
    obtain ⟨a1, a2, a3⟩ := hA
    obtain ⟨q1, q2⟩ := r2 hv
    have hr : applyUsers env x tag protoName toRemove toAdd s =
        ⟨(addAll env x tag protoName toAdd (removeAll env x tag toRemove s).st).val,
          (addAll env x tag protoName toAdd (removeAll env x tag toRemove s).st).st,
          (removeAll env x tag toRemove s).log ++
            (addAll env x tag protoName toAdd (removeAll env x tag toRemove s).st).log⟩ := by
      simp [applyUsers, hv]
    rw [hr]
    refine ⟨?_, ?_, ?_⟩
    · intro e he
      rcases List.mem_append.mp he with h | h
      · exact r1 e h
      · exact a1 e h
    · intro h
      obtain ⟨b1, b2⟩ := a2 h
      refine ⟨?_, ?_⟩
      · rw [calls_append, plan]
        exact congrArg₂ _ q1 b1
      · intro e he
        rcases List.mem_append.mp he with h | h
        · exact q2 e h
        · exact b2 e h
    · intro h
      obtain ⟨⟨pre2, last, j1, j2, j3⟩, k, hk, j4⟩ := a3 h
      refine ⟨⟨(removeAll env x tag toRemove s).log ++ pre2, last, ?_, j2, ?_⟩,
        toRemove.length + k, ?_, ?_⟩
      · show (removeAll env x tag toRemove s).log ++
          (addAll env x tag protoName toAdd (removeAll env x tag toRemove s).st).log = _
        unfold addAll
        rw [j1]; simp
      · intro e he
        rcases List.mem_append.mp he with h | h
        · exact q2 e h
        · exact j3 e h
      · simp [plan]; omega
      · rw [calls_append]
        show calls (removeAll env x tag toRemove s).log ++
          calls (addAll env x tag protoName toAdd (removeAll env x tag toRemove s).st).log = _
        unfold addAll
        rw [j4]
        have : calls (removeAll env x tag toRemove s).log = toRemove.map (Call.remove tag) := q1
        have h1 : List.take (toRemove.length + k + 1) (toRemove.map (Call.remove tag)) =
            toRemove.map (Call.remove tag) :=
          List.take_of_length_le (by rw [List.length_map]; omega)
        have h2 : toRemove.length + k + 1 - (toRemove.map (Call.remove tag)).length = k + 1 := by
          rw [List.length_map]; omega
        rw [this, plan, List.take_append_eq_append_take, h1, h2, List.map_take]

theorem diffUsers_order (prev now orderNow orderPrev : List String)
    (hNow : orderNow.Perm (setKeys now)) (hPrev : orderPrev.Perm (setKeys prev)) :
    diffUsers prev now orderNow orderPrev = diffUsers prev now (setKeys now) (setKeys prev) := by
  unfold diffUsers
  simp only
  rw [sortStrings_congr (hNow.filter _), sortStrings_congr (hPrev.filter _)]

theorem plan_getElem?_lt (tag protoName : String) (toRemove toAdd : List String) (i : Nat)
    (h : i < toRemove.length) :
    (plan tag protoName toRemove toAdd)[i]? = some (Call.remove tag (toRemove.get ⟨i, h⟩)) := by
  unfold plan
  rw [List.getElem?_append_left (by simpa using h)]
  simp [List.getElem?_eq_getElem h]

theorem plan_getElem?_ge (tag protoName : String) (toRemove toAdd : List String) (i : Nat)
    (h : toRemove.length ≤ i) (t b : String) :
    (plan tag protoName toRemove toAdd)[i]? ≠ some (Call.remove t b) := by
  unfold plan
  rw [List.getElem?_append_right (by simpa using h)]
  intro hc
  rw [List.getElem?_map] at hc
  cases hx : toAdd[i - (List.map (Call.remove tag) toRemove).length]? with
  | none => simp [hx] at hc
  | some v => simp [hx] at hc

/-- In a call sequence that is an initial part of the plan, every add comes
after every remove, and is preceded by the removal of each element of
`toRemove`. -/
theorem plan_order (tag protoName : String) (toRemove toAdd : List String) (cs : List Call)
    (h : cs <+: plan tag protoName toRemove toAdd) :
    (∀ (i j : Nat) t a p t1 b, cs[i]? = some (Call.add t a p) →
      cs[j]? = some (Call.remove t1 b) → j < i) ∧
    (∀ (i : Nat) t a p, cs[i]? = some (Call.add t a p) → ∀ b ∈ toRemove,
      ∃ j : Nat, j < i ∧ cs[j]? = some (Call.remove tag b)) := by
  obtain ⟨rest, hrest⟩ := h
  have hget : ∀ i, i < cs.length → cs[i]? = (plan tag protoName toRemove toAdd)[i]? := by
    intro i hi
    rw [← hrest, List.getElem?_append_left hi]
  have hlen : ∀ i c, cs[i]? = some c → i < cs.length := by
    intro i c hc
    by_contra hn
    rw [List.getElem?_eq_none (by omega)] at hc
    exact Option.noConfusion hc
  have hadd : ∀ i t a p, cs[i]? = some (Call.add t a p) → toRemove.length ≤ i := by
    intro i t a p hc
    by_contra hn
    have hi : i < toRemove.length := by omega
    rw [hget i (hlen i _ hc), plan_getElem?_lt tag protoName toRemove toAdd i hi] at hc
    simp at hc
  have hrem : ∀ j t1 b, cs[j]? = some (Call.remove t1 b) → j < toRemove.length := by
    intro j t1 b hc
    by_contra hn
    rw [hget j (hlen j _ hc)] at hc
    exact plan_getElem?_ge tag protoName toRemove toAdd j (by omega) t1 b hc
  refine ⟨?_, ?_⟩
  · intro i j t a p t1 b hi hj
    have := hadd i t a p hi
    have := hrem j t1 b hj
    omega
  · intro i t a p hi b hb
    obtain ⟨n, hn⟩ := List.get_of_mem hb
    refine ⟨n.1, ?_, ?_⟩
    · have := hadd i t a p hi
      have := n.2
      omega
    · have h1 := hadd i t a p hi
      have h2 := hlen i _ hi
      rw [hget n.1 (by have := n.2; omega), plan_getElem?_lt tag protoName toRemove toAdd n.1 n.2]
      exact congrArg (fun v => some (Call.remove tag v)) hn

theorem loadPrev_quiet (env : Env σ) (appliedPath : String) (s : σ) :
    ∀ e ∈ (loadPrev env appliedPath s).log, e.quiet = true := by
  unfold loadPrev loadAppliedState
  intro e
  cases h : (env.readFile appliedPath s).1 with
  | error _ => simp only [h]; intro he; simp at he; subst he; rfl
  | ok b =>
    simp only [h]
    split
    · intro he; simp at he; subst he; rfl
    · cases h2 : (env.readFile appliedPath (env.readFile appliedPath s).2).1 with
      | error _ =>
        simp only [h2]
        intro he; simp at he
        rcases he with rfl | rfl <;> rfl
      | ok b2 =>
        simp only [h2]
        cases h3 : env.unmarshalApplied b2 with
        | error _ =>
          simp only []
          intro he; simp at he
          rcases he with rfl | rfl <;> rfl
        | ok v =>
          simp only []
          intro he; simp at he
          rcases he with rfl | rfl <;> rfl

/-- The diff that `xrayApply` computes does not depend on the map order. -/
theorem xrayApply_eq (env : Env σ) (cfg : Config) (nodeID : Int) (normalized : List String)
    (appliedPath : String) (s : σ) :
    ∃ s1, xrayApply env cfg nodeID normalized appliedPath s =
      ⟨(applyUsers env (newXrayClient cfg.XrayAPIAddr cfg.XrayRPCTimeout cfg.XrayVlessFlow)
          (nodeTag cfg nodeID) (inferProtoFromTag env (nodeTag cfg nodeID))
          (diffUsers (loadPrev env appliedPath s).val normalized (setKeys normalized)
            (setKeys (loadPrev env appliedPath s).val)).2
          (diffUsers (loadPrev env appliedPath s).val normalized (setKeys normalized)
            (setKeys (loadPrev env appliedPath s).val)).1 s1).val,
        (applyUsers env (newXrayClient cfg.XrayAPIAddr cfg.XrayRPCTimeout cfg.XrayVlessFlow)
          (nodeTag cfg nodeID) (inferProtoFromTag env (nodeTag cfg nodeID))
          (diffUsers (loadPrev env appliedPath s).val normalized (setKeys normalized)
            (setKeys (loadPrev env appliedPath s).val)).2
          (diffUsers (loadPrev env appliedPath s).val normalized (setKeys normalized)
            (setKeys (loadPrev env appliedPath s).val)).1 s1).st,
        (loadPrev env appliedPath s).log ++
        (applyUsers env (newXrayClient cfg.XrayAPIAddr cfg.XrayRPCTimeout cfg.XrayVlessFlow)
          (nodeTag cfg nodeID) (inferProtoFromTag env (nodeTag cfg nodeID))
          (diffUsers (loadPrev env appliedPath s).val normalized (setKeys normalized)
            (setKeys (loadPrev env appliedPath s).val)).2
          (diffUsers (loadPrev env appliedPath s).val normalized (setKeys normalized)
            (setKeys (loadPrev env appliedPath s).val)).1 s1).log⟩ := by
  refine ⟨(env.mapRange (setKeys (loadPrev env appliedPath s).val)
    (env.mapRange (setKeys normalized) (loadPrev env appliedPath s).st).2).2, ?_⟩
  unfold xrayApply
  simp only
  rw [diffUsers_order _ _ _ _ (env.mapRange_perm _ _) (env.mapRange_perm _ _)]

/-- Shape of the log of `xrayApply`: no `saveAppliedState`; the whole plan when
`applyErr` is nil; otherwise an initial part of it that ends with the failing call. -/
theorem xrayApply_shape (env : Env σ) (cfg : Config) (nodeID : Int) (normalized : List String)
    (appliedPath : String) (s : σ) :
    (∀ e ∈ (xrayApply env cfg nodeID normalized appliedPath s).log, e.isSaveApplied = false) ∧
    ((xrayApply env cfg nodeID normalized appliedPath s).val = none →
      calls (xrayApply env cfg nodeID normalized appliedPath s).log =
        plan (nodeTag cfg nodeID) (inferProtoFromTag env (nodeTag cfg nodeID))
          (diffUsers (loadPrev env appliedPath s).val normalized (setKeys normalized)
            (setKeys (loadPrev env appliedPath s).val)).2
          (diffUsers (loadPrev env appliedPath s).val normalized (setKeys normalized)
            (setKeys (loadPrev env appliedPath s).val)).1 ∧
      ∀ e ∈ (xrayApply env cfg nodeID normalized appliedPath s).log, e.failed = false) ∧
    ((xrayApply env cfg nodeID normalized appliedPath s).val ≠ none →
      (∃ pre last, (xrayApply env cfg nodeID normalized appliedPath s).log = pre ++ [last] ∧
        last.failed = true ∧ ∀ e ∈ pre, e.failed = false) ∧
      ∃ k, calls (xrayApply env cfg nodeID normalized appliedPath s).log =
        (plan (nodeTag cfg nodeID) (inferProtoFromTag env (nodeTag cfg nodeID))
          (diffUsers (loadPrev env appliedPath s).val normalized (setKeys normalized)
            (setKeys (loadPrev env appliedPath s).val)).2
          (diffUsers (loadPrev env appliedPath s).val normalized (setKeys normalized)
            (setKeys (loadPrev env appliedPath s).val)).1).take (k + 1)) := by
  obtain ⟨s1, hs1⟩ := xrayApply_eq env cfg nodeID normalized appliedPath s
  rw [hs1]
  obtain ⟨a1, a2, a3⟩ := applyUsers_shape env
    (newXrayClient cfg.XrayAPIAddr cfg.XrayRPCTimeout cfg.XrayVlessFlow)
    (nodeTag cfg nodeID) (inferProtoFromTag env (nodeTag cfg nodeID))
    (diffUsers (loadPrev env appliedPath s).val normalized (setKeys normalized)
      (setKeys (loadPrev env appliedPath s).val)).2
    (diffUsers (loadPrev env appliedPath s).val normalized (setKeys normalized)
      (setKeys (loadPrev env appliedPath s).val)).1 s1
  have hq := loadPrev_quiet env appliedPath s
  refine ⟨?_, ?_, ?_⟩
  · intro e he
    rcases List.mem_append.mp he with h | h
    · exact quiet_save (hq e h)
    · exact a1 e h
  · intro h
    obtain ⟨b1, b2⟩ := a2 h
    refine ⟨by rw [calls_append, calls_quiet hq, b1]; rfl, ?_⟩
    intro e he
    rcases List.mem_append.mp he with h | h
    · exact quiet_failed (hq e h)
    · exact b2 e h
  · intro h
    obtain ⟨⟨pre, last, c1, c2, c3⟩, k, _, c4⟩ := a3 h
    refine ⟨⟨(loadPrev env appliedPath s).log ++ pre, last, ?_, c2, ?_⟩, k, ?_⟩
    · simp only [c1, List.append_assoc]
    · intro e he
      rcases List.mem_append.mp he with h | h
      · exact quiet_failed (hq e h)
      · exact c3 e h
    · rw [calls_append, calls_quiet hq, c4]; rfl

/-- What the `xray-grpc` branch does with the result of `applyErr`. -/
theorem syncXray_spec (env : Env σ) (cfg : Config) (nodeID : Int) (normalized : List String)
    (appliedPath hash : String) (lastHash : Int → String) (s : σ) :
    ((xrayApply env cfg nodeID normalized appliedPath s).val ≠ none →
      (syncXray env cfg nodeID normalized appliedPath hash lastHash s).log =
        (xrayApply env cfg nodeID normalized appliedPath s).log ∧
      (syncXray env cfg nodeID normalized appliedPath hash lastHash s).lastHash = lastHash) ∧
    ((xrayApply env cfg nodeID normalized appliedPath s).val = none →
      ∃ t err, (syncXray env cfg nodeID normalized appliedPath hash lastHash s).log =
        (xrayApply env cfg nodeID normalized appliedPath s).log ++
          [Event.now t, Event.writeFile appliedPath (appliedJSON nodeID t normalized) err,
            Event.saveAppliedState appliedPath nodeID normalized err] ∧
        (err = none →
          (syncXray env cfg nodeID normalized appliedPath hash lastHash s).lastHash =
            Function.update lastHash nodeID hash ∧
          (syncXray env cfg nodeID normalized appliedPath hash lastHash s).ret = none) ∧
        (err ≠ none → cfg.FailFast = false →
          (syncXray env cfg nodeID normalized appliedPath hash lastHash s).lastHash =
            Function.update lastHash nodeID hash ∧
          (syncXray env cfg nodeID normalized appliedPath hash lastHash s).ret = none) ∧
        (err ≠ none → cfg.FailFast = true →
          (syncXray env cfg nodeID normalized appliedPath hash lastHash s).lastHash = lastHash ∧
          (syncXray env cfg nodeID normalized appliedPath hash lastHash s).ret ≠ none)) := by
  unfold syncXray
  cases ha : (xrayApply env cfg nodeID normalized appliedPath s).val with
  | some e =>
    refine ⟨fun _ => ?_, fun h => by simp at h⟩
    cases hff : cfg.FailFast <;> simp [ha, hff]
  | none =>
    refine ⟨fun h => by simp at h, fun _ => ?_⟩
    simp only [ha, saveAppliedState]
    refine ⟨(env.now (xrayApply env cfg nodeID normalized appliedPath s).st).1,
      (env.writeFile appliedPath (appliedJSON nodeID
        (env.now (xrayApply env cfg nodeID normalized appliedPath s).st).1 normalized)
        (env.now (xrayApply env cfg nodeID normalized appliedPath s).st).2).1, ?_⟩
    cases hw : (env.writeFile appliedPath (appliedJSON nodeID
        (env.now (xrayApply env cfg nodeID normalized appliedPath s).st).1 normalized)
        (env.now (xrayApply env cfg nodeID normalized appliedPath s).st).2).1 with
    | none => simp [hw]
    | some e =>
      cases hff : cfg.FailFast <;> simp [hw, hff]

theorem syncCommand_quiet (env : Env σ) (cfg : Config) (nodeID : Int)
    (txtPath jsonPath hash : String) (lastHash : Int → String) (s : σ) :
    ∀ e ∈ (syncCommand env cfg nodeID txtPath jsonPath hash lastHash s).log, e.quiet = true := by
  unfold syncCommand runApplyCommand
  intro e
  split
  · simp
  · simp only
    split
    · split <;> (intro he; simp at he; subst he; rfl)
    · intro he; simp at he; subst he; rfl

theorem writeIfChanged_quiet (env : Env σ) (path content : String) (s : σ) :
    ∀ e ∈ (writeIfChanged env path content s).log, e.quiet = true := by
  unfold writeIfChanged
  intro e
  simp only
  split
  · intro he; simp at he; subst he; rfl
  · split <;> (intro he; simp at he; rcases he with rfl | rfl <;> rfl)

/-- Either a pass over a node makes no backend call and no `saveAppliedState`,
or it reaches the `xray-grpc` branch after events of that kind only. -/
theorem syncFiles_cases (env : Env σ) (cfg : Config) (nodeID : Int) (normalized : List String)
    (t : String) (lastHash : Int → String) (s : σ) :
    ((∀ e ∈ (syncFiles env cfg nodeID normalized t lastHash s).log, e.quiet = true) ∧
      (cfg.ApplyMode = "xray-grpc" →
        (syncFiles env cfg nodeID normalized t lastHash s).lastHash = lastHash)) ∨
    (cfg.ApplyMode = "xray-grpc" ∧ lastHash nodeID ≠ fingerprint nodeID t normalized ∧
      ∃ pre appliedPath s1, (∀ e ∈ pre, e.quiet = true) ∧
        (syncFiles env cfg nodeID normalized t lastHash s).log =
          pre ++ (syncXray env cfg nodeID normalized appliedPath
            (fingerprint nodeID t normalized) lastHash s1).log ∧
        (syncFiles env cfg nodeID normalized t lastHash s).lastHash =
          (syncXray env cfg nodeID normalized appliedPath
            (fingerprint nodeID t normalized) lastHash s1).lastHash ∧
        (syncFiles env cfg nodeID normalized t lastHash s).ret =
          (syncXray env cfg nodeID normalized appliedPath
            (fingerprint nodeID t normalized) lastHash s1).ret) := by
  unfold syncFiles ensureDir
  simp only
  cases hd : (env.mkdirAll (env.joinPath cfg.OutputDir ("node-" ++ toString nodeID)) s).1 with
  | some e => left; simp [Event.quiet]
  | none =>
    simp only
    by_cases hh : lastHash nodeID = sha256Hex (allowedJSON nodeID t normalized)
    · left; simp [hh, Event.quiet]
    · simp only [hh, if_false]
      generalize hw1 : writeIfChanged env _ _ _ = w1
      have q1 : ∀ e ∈ w1.log, e.quiet = true := hw1 ▸ writeIfChanged_quiet env _ _ _
      cases h1 : w1.val.2 with
      | some e =>
        left
        simp only
        refine ⟨?_, fun _ => trivial⟩
        intro e he
        simp at he
        rcases he with rfl | he
        · rfl
        · exact q1 e he
      | none =>
        simp only
        generalize hw2 : writeIfChanged env _ _ w1.st = w2
        have q2 : ∀ e ∈ w2.log, e.quiet = true := hw2 ▸ writeIfChanged_quiet env _ _ _
        cases h2 : w2.val.2 with
        | some e =>
          left
          simp only
          refine ⟨?_, fun _ => trivial⟩
          intro e he
          simp at he
          rcases he with rfl | he | he
          · rfl
          · exact q1 e he
          · exact q2 e he
        | none =>
          simp only
          by_cases hm : cfg.ApplyMode = "xray-grpc"
          · right
            refine ⟨hm, hh, [Event.mkdirAll (env.joinPath cfg.OutputDir ("node-" ++ toString nodeID)) none]
              ++ w1.log ++ w2.log,
              env.joinPath (env.joinPath cfg.OutputDir ("node-" ++ toString nodeID)) "applied.json",
              w2.st, ?_, ?_, ?_, ?_⟩
            · intro e he
              simp at he
              rcases he with rfl | he | he
              · rfl
              · exact q1 e he
              · exact q2 e he
            · simp only [hm, if_true, fingerprint]
            · simp only [hm, if_true, fingerprint]
            · simp only [hm, if_true, fingerprint]
          · left
            simp only [hm, if_false]
            refine ⟨?_, fun h => h.elim⟩
            intro e he
            simp at he
            rcases he with rfl | he | he | he
            · rfl
            · exact q1 e he
            · exact q2 e he
            · exact syncCommand_quiet env cfg nodeID _ _ _ lastHash w2.st e he

theorem syncNode_cases (env : Env σ) (cfg : Config) (nodeID : Int) (lastHash : Int → String)
    (s : σ) :
    ((∀ e ∈ (syncNode env cfg nodeID lastHash s).log, e.quiet = true) ∧
      (cfg.ApplyMode = "xray-grpc" → (syncNode env cfg nodeID lastHash s).lastHash = lastHash)) ∨
    (∃ raw, (env.fetchAllowedUUIDs nodeID s).1 = .ok raw ∧ cfg.ApplyMode = "xray-grpc" ∧
      lastHash nodeID ≠
        fingerprint nodeID (env.now (env.fetchAllowedUUIDs nodeID s).2).1 (normalize raw) ∧
      ∃ pre appliedPath s1, (∀ e ∈ pre, e.quiet = true) ∧
        (syncNode env cfg nodeID lastHash s).log =
          pre ++ (syncXray env cfg nodeID (normalize raw) appliedPath
            (fingerprint nodeID (env.now (env.fetchAllowedUUIDs nodeID s).2).1 (normalize raw))
            lastHash s1).log ∧
        (syncNode env cfg nodeID lastHash s).lastHash =
          (syncXray env cfg nodeID (normalize raw) appliedPath
            (fingerprint nodeID (env.now (env.fetchAllowedUUIDs nodeID s).2).1 (normalize raw))
            lastHash s1).lastHash ∧
        (syncNode env cfg nodeID lastHash s).ret =
          (syncXray env cfg nodeID (normalize raw) appliedPath
            (fingerprint nodeID (env.now (env.fetchAllowedUUIDs nodeID s).2).1 (normalize raw))
            lastHash s1).ret) := by
  unfold syncNode
  cases hf : (env.fetchAllowedUUIDs nodeID s).1 with
  | error e =>
    left
    cases hff : cfg.FailFast <;> simp [hf, hff, Event.quiet]
  | ok raw =>
    simp only [hf]
    rcases syncFiles_cases env cfg nodeID (normalize raw)
      (env.now (env.fetchAllowedUUIDs nodeID s).2).1 lastHash
      (env.now (env.fetchAllowedUUIDs nodeID s).2).2 with ⟨h1, h2⟩ | ⟨hm, hh, pre, ap, s1, h1, h2, h3, h4⟩
    · left
      refine ⟨?_, h2⟩
      intro e he
      simp at he
      rcases he with rfl | rfl | he
      · rfl
      · rfl
      · exact h1 e he
    · right
      refine ⟨raw, rfl, hm, hh, Event.fetchAllowedUUIDs nodeID (Except.ok raw) ::
        Event.now (env.now (env.fetchAllowedUUIDs nodeID s).2).1 :: pre, ap, s1, ?_, ?_, h3, h4⟩
      · intro e he
        simp at he
        rcases he with rfl | rfl | he
        · rfl
        · rfl
        · exact h1 e he
      · simp [h2]

theorem xrayApply_calls (env : Env σ) (cfg : Config) (nodeID : Int) (normalized : List String)
    (appliedPath : String) (s : σ) :
    calls (xrayApply env cfg nodeID normalized appliedPath s).log <+:
        nodePlan env cfg nodeID normalized appliedPath s ∧
    ((xrayApply env cfg nodeID normalized appliedPath s).val = none →
      calls (xrayApply env cfg nodeID normalized appliedPath s).log =
        nodePlan env cfg nodeID normalized appliedPath s) := by
  obtain ⟨_, h2, h3⟩ := xrayApply_shape env cfg nodeID normalized appliedPath s
  refine ⟨?_, fun h => (h2 h).1⟩
  cases hv : (xrayApply env cfg nodeID normalized appliedPath s).val with
  | none => rw [(h2 hv).1]; exact List.prefix_refl _
  | some e =>
    obtain ⟨_, k, hk⟩ := h3 (by simp [hv])
    rw [hk]
    exact List.take_prefix _ _

theorem syncXray_calls (env : Env σ) (cfg : Config) (nodeID : Int) (normalized : List String)
    (appliedPath hash : String) (lastHash : Int → String) (s : σ) :
    calls (syncXray env cfg nodeID normalized appliedPath hash lastHash s).log =
      calls (xrayApply env cfg nodeID normalized appliedPath s).log := by
  obtain ⟨h1, h2⟩ := syncXray_spec env cfg nodeID normalized appliedPath hash lastHash s
  cases hv : (xrayApply env cfg nodeID normalized appliedPath s).val with
  | some e => rw [(h1 (by simp [hv])).1]
  | none =>
    obtain ⟨t, err, hl, _⟩ := h2 hv
    rw [hl, calls_append]
    simp [calls, Event.call?]

/-- C2. The `removeUser` / `addUser` calls that one pass of `syncOnce` issues for
a node in xray-grpc mode are an initial part of the plan "remove every element of
`toRemove` (ascending), then add every element of `toAdd` (ascending)", and the
whole plan when `applyErr` is nil. No add is issued before a remove, and an add
is issued only after every identity of `toRemove` has been removed. -/
theorem C2_remove_before_add (env : Env σ) (cfg : Config) (nodeID : Int)
    (normalized : List String) (appliedPath hash : String) (lastHash : Int → String) (s : σ) :
    (nodeDiff env normalized appliedPath s).2.Sorted (· < ·) ∧
    (nodeDiff env normalized appliedPath s).1.Sorted (· < ·) ∧
    calls (syncXray env cfg nodeID normalized appliedPath hash lastHash s).log <+:
      nodePlan env cfg nodeID normalized appliedPath s ∧
    ((xrayApply env cfg nodeID normalized appliedPath s).val = none →
      calls (syncXray env cfg nodeID normalized appliedPath hash lastHash s).log =
        nodePlan env cfg nodeID normalized appliedPath s) ∧
    (∀ (i j : Nat) t a p t1 b,
      (calls (syncXray env cfg nodeID normalized appliedPath hash lastHash s).log)[i]? =
        some (Call.add t a p) →
      (calls (syncXray env cfg nodeID normalized appliedPath hash lastHash s).log)[j]? =
        some (Call.remove t1 b) → j < i) ∧
    (∀ (i : Nat) t B p A,
      (calls (syncXray env cfg nodeID normalized appliedPath hash lastHash s).log)[i]? =
        some (Call.add t B p) →
      A ∈ (loadPrev env appliedPath s).val → A ∉ normalized →
      ∃ j : Nat, j < i ∧
        (calls (syncXray env cfg nodeID normalized appliedPath hash lastHash s).log)[j]? =
          some (Call.remove (nodeTag cfg nodeID) A)) ∧
    (∀ (i j : Nat) t a p t1 b,
      (calls (syncNode env cfg nodeID lastHash s).log)[i]? = some (Call.add t a p) →
      (calls (syncNode env cfg nodeID lastHash s).log)[j]? = some (Call.remove t1 b) →
      j < i) := by
  have hm := diffUsers_mem (loadPrev env appliedPath s).val normalized (setKeys normalized)
    (setKeys (loadPrev env appliedPath s).val) (List.Perm.refl _) (List.Perm.refl _)
  have hs := diffUsers_sorted (loadPrev env appliedPath s).val normalized (setKeys normalized)
    (setKeys (loadPrev env appliedPath s).val) (List.Perm.refl _) (List.Perm.refl _)
  obtain ⟨hp, hfull⟩ := xrayApply_calls env cfg nodeID normalized appliedPath s
  have ho := plan_order _ _ _ _ _ hp
  refine ⟨hs.2, hs.1, ?_, ?_, ?_, ?_, ?_⟩
  · rw [syncXray_calls]; exact hp
  · intro h; rw [syncXray_calls]; exact hfull h
  · rw [syncXray_calls]; exact ho.1
  · rw [syncXray_calls]
    intro i t B p A hi hA hn
    exact ho.2 i t B p hi A ((hm.2 A).mpr ⟨hA, hn⟩)
  · rcases syncNode_cases env cfg nodeID lastHash s with ⟨hq, _⟩ | ⟨raw, _, _, _, pre, ap, s1, hq, hl, _, _⟩
    · rw [calls_quiet hq]
      intro i j t a p t1 b hi
      simp at hi
    · rw [hl, calls_append, calls_quiet hq, List.nil_append, syncXray_calls]
      exact (plan_order _ _ _ _ _ (xrayApply_calls env cfg nodeID (normalize raw) ap s1).1).1

/-! ## Failure and success of a node's pass -/

theorem save_events_quiet {l : List Event} (h : ∀ e ∈ l, e.quiet = true) :
    ∀ e ∈ l, e.isSaveApplied = false := fun e he => quiet_save (h e he)

/-- C3. If some `removeUser` or `addUser` call of a node's pass returns an
error, the failing call is the last thing the pass does (no later operation is
attempted), `saveAppliedState` is not called, so `applied.json` is not written,
and `lastHash` is the map it was before. -/
theorem C3_first_failure_aborts (env : Env σ) (cfg : Config) (nodeID : Int)
    (lastHash : Int → String) (s : σ)
    (h : ∃ e ∈ (syncNode env cfg nodeID lastHash s).log, e.failed = true) :
    (∃ pre last, (syncNode env cfg nodeID lastHash s).log = pre ++ [last] ∧
      last.failed = true ∧ ∀ e ∈ pre, e.failed = false) ∧
    (∀ e ∈ (syncNode env cfg nodeID lastHash s).log, e.isSaveApplied = false) ∧
    (syncNode env cfg nodeID lastHash s).lastHash = lastHash := by
  obtain ⟨bad, hbad, hfail⟩ := h
  rcases syncNode_cases env cfg nodeID lastHash s with
    ⟨hq, _⟩ | ⟨raw, _, _, _, pre, ap, s1, hq, hl, hlh, _⟩
  · have := quiet_failed (hq bad hbad)
    rw [hfail] at this
    exact Bool.noConfusion this
  · obtain ⟨x1, x2⟩ := syncXray_spec env cfg nodeID (normalize raw) ap
      (fingerprint nodeID (env.now (env.fetchAllowedUUIDs nodeID s).2).1 (normalize raw))
      lastHash s1
    obtain ⟨a1, a2, a3⟩ := xrayApply_shape env cfg nodeID (normalize raw) ap s1
    cases hv : (xrayApply env cfg nodeID (normalize raw) ap s1).val with
    | none =>
      exfalso
      obtain ⟨t, err, hlog, _⟩ := x2 hv
      rw [hl, hlog] at hbad
      simp only [List.mem_append, List.mem_cons, List.mem_singleton, List.not_mem_nil,
        or_false] at hbad
      rcases hbad with hb | hb | hb | hb | hb
      · have := quiet_failed (hq bad hb)
        rw [hfail] at this
        exact Bool.noConfusion this
      · have := (a2 hv).2 bad hb
        rw [hfail] at this
        exact Bool.noConfusion this
      · subst hb; exact Bool.noConfusion hfail
      · subst hb; exact Bool.noConfusion hfail
      · subst hb; exact Bool.noConfusion hfail
    | some e =>
      have hne : (xrayApply env cfg nodeID (normalize raw) ap s1).val ≠ none := by simp [hv]
      obtain ⟨hlog, hkeep⟩ := x1 hne
      obtain ⟨⟨pre2, last, c1, c2, c3⟩, _⟩ := a3 hne
      refine ⟨⟨pre ++ pre2, last, by rw [hl, hlog, c1, List.append_assoc], c2, ?_⟩, ?_, ?_⟩
      · intro e he
        rcases List.mem_append.mp he with h1 | h1
        · exact quiet_failed (hq e h1)
        · exact c3 e h1
      · intro e he
        rw [hl, hlog] at he
        rcases List.mem_append.mp he with h1 | h1
        · exact quiet_save (hq e h1)
        · exact a1 e h1
      · rw [hlh, hkeep]

/-- What a successful `saveAppliedState` in the log of a node's pass tells. -/
theorem syncNode_saved (env : Env σ) (cfg : Config) (nodeID : Int)
    (lastHash : Int → String) (s : σ) (path : String) (n : Int) (uuids : List String)
    (err : Option String)
    (h : Event.saveAppliedState path n uuids err ∈ (syncNode env cfg nodeID lastHash s).log) :
    ∃ raw, (env.fetchAllowedUUIDs nodeID s).1 = .ok raw ∧ uuids = normalize raw ∧ n = nodeID ∧
      cfg.ApplyMode = "xray-grpc" ∧
      (∀ e ∈ (syncNode env cfg nodeID lastHash s).log, e.failed = false) ∧
      (err = none →
        (syncNode env cfg nodeID lastHash s).lastHash = Function.update lastHash nodeID
          (fingerprint nodeID (env.now (env.fetchAllowedUUIDs nodeID s).2).1 (normalize raw)) ∧
        (syncNode env cfg nodeID lastHash s).ret = none) := by
  rcases syncNode_cases env cfg nodeID lastHash s with
    ⟨hq, _⟩ | ⟨raw, hraw, hm, _, pre, ap, s1, hq, hl, hlh, hret⟩
  · have := hq _ h
    exact Bool.noConfusion this
  · obtain ⟨x1, x2⟩ := syncXray_spec env cfg nodeID (normalize raw) ap
      (fingerprint nodeID (env.now (env.fetchAllowedUUIDs nodeID s).2).1 (normalize raw))
      lastHash s1
    obtain ⟨a1, a2, a3⟩ := xrayApply_shape env cfg nodeID (normalize raw) ap s1
    cases hv : (xrayApply env cfg nodeID (normalize raw) ap s1).val with
    | some e =>
      exfalso
      have hne : (xrayApply env cfg nodeID (normalize raw) ap s1).val ≠ none := by simp [hv]
      rw [hl, (x1 hne).1] at h
      rcases List.mem_append.mp h with h1 | h1
      · exact Bool.noConfusion (hq _ h1)
      · have := a1 _ h1
        exact Bool.noConfusion this
    | none =>
      obtain ⟨t, err2, hlog, hok, _⟩ := x2 hv
      rw [hl, hlog] at h
      simp only [List.mem_append, List.mem_cons, List.mem_singleton, List.not_mem_nil,
        or_false] at h
      have hnf : ∀ e ∈ (syncNode env cfg nodeID lastHash s).log, e.failed = false := by
        intro e he
        rw [hl, hlog] at he
        simp only [List.mem_append, List.mem_cons, List.mem_singleton, List.not_mem_nil,
          or_false] at he
        rcases he with hb | hb | hb | hb | hb
        · exact quiet_failed (hq e hb)
        · exact (a2 hv).2 e hb
        · subst hb; rfl
        · subst hb; rfl
        · subst hb; rfl
      rcases h with hb | hb | hb | hb | hb
      · exact Bool.noConfusion (hq _ hb)
      · exact Bool.noConfusion (a1 _ hb)
      · exact Event.noConfusion hb
      · exact Event.noConfusion hb
      · injection hb with e1 e2 e3 e4
        refine ⟨raw, hraw, e3, e2, hm, hnf, ?_⟩
        intro he
        have := hok (e4 ▸ he)
        rw [hlh, hret]
        exact this

theorem C3_first_failure_witness :
    (∃ e ∈ (syncNode (simEnv simFault) cfgXray 1 (fun _ => "") world0).log, e.failed = true) ∧
    (∀ e ∈ (syncNode (simEnv simFault) cfgXray 1 (fun _ => "") world0).log,
      e.isSaveApplied = false) ∧
    (syncNode (simEnv simFault) cfgXray 1 (fun _ => "") world0).lastHash 1 = "" :=
  have h : ∃ e ∈ (syncNode (simEnv simFault) cfgXray 1 (fun _ => "") world0).log,
      e.failed = true := by decide
  ⟨h, (C3_first_failure_aborts (simEnv simFault) cfgXray 1 (fun _ => "") world0 h).2.1,
    by rw [(C3_first_failure_aborts (simEnv simFault) cfgXray 1 (fun _ => "") world0 h).2.2]⟩

/-! ## The connector against a backend that holds a set of users -/

theorem strContains_mid (p sub q : String) : strContains (p ++ sub ++ q) sub = true := by
  unfold strContains
  rw [List.any_eq_true]
  refine ⟨sub.toList ++ q.toList, ?_, ?_⟩
  · rw [List.mem_tails]
    exact ⟨p.toList, by simp [String.toList]⟩
  · rw [List.isPrefixOf_iff_prefix]
    exact List.prefix_append _ _

theorem toLower_append (tbl : Char → Char) (a b : String) :
    toLower tbl (a ++ b) = toLower tbl a ++ toLower tbl b := by
  unfold toLower
  apply String.ext
  simp [String.toList]

theorem notFound_tolerated (env : Env σ) (email : String) :
    isXrayNotFoundErr env (some ("User " ++ email ++ " not found.")) = true := by
  unfold isXrayNotFoundErr
  simp only [toLower_append]
  have h : toLower env.lowerTable " not found." = " " ++ "not found" ++ "." := by rfl
  rw [h, ← String.append_assoc, ← String.append_assoc, strContains_mid]
  rfl

theorem alreadyExists_tolerated (env : Env σ) (email : String) :
    isXrayAlreadyExistsErr env (some ("User " ++ email ++ " already exists.")) = true := by
  unfold isXrayAlreadyExistsErr
  simp only [toLower_append]
  have h : toLower env.lowerTable " already exists." = " " ++ "already exists" ++ "." := by
    rfl
  rw [h, ← String.append_assoc, ← String.append_assoc, strContains_mid]
  rfl

theorem sim_dial (sim : Sim) (addr : String) (timeout : Int) (w : World) :
    (simEnv sim).dial addr timeout w = (none, w) := rfl

theorem sim_alterInbound (sim : Sim) (tag : String) (op : Operation) (w : World) :
    (simEnv sim).alterInbound tag op w =
      ((xrayAlter sim op w.users).1, { w with users := (xrayAlter sim op w.users).2 }) := rfl

theorem sim_removeUser (sim : Sim) (hf : ∀ op, sim.fault op = none) (x : XrayClient)
    (tag u : String) (w : World) :
    (x.removeUser (simEnv sim) tag u w).val = none ∧
    (x.removeUser (simEnv sim) tag u w).st.users = w.users.filter (fun v => decide (v ≠ u)) := by
  unfold XrayClient.removeUser XrayClient.dial
  simp only [sim_dial, sim_alterInbound, xrayAlter, hf]
  by_cases h : u ∈ w.users
  · simp [h]
  · have hfil : w.users.filter (fun v => decide (v ≠ u)) = w.users := by
      rw [List.filter_eq_self]
      intro a ha
      simp only [ne_eq, decide_eq_true_eq]
      exact fun e => h (e ▸ ha)
    have ht := notFound_tolerated (simEnv sim) u
    simp only [h, if_false, ht, hfil]
    simp

theorem sim_removeAll (sim : Sim) (hf : ∀ op, sim.fault op = none) (x : XrayClient)
    (tag : String) (l : List String) : ∀ w : World,
    (removeAll (simEnv sim) x tag l w).val = none ∧
    (removeAll (simEnv sim) x tag l w).st.users =
      w.users.filter (fun v => !decide (v ∈ l)) := by
  induction l with
  | nil => intro w; simp [removeAll, forUsers]
  | cons u rest ih =>
    intro w
    obtain ⟨h1, h2⟩ := sim_removeUser sim hf x tag u w
    obtain ⟨i1, i2⟩ := ih (x.removeUser (simEnv sim) tag u w).st
    unfold removeAll at i1 i2 ⊢
    simp only [forUsers, h1]
    refine ⟨i1, ?_⟩
    rw [i2, h2, List.filter_filter]
    congr 1
    funext v
    by_cases hv : v = u <;> simp [hv]

theorem buildUser_ok (env : Env σ) (x : XrayClient) (u protoName : String)
    (hp : protoName = "vless" ∨ protoName = "vmess") :
    ∃ acc, x.buildUser env u protoName = .ok ⟨0, u, acc⟩ := by
  unfold XrayClient.buildUser
  rcases hp with rfl | rfl
  · have h : toLower env.lowerTable (trimSpace "vless") = "vless" := by rfl
    simp only [h]
    exact ⟨_, rfl⟩
  · have h : toLower env.lowerTable (trimSpace "vmess") = "vmess" := by rfl
    simp only [h]
    exact ⟨_, rfl⟩

theorem sim_addUser (sim : Sim) (hf : ∀ op, sim.fault op = none) (x : XrayClient)
    (tag u protoName : String) (hp : protoName = "vless" ∨ protoName = "vmess") (w : World) :
    (x.addUser (simEnv sim) tag u protoName w).val = none ∧
    ∀ v, v ∈ (x.addUser (simEnv sim) tag u protoName w).st.users ↔ v ∈ w.users ∨ v = u := by
  obtain ⟨acc, hb⟩ := buildUser_ok (simEnv sim) x u protoName hp
  unfold XrayClient.addUser XrayClient.dial
  simp only [hb]
  simp only [sim_dial, sim_alterInbound, xrayAlter, hf]
  by_cases h : u ∈ w.users
  · have ht := alreadyExists_tolerated (simEnv sim) u
    simp only [h, if_true, ht]
    refine ⟨by simp, fun v => ⟨fun hv => Or.inl (by simpa using hv), ?_⟩⟩
    rintro (hv | rfl)
    · simpa using hv
    · simpa using h
  · simp [h]

theorem sim_addAll (sim : Sim) (hf : ∀ op, sim.fault op = none) (x : XrayClient)
    (tag protoName : String) (hp : protoName = "vless" ∨ protoName = "vmess")
    (l : List String) : ∀ w : World,
    (addAll (simEnv sim) x tag protoName l w).val = none ∧
    ∀ v, v ∈ (addAll (simEnv sim) x tag protoName l w).st.users ↔ v ∈ w.users ∨ v ∈ l := by
  induction l with
  | nil => intro w; simp [addAll, forUsers]
  | cons u rest ih =>
    intro w
    obtain ⟨h1, h2⟩ := sim_addUser sim hf x tag u protoName hp w
    obtain ⟨i1, i2⟩ := ih (x.addUser (simEnv sim) tag u protoName w).st
    unfold addAll at i1 i2 ⊢
    simp only [forUsers, h1]
    refine ⟨i1, fun v => ?_⟩
    rw [i2 v, h2 v, List.mem_cons]
    tauto

theorem inferProto_cases (env : Env σ) (tag : String) :
    inferProtoFromTag env tag = "vless" ∨ inferProtoFromTag env tag = "vmess" := by
  unfold inferProtoFromTag
  simp only
  split
  · exact Or.inr rfl
  · split <;> exact Or.inl rfl

theorem sim_loadPrev_st (sim : Sim) (appliedPath : String) (w : World) :
    (loadPrev (simEnv sim) appliedPath w).st = w := by
  unfold loadPrev loadAppliedState
  simp only [simEnv]
  cases fileGet w.files appliedPath with
  | none => rfl
  | some c =>
    simp only
    split
    · rfl
    · cases sim.decodeApplied c <;> rfl

/-- In the simulated world `loadPrev` yields the decoded content of a non-empty
`applied.json`. -/
theorem sim_loadPrev_file (sim : Sim) (appliedPath : String) (w : World) (b : String)
    (prev : List String) (hfile : fileGet w.files appliedPath = some b) (hne : b ≠ "")
    (hdec : sim.decodeApplied b = .ok prev) :
    (loadPrev (simEnv sim) appliedPath w).val = prev := by
  unfold loadPrev loadAppliedState
  simp only [simEnv, hfile, hne, if_false, hdec]

/-- In the simulated world `loadPrev` yields the empty list when `applied.json`
is absent or empty. -/
theorem sim_loadPrev_none (sim : Sim) (appliedPath : String) (w : World)
    (hfile : fileGet w.files appliedPath = none ∨ fileGet w.files appliedPath = some "") :
    (loadPrev (simEnv sim) appliedPath w).val = [] := by
  unfold loadPrev loadAppliedState
  rcases hfile with h | h <;> simp [simEnv, h]

/-- Against an Xray that holds the applied set, `xrayApply` succeeds and leaves
Xray holding the desired set. -/
theorem sim_xrayApply (sim : Sim) (hf : ∀ op, sim.fault op = none) (cfg : Config)
    (nodeID : Int) (normalized : List String) (appliedPath : String) (w : World)
    (hw : ∀ u, u ∈ w.users ↔ u ∈ (loadPrev (simEnv sim) appliedPath w).val) :
    (xrayApply (simEnv sim) cfg nodeID normalized appliedPath w).val = none ∧
    ∀ u, u ∈ (xrayApply (simEnv sim) cfg nodeID normalized appliedPath w).st.users ↔
      u ∈ normalized := by
  obtain ⟨hA, hR⟩ := diffUsers_mem (loadPrev (simEnv sim) appliedPath w).val normalized
    (setKeys normalized) (setKeys (loadPrev (simEnv sim) appliedPath w).val)
    (List.Perm.refl _) (List.Perm.refl _)
  have hunf : xrayApply (simEnv sim) cfg nodeID normalized appliedPath w =
      ⟨(applyUsers (simEnv sim)
          (newXrayClient cfg.XrayAPIAddr cfg.XrayRPCTimeout cfg.XrayVlessFlow)
          (nodeTag cfg nodeID) (inferProtoFromTag (simEnv sim) (nodeTag cfg nodeID))
          (nodeDiff (simEnv sim) normalized appliedPath w).2
          (nodeDiff (simEnv sim) normalized appliedPath w).1 w).val,
       (applyUsers (simEnv sim)
          (newXrayClient cfg.XrayAPIAddr cfg.XrayRPCTimeout cfg.XrayVlessFlow)
          (nodeTag cfg nodeID) (inferProtoFromTag (simEnv sim) (nodeTag cfg nodeID))
          (nodeDiff (simEnv sim) normalized appliedPath w).2
          (nodeDiff (simEnv sim) normalized appliedPath w).1 w).st,
       (loadPrev (simEnv sim) appliedPath w).log ++
       (applyUsers (simEnv sim)
          (newXrayClient cfg.XrayAPIAddr cfg.XrayRPCTimeout cfg.XrayVlessFlow)
          (nodeTag cfg nodeID) (inferProtoFromTag (simEnv sim) (nodeTag cfg nodeID))
          (nodeDiff (simEnv sim) normalized appliedPath w).2
          (nodeDiff (simEnv sim) normalized appliedPath w).1 w).log⟩ := by
    unfold xrayApply nodeDiff
    have e1 : ∀ keys (w1 : World), (simEnv sim).mapRange keys w1 = (keys, w1) := fun _ _ => rfl
    simp only [e1, sim_loadPrev_st]
  rw [hunf]
  simp only
  obtain ⟨r1, r2⟩ := sim_removeAll sim hf
    (newXrayClient cfg.XrayAPIAddr cfg.XrayRPCTimeout cfg.XrayVlessFlow) (nodeTag cfg nodeID)
    (nodeDiff (simEnv sim) normalized appliedPath w).2 w
  obtain ⟨a1, a2⟩ := sim_addAll sim hf
    (newXrayClient cfg.XrayAPIAddr cfg.XrayRPCTimeout cfg.XrayVlessFlow) (nodeTag cfg nodeID)
    (inferProtoFromTag (simEnv sim) (nodeTag cfg nodeID))
    (inferProto_cases (simEnv sim) (nodeTag cfg nodeID))
    (nodeDiff (simEnv sim) normalized appliedPath w).1
    (removeAll (simEnv sim)
      (newXrayClient cfg.XrayAPIAddr cfg.XrayRPCTimeout cfg.XrayVlessFlow) (nodeTag cfg nodeID)
      (nodeDiff (simEnv sim) normalized appliedPath w).2 w).st
  unfold applyUsers
  simp only [r1]
  refine ⟨a1, fun u => ?_⟩
  rw [a2 u, r2]
  simp only [List.mem_filter, Bool.not_eq_true', decide_eq_false_iff_not]
  unfold nodeDiff
  rw [hA u, hR u, hw u]
  tauto

/-- C4. If the log of a node's pass holds a `saveAppliedState` that returned nil,
then the panel was fetched, every backend call succeeded, the saved identities
are the normalised fetched list, and `lastHash[nodeID]` is the new fingerprint.
And against an Xray that holds, before the pass, exactly the identities that
`applied.json` records (the decoded content `prev` of the file, whatever list
that is; no identity when the file is absent or empty), `applyErr` is nil and
Xray holds exactly the desired set afterwards. -/
theorem C4_success_converges :
    (∀ (σ : Type) (env : Env σ) (cfg : Config) (nodeID : Int) (lastHash : Int → String) (s : σ)
      (path : String) (n : Int) (uuids : List String),
      Event.saveAppliedState path n uuids none ∈ (syncNode env cfg nodeID lastHash s).log →
      ∃ raw, (env.fetchAllowedUUIDs nodeID s).1 = .ok raw ∧ n = nodeID ∧
        uuids = normalize raw ∧
        (∀ e ∈ (syncNode env cfg nodeID lastHash s).log, e.failed = false) ∧
        (syncNode env cfg nodeID lastHash s).lastHash nodeID =
          fingerprint nodeID (env.now (env.fetchAllowedUUIDs nodeID s).2).1 (normalize raw) ∧
        (syncNode env cfg nodeID lastHash s).ret = none) ∧
    (∀ (sim : Sim) (cfg : Config) (nodeID : Int) (normalized : List String)
      (appliedPath : String) (w : World) (b : String) (prev : List String),
      (∀ op, sim.fault op = none) →
      fileGet w.files appliedPath = some b → b ≠ "" → sim.decodeApplied b = .ok prev →
      (∀ u, u ∈ w.users ↔ u ∈ prev) →
      (xrayApply (simEnv sim) cfg nodeID normalized appliedPath w).val = none ∧
      ∀ u, u ∈ (xrayApply (simEnv sim) cfg nodeID normalized appliedPath w).st.users ↔
        u ∈ normalized) ∧
    (∀ (sim : Sim) (cfg : Config) (nodeID : Int) (normalized : List String)
      (appliedPath : String) (w : World),
      (∀ op, sim.fault op = none) →
      (fileGet w.files appliedPath = none ∨ fileGet w.files appliedPath = some "") →
      w.users = [] →
      (xrayApply (simEnv sim) cfg nodeID normalized appliedPath w).val = none ∧
      ∀ u, u ∈ (xrayApply (simEnv sim) cfg nodeID normalized appliedPath w).st.users ↔
        u ∈ normalized) := by
  refine ⟨?_, ?_, ?_⟩
  · intro σ env cfg nodeID lastHash s path n uuids h
    obtain ⟨raw, h1, h2, h3, _, h5, h6⟩ :=
      syncNode_saved env cfg nodeID lastHash s path n uuids none h
    refine ⟨raw, h1, h3, h2, h5, ?_, (h6 rfl).2⟩
    rw [(h6 rfl).1, Function.update_same]
  · intro sim cfg nodeID normalized appliedPath w b prev hf hfile hne hdec hw
    refine sim_xrayApply sim hf cfg nodeID normalized appliedPath w ?_
    rw [sim_loadPrev_file sim appliedPath w b prev hfile hne hdec]
    exact hw
  · intro sim cfg nodeID normalized appliedPath w hf hfile hw
    refine sim_xrayApply sim hf cfg nodeID normalized appliedPath w ?_
    rw [sim_loadPrev_none sim appliedPath w hfile, hw]
    exact fun u => Iff.rfl

theorem C4_success_witness :
    fileGet worldApplied.files "out/node-1/applied.json" =
      some (appliedJSON 1 "2024-01-01T00:00:00Z" ["a"]) ∧
    decodeAppliedPlain (appliedJSON 1 "2024-01-01T00:00:00Z" ["a"]) = .ok ["a"] ∧
    worldApplied.users = ["a"] ∧
    Event.saveAppliedState "out/node-1/applied.json" 1 ["b"] none ∈
      (syncNode (simEnv simPanelB) cfgXrayOne 1 (fun _ => "") worldApplied).log ∧
    (syncNode (simEnv simPanelB) cfgXrayOne 1 (fun _ => "") worldApplied).lastHash 1 =
      fingerprint 1 "2024-01-01T00:00:00Z" ["b"] ∧
    calls (syncNode (simEnv simPanelB) cfgXrayOne 1 (fun _ => "") worldApplied).log =
      [Call.remove "in-vless-reality" "a", Call.add "in-vless-reality" "b" "vless"] ∧
    (syncNode (simEnv simPanelB) cfgXrayOne 1 (fun _ => "") worldApplied).st.users = ["b"] ∧
    ((xrayApply (simEnv simPanelB) cfgXrayOne 1 ["b"] "out/node-1/applied.json"
        worldApplied).val = none ∧
      ∀ u, u ∈ (xrayApply (simEnv simPanelB) cfgXrayOne 1 ["b"] "out/node-1/applied.json"
        worldApplied).st.users ↔ u ∈ ["b"]) ∧
    ((xrayApply (simEnv simPlain) cfgXrayOne 1 ["b", "c"] "out/node-1/applied.json"
        world0).val = none ∧
      ∀ u, u ∈ (xrayApply (simEnv simPlain) cfgXrayOne 1 ["b", "c"] "out/node-1/applied.json"
        world0).st.users ↔ u ∈ ["b", "c"]) :=
  have h : Event.saveAppliedState "out/node-1/applied.json" 1 ["b"] none ∈
      (syncNode (simEnv simPanelB) cfgXrayOne 1 (fun _ => "") worldApplied).log := by decide
  ⟨by decide, by decide, rfl, h, by
    obtain ⟨raw, h1, _, _, _, h5, _⟩ := C4_success_converges.1 World (simEnv simPanelB)
      cfgXrayOne 1 (fun _ => "") worldApplied "out/node-1/applied.json" 1 ["b"] h
    have e : raw = ["b"] := by
      have : (Except.ok ["b"] : Except String (List String)) = Except.ok raw := h1
      injection this with this
      exact this.symm
    subst e
    exact h5, by decide, by decide,
    C4_success_converges.2.1 simPanelB cfgXrayOne 1 ["b"] "out/node-1/applied.json"
      worldApplied (appliedJSON 1 "2024-01-01T00:00:00Z" ["a"]) ["a"] (fun _ => rfl)
      (by decide) (by decide) (by decide) (fun _ => Iff.rfl),
    C4_success_converges.2.2 simPlain cfgXrayOne 1 ["b", "c"] "out/node-1/applied.json"
      world0 (fun _ => rfl) (Or.inl (by decide)) rfl⟩

/-! ## Traffic deltas -/

theorem wrapInt64_id (x : Int) (h1 : -9223372036854775808 ≤ x) (h2 : x < 9223372036854775808) :
    wrapInt64 x = x := by
  unfold wrapInt64
  omega

theorem reports_append (a b : List Event) : reports (a ++ b) = reports a ++ reports b := by
  simp [reports, List.filterMap_append]

theorem getUserTraffic_reports (env : Env σ) (x : XrayClient) (uuid : String) (s : σ) :
    reports (x.getUserTraffic env uuid s).log = [] := by
  unfold XrayClient.getUserTraffic XrayClient.dial
  simp only
  split
  · rfl
  · split
    · rfl
    · split <;> rfl

theorem trafficStep_reports (env : Env σ) (x : XrayClient) (nodeID : Int)
    (prevTraffic : TrafficMap) (uuid : String) (newTraffic : TrafficMap) (s : σ)
    (up down : Int) (hq : (x.getUserTraffic env uuid s).val = .ok (up, down)) :
    (trafficStep env x nodeID prevTraffic uuid newTraffic s).val =
      mapSet newTraffic uuid ⟨up, down⟩ ∧
    reports (trafficStep env x nodeID prevTraffic uuid newTraffic s).log =
      if 0 < (trafficDelta (mapGet prevTraffic uuid) up down).1 ∨
          0 < (trafficDelta (mapGet prevTraffic uuid) up down).2 then
        [(nodeID, uuid, (trafficDelta (mapGet prevTraffic uuid) up down).1,
          (trafficDelta (mapGet prevTraffic uuid) up down).2)]
      else [] := by
  unfold trafficStep
  simp only [hq]
  split
  · refine ⟨rfl, ?_⟩
    rw [reports_append, getUserTraffic_reports]
    rfl
  · exact ⟨rfl, getUserTraffic_reports env x uuid s⟩

theorem trafficLoop_append (env : Env σ) (x : XrayClient) (nodeID : Int)
    (prevTraffic : TrafficMap) (pre post : List String) : ∀ (nt : TrafficMap) (s : σ),
    trafficLoop env x nodeID prevTraffic (pre ++ post) nt s =
      ⟨(trafficLoop env x nodeID prevTraffic post
          (trafficLoop env x nodeID prevTraffic pre nt s).val
          (trafficLoop env x nodeID prevTraffic pre nt s).st).val,
        (trafficLoop env x nodeID prevTraffic post
          (trafficLoop env x nodeID prevTraffic pre nt s).val
          (trafficLoop env x nodeID prevTraffic pre nt s).st).st,
        (trafficLoop env x nodeID prevTraffic pre nt s).log ++
        (trafficLoop env x nodeID prevTraffic post
          (trafficLoop env x nodeID prevTraffic pre nt s).val
          (trafficLoop env x nodeID prevTraffic pre nt s).st).log⟩ := by
  induction pre with
  | nil => intro nt s; simp [trafficLoop]
  | cons u rest ih =>
    intro nt s
    rw [List.cons_append]
    simp only [trafficLoop]
    rw [ih]
    simp only [List.append_assoc]

/-- C8. For an active identity whose counter query succeeds with `(up, down)`:
the deltas are the raw counters when the prior snapshot has no entry, and the
`int64` differences `up - prev.Upload`, `down - prev.Download` when it has one
(the plain differences whenever those fit `int64`, as for non-negative counters);
the pass over the identity sends exactly one report carrying the two deltas when
one of them is strictly positive and none otherwise, and this is what the
identity contributes to the reports of the whole loop. A prior `(100, 50)` and
counters `(180, 50)` give the deltas `(80, 0)`; a first observation `(30, 10)`
gives `(30, 10)`. -/
theorem C8_traffic_delta (env : Env σ) (x : XrayClient) (nodeID : Int)
    (prevTraffic : TrafficMap) (uuid : String) (newTraffic : TrafficMap) (s : σ)
    (up down : Int) (hq : (x.getUserTraffic env uuid s).val = .ok (up, down)) :
    (mapGet prevTraffic uuid = none → trafficDelta (mapGet prevTraffic uuid) up down = (up, down)) ∧
    (∀ p, mapGet prevTraffic uuid = some p →
      trafficDelta (mapGet prevTraffic uuid) up down =
        (wrapInt64 (up - p.upload), wrapInt64 (down - p.download)) ∧
      (-9223372036854775808 ≤ up - p.upload → up - p.upload < 9223372036854775808 →
        -9223372036854775808 ≤ down - p.download → down - p.download < 9223372036854775808 →
        trafficDelta (mapGet prevTraffic uuid) up down = (up - p.upload, down - p.download))) ∧
    (reports (trafficStep env x nodeID prevTraffic uuid newTraffic s).log =
      if 0 < (trafficDelta (mapGet prevTraffic uuid) up down).1 ∨
          0 < (trafficDelta (mapGet prevTraffic uuid) up down).2 then
        [(nodeID, uuid, (trafficDelta (mapGet prevTraffic uuid) up down).1,
          (trafficDelta (mapGet prevTraffic uuid) up down).2)]
      else []) ∧
    (∀ (pre post : List String) (nt0 : TrafficMap) (s0 : σ),
      (trafficLoop env x nodeID prevTraffic pre nt0 s0).st = s →
      (trafficLoop env x nodeID prevTraffic pre nt0 s0).val = newTraffic →
      reports (trafficLoop env x nodeID prevTraffic (pre ++ uuid :: post) nt0 s0).log =
        reports (trafficLoop env x nodeID prevTraffic pre nt0 s0).log ++
        (if 0 < (trafficDelta (mapGet prevTraffic uuid) up down).1 ∨
            0 < (trafficDelta (mapGet prevTraffic uuid) up down).2 then
          [(nodeID, uuid, (trafficDelta (mapGet prevTraffic uuid) up down).1,
            (trafficDelta (mapGet prevTraffic uuid) up down).2)]
        else []) ++
        reports (trafficLoop env x nodeID prevTraffic post
          (trafficStep env x nodeID prevTraffic uuid newTraffic s).val
          (trafficStep env x nodeID prevTraffic uuid newTraffic s).st).log) ∧
    trafficDelta (some ⟨100, 50⟩) 180 50 = (80, 0) ∧
    trafficDelta none 30 10 = (30, 10) := by
  have hstep := trafficStep_reports env x nodeID prevTraffic uuid newTraffic s up down hq
  refine ⟨?_, ?_, hstep.2, ?_, by decide, by decide⟩
  · intro h; rw [h]; rfl
  · intro p hp
    rw [hp]
    refine ⟨rfl, ?_⟩
    intro h1 h2 h3 h4
    simp only [trafficDelta, wrapInt64_id _ h1 h2, wrapInt64_id _ h3 h4]
  · intro pre post nt0 s0 hs hv
    rw [trafficLoop_append]
    simp only [trafficLoop, hs, hv, reports_append, hstep.2, List.append_assoc]

theorem C8_traffic_witness :
    (XrayClient.getUserTraffic (simEnv simTraffic) (newXrayClient "" 0 "") "a" world0).val =
      .ok (180, 50) ∧
    reports (trafficStep (simEnv simTraffic) (newXrayClient "" 0 "") 1 [("a", ⟨100, 50⟩)] "a" []
      world0).log = [(1, "a", 80, 0)] ∧
    reports (trafficStep (simEnv simTraffic) (newXrayClient "" 0 "") 1 [("a", ⟨180, 50⟩)] "a" []
      world0).log = [] :=
  ⟨by decide,
    (C8_traffic_delta (simEnv simTraffic) (newXrayClient "" 0 "") 1 [("a", ⟨100, 50⟩)] "a" []
      world0 180 50 (by decide)).2.2.1.trans (by decide),
    by decide⟩

/-! ## Tolerated backend errors -/

/-- The SHA-256 test vector "abc" of FIPS 180-4. -/
theorem sha256Hex_abc :
    sha256Hex "abc" = "ba7816bf8f01cfea414140de5dae2223b00361a396177a9cb410ff61f20015ad" := by
  decide

theorem jsonEscape_plain (c : Char) (h : 39 < c.toNat ∧ c.toNat < 60 ∨ 62 < c.toNat ∧ c.toNat < 92) :
    jsonEscape c = [c] := by
  unfold jsonEscape
  simp only
  split_ifs <;> first | rfl | (exfalso; omega)

theorem jsonString_plain (t : String) (h : plainTime t) :
    (jsonString t).data = Char.ofNat 34 :: (t.data ++ [Char.ofNat 34]) := by
  have key : ∀ l : List Char,
      (∀ c ∈ l, 39 < c.toNat ∧ c.toNat < 60 ∨ 62 < c.toNat ∧ c.toNat < 92) →
      List.flatten (l.map jsonEscape) = l := by
    intro l
    induction l with
    | nil => intro _; rfl
    | cons a l ih =>
      intro hl
      simp only [List.map_cons, List.flatten_cons,
        jsonEscape_plain a (hl a (List.mem_cons_self _ _)),
        ih (fun c hc => hl c (List.mem_cons_of_mem _ hc))]
      rfl
  show Char.ofNat 34 :: (List.flatten (t.data.map jsonEscape) ++ [Char.ofNat 34]) = _
  rw [key t.data h]

theorem string_append_cancel (a b c d : String) (h : a ++ b ++ c = a ++ d ++ c) : b = d := by
  have hd := congrArg String.data h
  simp only [String.data_append, List.append_assoc, List.append_cancel_left_eq,
    List.append_cancel_right_eq] at hd
  exact String.ext hd

theorem allowedJSON_time_injective (nodeID : Int) (normalized : List String) (t1 t2 : String)
    (h1 : plainTime t1) (h2 : plainTime t2)
    (h : allowedJSON nodeID t1 normalized = allowedJSON nodeID t2 normalized) : t1 = t2 := by
  have hform : ∀ t, allowedJSON nodeID t normalized =
      "\x7b\n  \"generated\": " ++ jsonString t ++
      (",\n  \"node_id\": " ++ (toString nodeID ++ (",\n  \"uuids\": " ++
        (jsonStringArray normalized ++ (",\n  \"uuids_count\": " ++
          (toString normalized.length ++ ("\n\x7d" ++ "\n"))))))) := by
    intro t
    simp only [allowedJSON, String.append_assoc]
  rw [hform t1, hform t2] at h
  have hj := congrArg String.data (string_append_cancel _ _ _ _ h)
  rw [jsonString_plain t1 h1, jsonString_plain t2 h2] at hj
  have := (List.cons.inj hj).2
  exact String.ext (List.append_cancel_right this)

/-- C6. The bytes that `syncOnce` hashes hold the clock reading: for every node
and identity list, two different RFC 3339 readings give different payloads; for
node 1 and the identity list `["a"]`, two readings ten seconds apart give
different fingerprints. -/
theorem C6_fingerprint_depends_on_clock :
    (∀ (nodeID : Int) (normalized : List String) (t1 t2 : String),
      plainTime t1 → plainTime t2 → t1 ≠ t2 →
      allowedJSON nodeID t1 normalized ≠ allowedJSON nodeID t2 normalized) ∧
    allowedJSON 1 "2024-01-01T00:00:00Z" ["a"] =
      "\x7b\n  \"generated\": \"2024-01-01T00:00:00Z\",\n  \"node_id\": 1,\n  \"uuids\": [\n    \"a\"\n  ],\n  \"uuids_count\": 1\n\x7d\n" ∧
    allowedJSON 1 "2024-01-01T00:00:00Z" ["a"] ≠ allowedJSON 1 "2024-01-01T00:00:10Z" ["a"] ∧
    fingerprint 1 "2024-01-01T00:00:00Z" ["a"] =
      "3b0b59e6d5f841e3d409c2c932564e734f1dde239d3175d4f3779a497a09bb1e" ∧
    fingerprint 1 "2024-01-01T00:00:00Z" ["a"] ≠ fingerprint 1 "2024-01-01T00:00:10Z" ["a"] := by
  refine ⟨fun nodeID normalized t1 t2 h1 h2 hne h =>
    hne (allowedJSON_time_injective nodeID normalized t1 t2 h1 h2 h), ?_⟩
  constructorm* _ ∧ _
  all_goals decide

/-- When the fingerprint equals `lastHash[nodeID]`, the pass over the node stops
after `ensureDir`: no file is written, no command is run, no backend call is
made, and `lastHash` is unchanged. -/
theorem syncFiles_unchanged (env : Env σ) (cfg : Config) (nodeID : Int)
    (normalized : List String) (t : String) (lastHash : Int → String) (s : σ)
    (h : lastHash nodeID = fingerprint nodeID t normalized) :
    (∀ e ∈ (syncFiles env cfg nodeID normalized t lastHash s).log,
      e.isWrite = false ∧ e.isExec = false ∧ e.quiet = true) ∧
    (syncFiles env cfg nodeID normalized t lastHash s).lastHash = lastHash := by
  unfold syncFiles ensureDir
  simp only
  have h1 : lastHash nodeID = sha256Hex (allowedJSON nodeID t normalized) := h
  cases hd : (env.mkdirAll (env.joinPath cfg.OutputDir ("node-" ++ toString nodeID)) s).1 with
  | some e => simp [Event.isWrite, Event.isExec, Event.quiet]
  | none => simp [h1, Event.isWrite, Event.isExec, Event.quiet]

/-- C7. A first cycle completes without error and advances `lastHash`; a second
cycle a minute later fetches the same identity set, finds a different
fingerprint, and works again: in command mode it rewrites `allowed-uuids.json`
and runs the apply command; in xray-grpc mode it issues no `addUser` or
`removeUser` but rewrites `allowed-uuids.json` and `applied.json`. (Only when the
fingerprint does equal `lastHash[nodeID]` is the rest of the pass skipped.) -/
theorem C7_second_cycle_works_again :
    (∀ (σ : Type) (env : Env σ) (cfg : Config) (nodeID : Int) (normalized : List String)
      (t : String) (lastHash : Int → String) (s : σ),
      lastHash nodeID = fingerprint nodeID t normalized →
      (∀ e ∈ (syncFiles env cfg nodeID normalized t lastHash s).log,
        e.isWrite = false ∧ e.isExec = false ∧ e.quiet = true) ∧
      (syncFiles env cfg nodeID normalized t lastHash s).lastHash = lastHash) ∧
    (syncOnce (simEnv simPlain) cfgCmdOne (fun _ => "") world0).ret = none ∧
    (syncOnce (simEnv simPlain) cfgCmdOne (fun _ => "") world0).lastHash 1 =
      fingerprint 1 "2024-01-01T00:00:00Z" ["a"] ∧
    (∃ e ∈ (syncOnce (simEnv simPlain) cfgCmdOne
        (syncOnce (simEnv simPlain) cfgCmdOne (fun _ => "") world0).lastHash
        (syncOnce (simEnv simPlain) cfgCmdOne (fun _ => "") world0).st).log,
      e = Event.exec ["sh", "-lc", "reload 1"] none) ∧
    (∃ e ∈ (syncOnce (simEnv simPlain) cfgCmdOne
        (syncOnce (simEnv simPlain) cfgCmdOne (fun _ => "") world0).lastHash
        (syncOnce (simEnv simPlain) cfgCmdOne (fun _ => "") world0).st).log,
      e.isWrite = true) ∧
    (syncOnce (simEnv simPlain) cfgXrayOne (fun _ => "") world0).ret = none ∧
    calls (syncOnce (simEnv simPlain) cfgXrayOne (fun _ => "") world0).log =
      [Call.add "in-vless-reality" "a" "vless"] ∧
    calls (syncOnce (simEnv simPlain) cfgXrayOne
        (syncOnce (simEnv simPlain) cfgXrayOne (fun _ => "") world0).lastHash
        (syncOnce (simEnv simPlain) cfgXrayOne (fun _ => "") world0).st).log = [] ∧
    (∃ e ∈ (syncOnce (simEnv simPlain) cfgXrayOne
        (syncOnce (simEnv simPlain) cfgXrayOne (fun _ => "") world0).lastHash
        (syncOnce (simEnv simPlain) cfgXrayOne (fun _ => "") world0).st).log,
      e.isSaveApplied = true) := by
  refine ⟨fun σ env cfg nodeID normalized t lastHash s h =>
    syncFiles_unchanged env cfg nodeID normalized t lastHash s h, ?_⟩
  constructorm* _ ∧ _
  all_goals decide

theorem syncXray_ret_off (env : Env σ) (cfg : Config) (nodeID : Int) (normalized : List String)
    (appliedPath hash : String) (lastHash : Int → String) (s : σ) (h : cfg.FailFast = false) :
    (syncXray env cfg nodeID normalized appliedPath hash lastHash s).ret = none := by
  unfold syncXray
  simp only [h]
  split
  · rfl
  · split <;> rfl

theorem syncCommand_ret_off (env : Env σ) (cfg : Config) (nodeID : Int)
    (txtPath jsonPath hash : String) (lastHash : Int → String) (s : σ)
    (h : cfg.FailFast = false) :
    (syncCommand env cfg nodeID txtPath jsonPath hash lastHash s).ret = none := by
  unfold syncCommand
  simp only [h]
  split <;> rfl

theorem writeIfChanged_err (env : Env σ) (path content : String) (s : σ) (e : String)
    (h : (writeIfChanged env path content s).val.2 = some e) :
    ∃ ev ∈ (writeIfChanged env path content s).log, ev.fsFailed = true := by
  unfold writeIfChanged at h ⊢
  simp only at h ⊢
  split at h
  · simp at h
  · rename_i hs
    simp only [hs]
    cases hw : (env.writeFile path content (env.readFile path s).2).1 with
    | none => simp [hw] at h
    | some e2 =>
      simp only [hw]
      exact ⟨Event.writeFile path content (some e2), by simp, rfl⟩

/-- With fail-fast off, a pass over a node makes `syncOnce` return only after a
failed `MkdirAll` or `WriteFile`. -/
theorem syncNode_ret_off (env : Env σ) (cfg : Config) (nodeID : Int)
    (lastHash : Int → String) (s : σ) (h : cfg.FailFast = false)
    (hr : (syncNode env cfg nodeID lastHash s).ret ≠ none) :
    ∃ ev ∈ (syncNode env cfg nodeID lastHash s).log, ev.fsFailed = true := by
  unfold syncNode at hr ⊢
  cases hf : (env.fetchAllowedUUIDs nodeID s).1 with
  | error e => simp [hf, h] at hr
  | ok raw =>
    simp only [hf] at hr ⊢
    unfold syncFiles ensureDir at hr ⊢
    simp only at hr ⊢
    cases hd : (env.mkdirAll (env.joinPath cfg.OutputDir ("node-" ++ toString nodeID))
        (env.now (env.fetchAllowedUUIDs nodeID s).2).2).1 with
    | some e =>
      simp only [hd]
      exact ⟨Event.mkdirAll (env.joinPath cfg.OutputDir ("node-" ++ toString nodeID)) (some e),
        by simp, rfl⟩
    | none =>
      simp only [hd] at hr ⊢
      split at hr
      · simp at hr
      · rename_i hh
        simp only [hh, if_false]
        generalize hw1 : writeIfChanged env _ _ _ = w1 at hr ⊢
        cases h1 : w1.val.2 with
        | some e =>
          obtain ⟨ev, hev, hfs⟩ := writeIfChanged_err env _ _ _ e (hw1 ▸ h1)
          rw [hw1] at hev
          exact ⟨ev, by simp [hev], hfs⟩
        | none =>
          simp only [h1] at hr ⊢
          generalize hw2 : writeIfChanged env _ _ w1.st = w2 at hr ⊢
          cases h2 : w2.val.2 with
          | some e =>
            obtain ⟨ev, hev, hfs⟩ := writeIfChanged_err env _ _ _ e (hw2 ▸ h2)
            rw [hw2] at hev
            exact ⟨ev, by simp [hev], hfs⟩
          | none =>
            exfalso
            simp only [h2] at hr
            split at hr
            · exact hr (syncXray_ret_off env cfg nodeID _ _ _ lastHash _ h)
            · exact hr (syncCommand_ret_off env cfg nodeID _ _ _ lastHash _ h)

theorem syncNode_fetch_mem (env : Env σ) (cfg : Config) (nodeID : Int)
    (lastHash : Int → String) (s : σ) :
    ∃ ev ∈ (syncNode env cfg nodeID lastHash s).log, ev.isFetchOf nodeID = true := by
  refine ⟨Event.fetchAllowedUUIDs nodeID (env.fetchAllowedUUIDs nodeID s).1, ?_,
    by simp [Event.isFetchOf]⟩
  unfold syncNode
  cases hf : (env.fetchAllowedUUIDs nodeID s).1 with
  | error e => cases hff : cfg.FailFast <;> simp [hf, hff]
  | ok raw => simp [hf]

/-- With fail-fast off and no failed `MkdirAll` or `WriteFile`, the loop of
`syncOnce` returns nil and fetches every node of the list. -/
theorem syncNodes_all_fetched (env : Env σ) (cfg : Config) (h : cfg.FailFast = false)
    (ids : List Int) : ∀ (lastHash : Int → String) (s : σ),
    (∀ ev ∈ (syncNodes env cfg ids lastHash s).log, ev.fsFailed = false) →
    (syncNodes env cfg ids lastHash s).ret = none ∧
    ∀ n ∈ ids, ∃ ev ∈ (syncNodes env cfg ids lastHash s).log, ev.isFetchOf n = true := by
  induction ids with
  | nil => intro lastHash s _; exact ⟨rfl, fun n hn => by simp at hn⟩
  | cons id rest ih =>
    intro lastHash s hfs
    cases hr : (syncNode env cfg id lastHash s).ret with
    | some e =>
      exfalso
      obtain ⟨ev, hev, hbad⟩ := syncNode_ret_off env cfg id lastHash s h (by simp [hr])
      have := hfs ev (by simp [syncNodes, hr, hev])
      rw [hbad] at this
      exact Bool.noConfusion this
    | none =>
      have hlog : (syncNodes env cfg (id :: rest) lastHash s).log =
          (syncNode env cfg id lastHash s).log ++
          (syncNodes env cfg rest (syncNode env cfg id lastHash s).lastHash
            (syncNode env cfg id lastHash s).st).log := by
        simp [syncNodes, hr]
      have hret : (syncNodes env cfg (id :: rest) lastHash s).ret =
          (syncNodes env cfg rest (syncNode env cfg id lastHash s).lastHash
            (syncNode env cfg id lastHash s).st).ret := by
        simp [syncNodes, hr]
      obtain ⟨i1, i2⟩ := ih (syncNode env cfg id lastHash s).lastHash
        (syncNode env cfg id lastHash s).st
        (fun ev hev => hfs ev (by rw [hlog]; exact List.mem_append_right _ hev))
      refine ⟨hret ▸ i1, ?_⟩
      intro n hn
      rw [hlog]
      rcases List.mem_cons.mp hn with rfl | hn
      · obtain ⟨ev, hev, hf⟩ := syncNode_fetch_mem env cfg n lastHash s
        exact ⟨ev, List.mem_append_left _ hev, hf⟩
      · obtain ⟨ev, hev, hf⟩ := i2 n hn
        exact ⟨ev, List.mem_append_right _ hev, hf⟩

/-- C10. With fail-fast off and nodes 1 and 2: when `allowed-uuids.json` of node 1
cannot be written, or the directory of node 1 cannot be made, `syncOnce` returns
the error and node 2 is never fetched; when instead the panel fails for node 1,
`syncOnce` goes on and node 2 is reconciled. In every environment, with fail-fast
off, a pass over a node ends the cycle only after a failed `MkdirAll` or
`WriteFile`, and when none fails the loop returns nil and fetches every node. -/
theorem C10_write_failure_aborts_cycle :
    (∀ (σ : Type) (env : Env σ) (cfg : Config) (nodeID : Int) (lastHash : Int → String) (s : σ),
      cfg.FailFast = false → (syncNode env cfg nodeID lastHash s).ret ≠ none →
      ∃ ev ∈ (syncNode env cfg nodeID lastHash s).log, ev.fsFailed = true) ∧
    (∀ (σ : Type) (env : Env σ) (cfg : Config) (ids : List Int) (lastHash : Int → String)
      (s : σ), cfg.FailFast = false →
      (∀ ev ∈ (syncNodes env cfg ids lastHash s).log, ev.fsFailed = false) →
      (syncNodes env cfg ids lastHash s).ret = none ∧
      ∀ n ∈ ids, ∃ ev ∈ (syncNodes env cfg ids lastHash s).log, ev.isFetchOf n = true) ∧
    cfgCmd.FailFast = false ∧ cfgCmd.NodeIDs = [1, 2] ∧
    (syncOnce (simEnv simReadOnly) cfgCmd (fun _ => "") world0).ret =
      some "read-only file system" ∧
    (∀ e ∈ (syncOnce (simEnv simReadOnly) cfgCmd (fun _ => "") world0).log,
      e.isFetchOf 2 = false) ∧
    (syncOnce (simEnv simNoDir) cfgCmd (fun _ => "") world0).ret =
      some "read-only file system" ∧
    (∀ e ∈ (syncOnce (simEnv simNoDir) cfgCmd (fun _ => "") world0).log,
      e.isFetchOf 2 = false) ∧
    (syncOnce (simEnv simFetchDown) cfgCmd (fun _ => "") world0).ret = none ∧
    (∃ e ∈ (syncOnce (simEnv simFetchDown) cfgCmd (fun _ => "") world0).log,
      e = Event.exec ["sh", "-lc", "reload 2"] none) := by
  refine ⟨fun σ env cfg nodeID lastHash s h hr => syncNode_ret_off env cfg nodeID lastHash s h hr,
    fun σ env cfg ids lastHash s h hfs => syncNodes_all_fetched env cfg h ids lastHash s hfs,
    ?_⟩
  constructorm* _ ∧ _
  all_goals decide

/-! ## The traffic snapshot over one cycle -/

theorem mapGet_mapSet_same (m : TrafficMap) (k : String) (v : Traffic) :
    mapGet (mapSet m k v) k = some v := by
  induction m with
  | nil => simp [mapSet, mapGet]
  | cons kv rest ih =>
    obtain ⟨k1, v1⟩ := kv
    by_cases h : k1 = k
    · simp [mapSet, mapGet, h]
    · simp [mapSet, mapGet, h, ih]

theorem mapGet_mapSet_ne (m : TrafficMap) (k k2 : String) (v : Traffic) (h : k2 ≠ k) :
    mapGet (mapSet m k v) k2 = mapGet m k2 := by
  have hk : ¬ k = k2 := fun e => h e.symm
  induction m with
  | nil => simp [mapSet, mapGet, hk]
  | cons kv rest ih =>
    obtain ⟨k1, v1⟩ := kv
    by_cases h1 : k1 = k
    · subst h1
      simp [mapSet, mapGet, hk]
    · by_cases h2 : k1 = k2
      · subst h2
        simp [mapSet, mapGet, h1]
      · simp [mapSet, mapGet, h1, h2, ih]

/-- The value of one pass of the loop body: the entry of the identity is set,
nothing else. -/
theorem trafficStep_val (env : Env σ) (x : XrayClient) (nodeID : Int)
    (prevTraffic : TrafficMap) (uuid : String) (newTraffic : TrafficMap) (s : σ) :
    ∃ v, (trafficStep env x nodeID prevTraffic uuid newTraffic s).val = mapSet newTraffic uuid v := by
  unfold trafficStep
  simp only
  split
  · split <;> exact ⟨_, rfl⟩
  · split <;> exact ⟨_, rfl⟩

theorem trafficStep_get_other (env : Env σ) (x : XrayClient) (nodeID : Int)
    (prevTraffic : TrafficMap) (w uuid : String) (newTraffic : TrafficMap) (s : σ)
    (h : uuid ≠ w) :
    mapGet (trafficStep env x nodeID prevTraffic w newTraffic s).val uuid =
      mapGet newTraffic uuid := by
  obtain ⟨v, hv⟩ := trafficStep_val env x nodeID prevTraffic w newTraffic s
  rw [hv, mapGet_mapSet_ne _ _ _ _ h]

theorem trafficStep_get_self (env : Env σ) (x : XrayClient) (nodeID : Int)
    (prevTraffic : TrafficMap) (w : String) (newTraffic : TrafficMap) (s : σ) :
    mapGet (trafficStep env x nodeID prevTraffic w newTraffic s).val w ≠ none := by
  obtain ⟨v, hv⟩ := trafficStep_val env x nodeID prevTraffic w newTraffic s
  rw [hv, mapGet_mapSet_same]
  exact Option.some_ne_none v

theorem trafficLoop_get_other (env : Env σ) (x : XrayClient) (nodeID : Int)
    (prevTraffic : TrafficMap) (uuid : String) (l : List String) :
    ∀ (nt : TrafficMap) (s : σ), uuid ∉ l →
    mapGet (trafficLoop env x nodeID prevTraffic l nt s).val uuid = mapGet nt uuid := by
  induction l with
  | nil => intro nt s _; rfl
  | cons w rest ih =>
    intro nt s h
    simp only [List.mem_cons, not_or] at h
    simp only [trafficLoop]
    rw [ih _ _ h.2, trafficStep_get_other env x nodeID prevTraffic w uuid nt s h.1]

theorem trafficLoop_get_mem (env : Env σ) (x : XrayClient) (nodeID : Int)
    (prevTraffic : TrafficMap) (u : String) (l : List String) :
    ∀ (nt : TrafficMap) (s : σ), (mapGet nt u ≠ none ∨ u ∈ l) →
    mapGet (trafficLoop env x nodeID prevTraffic l nt s).val u ≠ none := by
  induction l with
  | nil =>
    intro nt s h
    rcases h with h | h
    · exact h
    · simp at h
  | cons w rest ih =>
    intro nt s h
    simp only [trafficLoop]
    apply ih
    by_cases hw : u = w
    · left; rw [hw]; exact trafficStep_get_self env x nodeID prevTraffic w nt s
    · rcases h with h | h
      · left; rw [trafficStep_get_other env x nodeID prevTraffic w u nt s hw]; exact h
      · right
        rcases List.mem_cons.mp h with h | h
        · exact absurd h hw
        · exact h

theorem delivered_append (uuid : String) (a b : List Event) :
    delivered uuid (a ++ b) = delivered uuid a ++ delivered uuid b := by
  simp [delivered, List.filterMap_append]

theorem getUserTraffic_delivered (env : Env σ) (x : XrayClient) (uuid w : String) (s : σ) :
    delivered uuid (x.getUserTraffic env w s).log = [] := by
  unfold XrayClient.getUserTraffic XrayClient.dial
  simp only
  split
  · rfl
  · split
    · rfl
    · split <;> rfl

theorem trafficStep_delivered_other (env : Env σ) (x : XrayClient) (nodeID : Int)
    (prevTraffic : TrafficMap) (w uuid : String) (newTraffic : TrafficMap) (s : σ)
    (h : uuid ≠ w) :
    delivered uuid (trafficStep env x nodeID prevTraffic w newTraffic s).log = [] := by
  have hq := getUserTraffic_delivered env x uuid w s
  have hw : ¬ w = uuid := fun e => h e.symm
  unfold trafficStep
  simp only
  split
  · split <;> exact hq
  · split
    · rw [delivered_append, hq]
      cases hr : (env.reportTraffic nodeID w _ _ (x.getUserTraffic env w s).st).1 <;>
        simp [delivered, hr, hw]
    · exact hq

theorem trafficLoop_delivered_other (env : Env σ) (x : XrayClient) (nodeID : Int)
    (prevTraffic : TrafficMap) (uuid : String) (l : List String) :
    ∀ (nt : TrafficMap) (s : σ), uuid ∉ l →
    delivered uuid (trafficLoop env x nodeID prevTraffic l nt s).log = [] := by
  induction l with
  | nil => intro nt s _; rfl
  | cons w rest ih =>
    intro nt s h
    simp only [List.mem_cons, not_or] at h
    simp only [trafficLoop]
    rw [delivered_append, ih _ _ h.2,
      trafficStep_delivered_other env x nodeID prevTraffic w uuid nt s h.1]
    rfl

/-- The loop body for an identity whose query succeeds and whose report the
panel accepts. -/
theorem trafficStep_ok (env : Env σ) (x : XrayClient) (nodeID : Int)
    (prevTraffic : TrafficMap) (uuid : String) (newTraffic : TrafficMap) (s : σ)
    (up down : Int) (hq : (x.getUserTraffic env uuid s).val = .ok (up, down))
    (hr : ∀ du dd, (env.reportTraffic nodeID uuid du dd (x.getUserTraffic env uuid s).st).1 = none) :
    (trafficStep env x nodeID prevTraffic uuid newTraffic s).val =
      mapSet newTraffic uuid ⟨up, down⟩ ∧
    delivered uuid (trafficStep env x nodeID prevTraffic uuid newTraffic s).log =
      if 0 < (trafficDelta (mapGet prevTraffic uuid) up down).1 ∨
          0 < (trafficDelta (mapGet prevTraffic uuid) up down).2 then
        [trafficDelta (mapGet prevTraffic uuid) up down]
      else [] := by
  have hd := getUserTraffic_delivered env x uuid uuid s
  unfold trafficStep
  simp only [hq]
  split
  · refine ⟨rfl, ?_⟩
    rw [delivered_append, hd]
    simp [delivered, hr]
  · exact ⟨rfl, hd⟩

/-- The loop body for an identity whose query fails. -/
theorem trafficStep_err (env : Env σ) (x : XrayClient) (nodeID : Int)
    (prevTraffic : TrafficMap) (uuid : String) (newTraffic : TrafficMap) (s : σ)
    (e : String) (hq : (x.getUserTraffic env uuid s).val = .error e) :
    reports (trafficStep env x nodeID prevTraffic uuid newTraffic s).log = [] ∧
    (trafficStep env x nodeID prevTraffic uuid newTraffic s).val =
      mapSet newTraffic uuid ((mapGet prevTraffic uuid).getD ⟨0, 0⟩) ∧
    (trafficStep env x nodeID prevTraffic uuid newTraffic s).st =
      (x.getUserTraffic env uuid s).st := by
  have hr := getUserTraffic_reports env x uuid s
  unfold trafficStep
  simp only [hq]
  cases hp : mapGet prevTraffic uuid with
  | none => exact ⟨hr, rfl, rfl⟩
  | some p => exact ⟨hr, rfl, rfl⟩

/-! ## One cycle of `reportTrafficOnce` -/

theorem attempts_append (uuid : String) (a b : List Event) :
    attempts uuid (a ++ b) = attempts uuid a ++ attempts uuid b := by
  simp [attempts]

theorem getUserTraffic_attempts (env : Env σ) (x : XrayClient) (uuid w : String) (s : σ) :
    attempts uuid (x.getUserTraffic env w s).log = [] := by
  unfold XrayClient.getUserTraffic XrayClient.dial
  simp only
  split
  · rfl
  · split
    · rfl
    · split <;> rfl

theorem trafficStep_attempts_other (env : Env σ) (x : XrayClient) (nodeID : Int)
    (prevTraffic : TrafficMap) (w uuid : String) (newTraffic : TrafficMap) (s : σ)
    (h : uuid ≠ w) :
    attempts uuid (trafficStep env x nodeID prevTraffic w newTraffic s).log = [] := by
  have hq := getUserTraffic_attempts env x uuid w s
  have hw : ¬ w = uuid := fun e => h e.symm
  unfold trafficStep
  simp only
  split
  · split <;> exact hq
  · split
    · rw [attempts_append, hq]
      simp [attempts, Event.isReportFor, hw]
    · exact hq

theorem trafficLoop_attempts_other (env : Env σ) (x : XrayClient) (nodeID : Int)
    (prevTraffic : TrafficMap) (uuid : String) (l : List String) :
    ∀ (nt : TrafficMap) (s : σ), uuid ∉ l →
    attempts uuid (trafficLoop env x nodeID prevTraffic l nt s).log = [] := by
  induction l with
  | nil => intro nt s _; rfl
  | cons w rest ih =>
    intro nt s h
    simp only [List.mem_cons, not_or] at h
    simp only [trafficLoop]
    rw [attempts_append, ih _ _ h.2,
      trafficStep_attempts_other env x nodeID prevTraffic w uuid nt s h.1]
    rfl

theorem trafficStep_err_attempts (env : Env σ) (x : XrayClient) (nodeID : Int)
    (prevTraffic : TrafficMap) (uuid w : String) (newTraffic : TrafficMap) (s : σ)
    (e : String) (hq : (x.getUserTraffic env w s).val = .error e) :
    attempts uuid (trafficStep env x nodeID prevTraffic w newTraffic s).log = [] := by
  have hr := getUserTraffic_attempts env x uuid w s
  unfold trafficStep
  simp only [hq]
  cases hp : mapGet prevTraffic w with
  | none => exact hr
  | some p => exact hr

theorem loadAppliedState_log (env : Env σ) (path : String) (s : σ) :
    (loadAppliedState env path s).log = [Event.readFile path (env.readFile path s).1] := by
  unfold loadAppliedState
  simp only
  split <;> rfl

theorem loadTrafficState_log (env : Env σ) (path : String) (s : σ) :
    (loadTrafficState env path s).log = [Event.readFile path (env.readFile path s).1] := by
  unfold loadTrafficState
  simp only
  split <;> rfl

theorem saveTrafficState_mem (env : Env σ) (path : String) (state : TrafficMap) (s : σ) :
    ∃ err, Event.saveTrafficState path state err ∈ (saveTrafficState env path state s).log := by
  unfold saveTrafficState
  split
  · exact ⟨_, List.mem_singleton.mpr rfl⟩
  · exact ⟨_, List.mem_cons_of_mem _ (List.mem_singleton.mpr rfl)⟩

theorem saveTrafficState_quiet (env : Env σ) (path : String) (state : TrafficMap) (s : σ)
    (uuid : String) :
    delivered uuid (saveTrafficState env path state s).log = [] ∧
    attempts uuid (saveTrafficState env path state s).log = [] := by
  unfold saveTrafficState
  split <;> exact ⟨rfl, rfl⟩

/-- The run of `reportTrafficOnce` when `applied.json` loads as the non-empty
list `l`: the two loads, the loop over `l`, the save of the loop's snapshot;
the function returns nil. -/
theorem reportTrafficOnce_run (env : Env σ) (cfg : Config) (nodeID : Int) (s : σ)
    (l : List String)
    (ha : (loadAppliedState env (appliedPathOf env cfg nodeID) s).val = .ok l) (hl : l ≠ []) :
    (reportTrafficOnce env cfg nodeID s).val = none ∧
    (reportTrafficOnce env cfg nodeID s).log =
      (loadAppliedState env (appliedPathOf env cfg nodeID) s).log ++
      (loadTrafficState env (trafficPathOf env cfg nodeID)
        (loadAppliedState env (appliedPathOf env cfg nodeID) s).st).log ++
      (loopOver env cfg nodeID s l).log ++
      (saveTrafficState env (trafficPathOf env cfg nodeID) (loopOver env cfg nodeID s l).val
        (loopOver env cfg nodeID s l).st).log := by
  have hlen : ¬ l.length = 0 := fun h => hl (List.length_eq_zero.mp h)
  simp only [appliedPathOf] at ha
  unfold reportTrafficOnce
  simp only [ha, hlen, if_false]
  exact ⟨trivial, rfl⟩

/-- In such a run, what is reported for `uuid` is what the loop reports for it. -/
theorem reportTrafficOnce_traffic (env : Env σ) (cfg : Config) (nodeID : Int) (s : σ)
    (l : List String) (uuid : String)
    (ha : (loadAppliedState env (appliedPathOf env cfg nodeID) s).val = .ok l) (hl : l ≠ []) :
    delivered uuid (reportTrafficOnce env cfg nodeID s).log =
      delivered uuid (loopOver env cfg nodeID s l).log ∧
    attempts uuid (reportTrafficOnce env cfg nodeID s).log =
      attempts uuid (loopOver env cfg nodeID s l).log := by
  have hs := saveTrafficState_quiet env (trafficPathOf env cfg nodeID)
    (loopOver env cfg nodeID s l).val (loopOver env cfg nodeID s l).st uuid
  rw [(reportTrafficOnce_run env cfg nodeID s l ha hl).2]
  simp only [delivered_append, attempts_append, loadAppliedState_log, loadTrafficState_log,
    hs.1, hs.2, List.append_nil]
  exact ⟨rfl, rfl⟩

/-- The loop over `pre ++ uuid :: post` is the loop over `pre`, the pass over
`uuid`, and the loop over `post` from where that pass ends. -/
theorem loopOver_split (env : Env σ) (cfg : Config) (nodeID : Int) (s : σ)
    (pre post : List String) (uuid : String) :
    loopOver env cfg nodeID s (pre ++ uuid :: post) =
      ⟨(trafficLoop env (clientOf cfg) nodeID (prevOf env cfg nodeID s) post
          (stepAfter env cfg nodeID s pre uuid).val (stepAfter env cfg nodeID s pre uuid).st).val,
        (trafficLoop env (clientOf cfg) nodeID (prevOf env cfg nodeID s) post
          (stepAfter env cfg nodeID s pre uuid).val (stepAfter env cfg nodeID s pre uuid).st).st,
        (loopOver env cfg nodeID s pre).log ++ ((stepAfter env cfg nodeID s pre uuid).log ++
        (trafficLoop env (clientOf cfg) nodeID (prevOf env cfg nodeID s) post
          (stepAfter env cfg nodeID s pre uuid).val
          (stepAfter env cfg nodeID s pre uuid).st).log)⟩ := by
  unfold loopOver stepAfter
  rw [trafficLoop_append]
  simp only [trafficLoop, loopOver]

theorem loopOver_entries (env : Env σ) (cfg : Config) (nodeID : Int) (s : σ)
    (l : List String) : ∀ u ∈ l, mapGet (loopOver env cfg nodeID s l).val u ≠ none :=
  fun u hu => trafficLoop_get_mem env (clientOf cfg) nodeID (prevOf env cfg nodeID s) u l []
    (loopStartOf env cfg nodeID s) (Or.inr hu)

/-- C13. Let `applied.json` of the node list `pre ++ uuid :: post` and let the
counter query of the pass over `uuid` fail. Then that pass sends no report; it
stores for `uuid` exactly the entry of the previous snapshot, and zero counters
when the previous snapshot has none; the loop goes on over the remaining
identities `post` from where the pass ends, and `reportTrafficOnce` returns nil.
When `uuid` is listed once the whole cycle makes no `reportTraffic` call for it,
and when it is not listed again its carried-forward entry is in the final
snapshot. The snapshot handed to `saveTrafficState` at the end of the cycle has
an entry for every listed identity. -/
theorem C13_query_failure_carries_forward (env : Env σ) (cfg : Config) (nodeID : Int) (s : σ)
    (pre post : List String) (uuid e : String)
    (ha : (loadAppliedState env (appliedPathOf env cfg nodeID) s).val =
      .ok (pre ++ uuid :: post))
    (hq : (queryAfter env cfg nodeID s pre uuid).val = .error e) :
    reports (stepAfter env cfg nodeID s pre uuid).log = [] ∧
    (stepAfter env cfg nodeID s pre uuid).val =
      mapSet (loopOver env cfg nodeID s pre).val uuid
        ((mapGet (prevOf env cfg nodeID s) uuid).getD ⟨0, 0⟩) ∧
    (loopOver env cfg nodeID s (pre ++ uuid :: post)).log =
      (loopOver env cfg nodeID s pre).log ++ ((stepAfter env cfg nodeID s pre uuid).log ++
        (trafficLoop env (clientOf cfg) nodeID (prevOf env cfg nodeID s) post
          (stepAfter env cfg nodeID s pre uuid).val
          (stepAfter env cfg nodeID s pre uuid).st).log) ∧
    (loopOver env cfg nodeID s (pre ++ uuid :: post)).val =
      (trafficLoop env (clientOf cfg) nodeID (prevOf env cfg nodeID s) post
        (stepAfter env cfg nodeID s pre uuid).val
        (stepAfter env cfg nodeID s pre uuid).st).val ∧
    (reportTrafficOnce env cfg nodeID s).val = none ∧
    (uuid ∉ pre → uuid ∉ post →
      attempts uuid (reportTrafficOnce env cfg nodeID s).log = []) ∧
    (uuid ∉ post →
      mapGet (loopOver env cfg nodeID s (pre ++ uuid :: post)).val uuid =
        some ((mapGet (prevOf env cfg nodeID s) uuid).getD ⟨0, 0⟩)) ∧
    (∃ err, Event.saveTrafficState (trafficPathOf env cfg nodeID)
      (loopOver env cfg nodeID s (pre ++ uuid :: post)).val err ∈
        (reportTrafficOnce env cfg nodeID s).log) ∧
    (∀ u ∈ pre ++ uuid :: post,
      mapGet (loopOver env cfg nodeID s (pre ++ uuid :: post)).val u ≠ none) := by
  have hne : pre ++ uuid :: post ≠ [] := by simp
  have hrun := reportTrafficOnce_run env cfg nodeID s _ ha hne
  have hsplit := loopOver_split env cfg nodeID s pre post uuid
  have hstep := trafficStep_err env (clientOf cfg) nodeID (prevOf env cfg nodeID s) uuid
    (loopOver env cfg nodeID s pre).val (loopOver env cfg nodeID s pre).st e hq
  have hatt := trafficStep_err_attempts env (clientOf cfg) nodeID (prevOf env cfg nodeID s) uuid
    uuid (loopOver env cfg nodeID s pre).val (loopOver env cfg nodeID s pre).st e hq
  refine ⟨hstep.1, hstep.2.1, ?_, ?_, hrun.1, ?_, ?_, ?_, loopOver_entries env cfg nodeID s _⟩
  · rw [hsplit]
  · rw [hsplit]
  · intro h1 h2
    rw [(reportTrafficOnce_traffic env cfg nodeID s _ uuid ha hne).2, hsplit]
    simp only [attempts_append]
    rw [trafficLoop_attempts_other env (clientOf cfg) nodeID _ uuid post _ _ h2]
    have hpre : attempts uuid (loopOver env cfg nodeID s pre).log = [] :=
      trafficLoop_attempts_other env (clientOf cfg) nodeID _ uuid pre _ _ h1
    have hmid : attempts uuid (stepAfter env cfg nodeID s pre uuid).log = [] := hatt
    rw [hpre, hmid]
    rfl
  · intro h2
    rw [hsplit]
    simp only
    rw [trafficLoop_get_other env (clientOf cfg) nodeID _ uuid post _ _ h2]
    have hv : (stepAfter env cfg nodeID s pre uuid).val = _ := hstep.2.1
    rw [hv, mapGet_mapSet_same]
  · obtain ⟨err, herr⟩ := saveTrafficState_mem env (trafficPathOf env cfg nodeID)
      (loopOver env cfg nodeID s (pre ++ uuid :: post)).val
      (loopOver env cfg nodeID s (pre ++ uuid :: post)).st
    refine ⟨err, ?_⟩
    rw [hrun.2]
    exact List.mem_append_right _ herr

theorem C13_query_failure_witness :
    (loadAppliedState (simEnv simStatsDownA) (appliedPathOf (simEnv simStatsDownA) cfgXrayOne 1)
      worldAppliedTwo).val = .ok ([] ++ "a" :: ["b"]) ∧
    (queryAfter (simEnv simStatsDownA) cfgXrayOne 1 worldAppliedTwo [] "a").val =
      .error "query uplink failed: rpc error: code = Unavailable" ∧
    attempts "a" (reportTrafficOnce (simEnv simStatsDownA) cfgXrayOne 1 worldAppliedTwo).log = [] ∧
    reports (reportTrafficOnce (simEnv simStatsDownA) cfgXrayOne 1 worldAppliedTwo).log =
      [(1, "b", 7, 7)] ∧
    Event.saveTrafficState "out/node-1/traffic-state.json" [("a", ⟨5, 6⟩), ("b", ⟨7, 7⟩)] none ∈
      (reportTrafficOnce (simEnv simStatsDownA) cfgXrayOne 1 worldAppliedTwo).log :=
  ⟨by decide, by decide,
    (C13_query_failure_carries_forward (simEnv simStatsDownA) cfgXrayOne 1 worldAppliedTwo
      [] ["b"] "a" "query uplink failed: rpc error: code = Unavailable"
      (by decide) (by decide)).2.2.2.2.2.1 (by decide) (by decide),
    by decide, by decide⟩

/-! ## Traffic accounting over a sequence of cycles -/

theorem CycleObs.prevOf_eq (cfg : Config) (nodeID : Int) (uuid : String) (c : CycleObs σ)
    (hok : c.ok cfg nodeID uuid) : prevOf c.env cfg nodeID c.start = c.prev := by
  obtain ⟨_, _, _, hp, _⟩ := hok
  unfold prevOf
  rw [hp]

/-- One cycle that is as observed: the accepted deltas for the identity, and its
entry in the snapshot of the cycle. -/
theorem cycle_delivered (cfg : Config) (nodeID : Int) (uuid : String) (c : CycleObs σ)
    (hok : c.ok cfg nodeID uuid) :
    delivered uuid (reportTrafficOnce c.env cfg nodeID c.start).log =
      (if 0 < (trafficDelta (mapGet c.prev uuid) c.up c.down).1 ∨
          0 < (trafficDelta (mapGet c.prev uuid) c.up c.down).2 then
        [trafficDelta (mapGet c.prev uuid) c.up c.down]
      else []) ∧
    mapGet (c.snapshot cfg nodeID uuid) uuid = some ⟨c.up, c.down⟩ := by
  have hprev := CycleObs.prevOf_eq cfg nodeID uuid c hok
  obtain ⟨h1, h2, ha, _, hq, hr, _⟩ := hok
  have hne : c.pre ++ uuid :: c.post ≠ [] := by simp
  have hstep := trafficStep_ok c.env (clientOf cfg) nodeID (prevOf c.env cfg nodeID c.start) uuid
    (loopOver c.env cfg nodeID c.start c.pre).val (loopOver c.env cfg nodeID c.start c.pre).st
    c.up c.down hq hr
  have hsplit := loopOver_split c.env cfg nodeID c.start c.pre c.post uuid
  have hval : (stepAfter c.env cfg nodeID c.start c.pre uuid).val = _ := hstep.1
  have hlog : delivered uuid (stepAfter c.env cfg nodeID c.start c.pre uuid).log = _ := hstep.2
  have hpre : delivered uuid (loopOver c.env cfg nodeID c.start c.pre).log = [] :=
    trafficLoop_delivered_other c.env (clientOf cfg) nodeID _ uuid c.pre _ _ h1
  constructor
  · rw [(reportTrafficOnce_traffic c.env cfg nodeID c.start _ uuid ha hne).1, hsplit]
    simp only [delivered_append]
    rw [trafficLoop_delivered_other c.env (clientOf cfg) nodeID _ uuid c.post _ _ h2, hpre, hlog,
      hprev]
    simp
  · unfold CycleObs.snapshot
    rw [hsplit]
    simp only
    rw [trafficLoop_get_other c.env (clientOf cfg) nodeID _ uuid c.post _ _ h2, hval,
      mapGet_mapSet_same]

theorem sumUp_append (a b : List (Int × Int)) : sumUp (a ++ b) = sumUp a + sumUp b := by
  simp [sumUp]

theorem sumDown_append (a b : List (Int × Int)) : sumDown (a ++ b) = sumDown a + sumDown b := by
  simp [sumDown]

theorem deliveredOver_cons (cfg : Config) (nodeID : Int) (uuid : String) (c : CycleObs σ)
    (rest : List (CycleObs σ)) :
    deliveredOver cfg nodeID uuid (c :: rest) =
      delivered uuid (reportTrafficOnce c.env cfg nodeID c.start).log ++
        deliveredOver cfg nodeID uuid rest := by
  simp [deliveredOver]

/-- The sums of one cycle whose deltas are the plain differences to a baseline
that the counters have not gone below. -/
theorem cycle_sum (cfg : Config) (nodeID : Int) (uuid : String) (c : CycleObs σ)
    (hok : c.ok cfg nodeID uuid) (bu bd : Int)
    (hd : trafficDelta (mapGet c.prev uuid) c.up c.down = (c.up - bu, c.down - bd))
    (hu : bu ≤ c.up) (hdn : bd ≤ c.down) :
    sumUp (delivered uuid (reportTrafficOnce c.env cfg nodeID c.start).log) = c.up - bu ∧
    sumDown (delivered uuid (reportTrafficOnce c.env cfg nodeID c.start).log) = c.down - bd := by
  rw [(cycle_delivered cfg nodeID uuid c hok).1, hd]
  split
  · simp [sumUp, sumDown]
  · rename_i hpos
    simp only [not_or, not_lt] at hpos
    simp only [sumUp, sumDown, List.map_nil, List.sum_nil]
    omega

/-- The invariant over a chain of cycles: what has been accepted is the last
counter minus the baseline of the first cycle. -/
theorem chain_sum (cfg : Config) (nodeID : Int) (uuid : String) (rest : List (CycleObs σ)) :
    ∀ (c : CycleObs σ) (bu bd : Int),
    (∀ c1 ∈ c :: rest, c1.ok cfg nodeID uuid) → chained cfg nodeID uuid (c :: rest) →
    trafficDelta (mapGet c.prev uuid) c.up c.down = (c.up - bu, c.down - bd) →
    bu ≤ c.up → bd ≤ c.down →
    sumUp (deliveredOver cfg nodeID uuid (c :: rest)) = (lastCycle c rest).up - bu ∧
    sumDown (deliveredOver cfg nodeID uuid (c :: rest)) = (lastCycle c rest).down - bd := by
  induction rest with
  | nil =>
    intro c bu bd hok _ hd hu hdn
    have h := cycle_sum cfg nodeID uuid c (hok c (List.mem_cons_self _ _)) bu bd hd hu hdn
    simp only [deliveredOver_cons, sumUp_append, sumDown_append, lastCycle]
    simp only [deliveredOver, List.map_nil, List.flatten_nil, sumUp, sumDown, List.sum_nil,
      add_zero]
    exact h
  | cons c2 rest ih =>
    intro c bu bd hok hch hd hu hdn
    have hc := hok c (List.mem_cons_self _ _)
    have hc2 := hok c2 (List.mem_cons_of_mem _ (List.mem_cons_self _ _))
    have h := cycle_sum cfg nodeID uuid c hc bu bd hd hu hdn
    obtain ⟨hprev, hup, hdown, hch2⟩ := hch
    have hsnap := (cycle_delivered cfg nodeID uuid c hc).2
    obtain ⟨_, _, _, _, _, _, c0, _, d0, _⟩ := hc
    obtain ⟨_, _, _, _, _, _, _, c2u, _, c2d⟩ := hc2
    have hd2 : trafficDelta (mapGet c2.prev uuid) c2.up c2.down =
        (c2.up - c.up, c2.down - c.down) := by
      rw [hprev, hsnap]
      simp only [trafficDelta]
      rw [wrapInt64_id _ (by omega) (by omega), wrapInt64_id _ (by omega) (by omega)]
    have h2 := ih c2 c.up c.down (fun c1 h1 => hok c1 (List.mem_cons_of_mem _ h1)) hch2 hd2
      hup hdown
    rw [deliveredOver_cons, sumUp_append, sumDown_append, h.1, h.2, h2.1, h2.2]
    simp only [lastCycle]
    constructor <;> omega

/-- C11 (counterexample). Two cycles for node 1 and the identity `a`, starting
with no snapshot, in a world where `traffic-state.json` cannot be written: the
queries succeed with the counters `(100, 40)` and then `(150, 40)`, the panel
accepts every report, the counters do not decrease, and `saveTrafficState`
fails in the first cycle. The second cycle starts in the world the first one
left, finds no snapshot (the first cycle's snapshot held `(100, 40)` for `a`),
and reports the whole counters again: the accepted upload deltas sum to 250,
not to the last counter 150, and the download deltas to 80, not to 40. -/
theorem C11_lost_snapshot_counts_twice :
    lostFirst.ok cfgXrayOne 1 "a" ∧ lostSecond.ok cfgXrayOne 1 "a" ∧
    lostSecond.start = (reportTrafficOnce lostFirst.env cfgXrayOne 1 lostFirst.start).st ∧
    mapGet lostFirst.prev "a" = none ∧
    lostFirst.up ≤ lostSecond.up ∧ lostFirst.down ≤ lostSecond.down ∧
    Event.saveTrafficState "out/node-1/traffic-state.json" [("a", ⟨100, 40⟩)]
      (some "read-only file system") ∈
        (reportTrafficOnce lostFirst.env cfgXrayOne 1 lostFirst.start).log ∧
    deliveredOver cfgXrayOne 1 "a" [lostFirst, lostSecond] = [(100, 40), (150, 40)] ∧
    sumUp (deliveredOver cfgXrayOne 1 "a" [lostFirst, lostSecond]) = 250 ∧
    (lastCycle lostFirst [lostSecond]).up = 150 ∧
    sumDown (deliveredOver cfgXrayOne 1 "a" [lostFirst, lostSecond]) = 80 ∧
    (lastCycle lostFirst [lostSecond]).down = 40 ∧
    lostFirst.snapshot cfgXrayOne 1 "a" = [("a", ⟨100, 40⟩)] ∧ lostSecond.prev = [] := by
  refine ⟨⟨?_, ?_, ?_, ?_, ?_, fun _ _ => rfl, ?_, ?_, ?_, ?_⟩,
    ⟨?_, ?_, ?_, ?_, ?_, fun _ _ => rfl, ?_, ?_, ?_, ?_⟩, rfl, ?_⟩
  all_goals decide

/-- C11 (amended). Over a non-empty sequence of `reportTrafficOnce` cycles for a
node, take an identity that every cycle finds listed once in `applied.json`,
whose counter query succeeds in every cycle with non-negative `int64` counters,
and whose reports the panel accepts. Let the first cycle load a snapshot with no
entry for the identity, let every later cycle load the snapshot that the cycle
before it handed to `saveTrafficState`, and let the counters not decrease from
cycle to cycle. Then the upload deltas accepted by the panel sum to the upload
counter of the last cycle, and the download deltas to its download counter. -/
theorem C11_deltas_sum_to_last_counter (cfg : Config) (nodeID : Int) (uuid : String)
    (c : CycleObs σ) (rest : List (CycleObs σ))
    (hok : ∀ c1 ∈ c :: rest, c1.ok cfg nodeID uuid)
    (hchain : chained cfg nodeID uuid (c :: rest))
    (hfirst : mapGet c.prev uuid = none) :
    sumUp (deliveredOver cfg nodeID uuid (c :: rest)) = (lastCycle c rest).up ∧
    sumDown (deliveredOver cfg nodeID uuid (c :: rest)) = (lastCycle c rest).down := by
  obtain ⟨_, _, _, _, _, _, c0, _, d0, _⟩ := hok c (List.mem_cons_self _ _)
  have h := chain_sum cfg nodeID uuid rest c 0 0 hok hchain
    (by rw [hfirst]; simp [trafficDelta]) c0 d0
  simpa using h

theorem C11_deltas_witness :
    (∀ c1 ∈ [keptFirst, keptSecond], c1.ok cfgXrayOne 1 "a") ∧
    chained cfgXrayOne 1 "a" [keptFirst, keptSecond] ∧
    mapGet keptFirst.prev "a" = none ∧
    keptSecond.start = (reportTrafficOnce keptFirst.env cfgXrayOne 1 keptFirst.start).st ∧
    deliveredOver cfgXrayOne 1 "a" [keptFirst, keptSecond] = [(100, 40), (50, 0)] ∧
    (sumUp (deliveredOver cfgXrayOne 1 "a" [keptFirst, keptSecond]) =
        (lastCycle keptFirst [keptSecond]).up ∧
      sumDown (deliveredOver cfgXrayOne 1 "a" [keptFirst, keptSecond]) =
        (lastCycle keptFirst [keptSecond]).down) ∧
    (lastCycle keptFirst [keptSecond]).up = 150 ∧ (lastCycle keptFirst [keptSecond]).down = 40 := by
  have hok : ∀ c1 ∈ [keptFirst, keptSecond], c1.ok cfgXrayOne 1 "a" := by
    intro c1 h1
    simp only [List.mem_cons, List.mem_singleton, List.not_mem_nil, or_false] at h1
    rcases h1 with h1 | h1 <;> subst h1
    · refine ⟨?_, ?_, ?_, ?_, ?_, fun _ _ => rfl, ?_, ?_, ?_, ?_⟩
      all_goals decide
    · refine ⟨?_, ?_, ?_, ?_, ?_, fun _ _ => rfl, ?_, ?_, ?_, ?_⟩
      all_goals decide
  have hchain : chained cfgXrayOne 1 "a" [keptFirst, keptSecond] := by
    refine ⟨?_, ?_, ?_, trivial⟩
    all_goals decide
  exact ⟨hok, hchain, by decide, rfl, by decide,
    C11_deltas_sum_to_last_counter cfgXrayOne 1 "a" keptFirst [keptSecond] hok hchain
      (by decide), rfl, rfl⟩

/-! ## When `lastHash` is advanced -/

theorem clean_append {a b : List Event} (ha : clean a) (hb : clean b) : clean (a ++ b) := by
  intro e he
  rcases List.mem_append.mp he with h | h
  · exact ha e h
  · exact hb e h

theorem clean_cons {e : Event} {l : List Event} (he : e.isError = false) (hl : clean l) :
    clean (e :: l) := by
  intro e1 h1
  rcases List.mem_cons.mp h1 with h | h
  · rw [h]; exact he
  · exact hl e1 h

theorem clean_nil : clean [] := fun _ h => absurd h (List.not_mem_nil _)

theorem removeUser_clean (env : Env σ) (x : XrayClient) (tag u : String) (s : σ)
    (h : (x.removeUser env tag u s).val = none) : clean (x.removeUser env tag u s).log := by
  unfold XrayClient.removeUser XrayClient.dial at h ⊢
  cases hd : (env.dial x.addr x.timeout s).1 with
  | some e => simp [hd] at h
  | none =>
    simp only [hd] at h ⊢
    rw [h]
    exact clean_cons rfl (clean_cons rfl (clean_cons rfl clean_nil))

theorem addUser_clean (env : Env σ) (x : XrayClient) (tag u protoName : String) (s : σ)
    (h : (x.addUser env tag u protoName s).val = none) :
    clean (x.addUser env tag u protoName s).log := by
  unfold XrayClient.addUser XrayClient.dial at h ⊢
  cases hd : (env.dial x.addr x.timeout s).1 with
  | some e => simp [hd] at h
  | none =>
    simp only [hd] at h ⊢
    cases hb : x.buildUser env u protoName with
    | error e => simp [hb] at h
    | ok user =>
      simp only [hb] at h ⊢
      rw [h]
      exact clean_cons rfl (clean_cons rfl (clean_cons rfl clean_nil))

theorem forUsers_clean (f : String → σ → Res σ (Option String)) (msg : String)
    (hf : ∀ u s, (f u s).val = none → clean (f u s).log) : ∀ (l : List String) (s : σ),
    (forUsers f msg l s).val = none → clean (forUsers f msg l s).log := by
  intro l
  induction l with
  | nil => intro s _; exact clean_nil
  | cons u rest ih =>
    intro s h
    simp only [forUsers] at h ⊢
    cases hr : (f u s).val with
    | some e => simp [hr] at h
    | none =>
      simp only [hr] at h ⊢
      exact clean_append (hf u s hr) (ih _ h)

theorem applyUsers_clean (env : Env σ) (x : XrayClient) (tag protoName : String)
    (toRemove toAdd : List String) (s : σ)
    (h : (applyUsers env x tag protoName toRemove toAdd s).val = none) :
    clean (applyUsers env x tag protoName toRemove toAdd s).log := by
  unfold applyUsers at h ⊢
  cases hr : (removeAll env x tag toRemove s).val with
  | some e => simp [hr] at h
  | none =>
    simp only [hr] at h ⊢
    refine clean_append ?_ ?_
    · exact forUsers_clean _ _ (fun u s1 => removeUser_clean env x tag u s1) toRemove s hr
    · exact forUsers_clean _ _ (fun u s1 => addUser_clean env x tag u protoName s1) toAdd _ h

theorem loadPrev_clean (env : Env σ) (appliedPath : String) (s : σ) :
    clean (loadPrev env appliedPath s).log := by
  unfold loadPrev
  simp only [loadAppliedState_log]
  split
  · exact clean_cons rfl clean_nil
  · split
    · exact clean_cons rfl clean_nil
    · split <;> exact clean_cons rfl (clean_cons rfl clean_nil)

theorem xrayApply_clean (env : Env σ) (cfg : Config) (nodeID : Int) (normalized : List String)
    (appliedPath : String) (s : σ)
    (h : (xrayApply env cfg nodeID normalized appliedPath s).val = none) :
    clean (xrayApply env cfg nodeID normalized appliedPath s).log := by
  unfold xrayApply at h ⊢
  exact clean_append (loadPrev_clean env appliedPath s) (applyUsers_clean _ _ _ _ _ _ _ h)

theorem writeIfChanged_clean (env : Env σ) (path content : String) (s : σ)
    (h : (writeIfChanged env path content s).val.2 = none) :
    clean (writeIfChanged env path content s).log := by
  unfold writeIfChanged at h ⊢
  simp only at h ⊢
  split
  · exact clean_cons rfl clean_nil
  · rename_i hs
    simp only [hs] at h
    cases hw : (env.writeFile path content (env.readFile path s).2).1 with
    | some e => simp [hw] at h
    | none => exact clean_cons rfl (clean_cons rfl clean_nil)

/-- The `xray-grpc` branch leaves `lastHash` alone, or ran without an error, or
fail-fast is off and its only failure is the final `saveAppliedState`. -/
theorem syncXray_advance (env : Env σ) (cfg : Config) (nodeID : Int) (normalized : List String)
    (appliedPath hash : String) (lastHash : Int → String) (s : σ) :
    (syncXray env cfg nodeID normalized appliedPath hash lastHash s).lastHash = lastHash ∨
    clean (syncXray env cfg nodeID normalized appliedPath hash lastHash s).log ∨
    (cfg.FailFast = false ∧
      (syncXray env cfg nodeID normalized appliedPath hash lastHash s).ret = none ∧
      (syncXray env cfg nodeID normalized appliedPath hash lastHash s).lastHash =
        Function.update lastHash nodeID hash ∧
      ∃ pre b err, clean pre ∧
        (syncXray env cfg nodeID normalized appliedPath hash lastHash s).log =
          pre ++ [Event.writeFile appliedPath b (some err),
            Event.saveAppliedState appliedPath nodeID normalized (some err)]) := by
  have hspec := syncXray_spec env cfg nodeID normalized appliedPath hash lastHash s
  cases ha : (xrayApply env cfg nodeID normalized appliedPath s).val with
  | some e => exact Or.inl (hspec.1 (by rw [ha]; exact Option.some_ne_none e)).2
  | none =>
    obtain ⟨t, err, hlog, _, h2, h3⟩ := hspec.2 ha
    have hc := xrayApply_clean env cfg nodeID normalized appliedPath s ha
    cases err with
    | none =>
      refine Or.inr (Or.inl ?_)
      rw [hlog]
      exact clean_append hc (clean_cons rfl (clean_cons rfl (clean_cons rfl clean_nil)))
    | some e =>
      cases hff : cfg.FailFast with
      | true => exact Or.inl (h3 (Option.some_ne_none e) hff).1
      | false =>
        have h := h2 (Option.some_ne_none e) hff
        refine Or.inr (Or.inr ⟨rfl, h.2, h.1,
          (xrayApply env cfg nodeID normalized appliedPath s).log ++ [Event.now t],
          appliedJSON nodeID t normalized, e,
          clean_append hc (clean_cons rfl clean_nil), ?_⟩)
        rw [hlog]
        simp

theorem runApplyCommand_clean (env : Env σ) (cmdTemplate : String) (nodeID : Int)
    (uuidsFile uuidsJSON : String) (s : σ)
    (h : (runApplyCommand env cmdTemplate nodeID uuidsFile uuidsJSON s).val = none) :
    clean (runApplyCommand env cmdTemplate nodeID uuidsFile uuidsJSON s).log := by
  unfold runApplyCommand at h ⊢
  split
  · exact clean_nil
  · rename_i hne
    simp only [hne, if_false] at h
    simp only [h]
    exact clean_cons rfl clean_nil

theorem syncCommand_advance (env : Env σ) (cfg : Config) (nodeID : Int)
    (txtPath jsonPath hash : String) (lastHash : Int → String) (s : σ) :
    (syncCommand env cfg nodeID txtPath jsonPath hash lastHash s).lastHash = lastHash ∨
    clean (syncCommand env cfg nodeID txtPath jsonPath hash lastHash s).log := by
  have hc := runApplyCommand_clean env cfg.ApplyCommand nodeID txtPath jsonPath s
  unfold syncCommand
  cases hr : (runApplyCommand env cfg.ApplyCommand nodeID txtPath jsonPath s).val with
  | some e =>
    left
    cases hff : cfg.FailFast <;> simp [hr, hff]
  | none =>
    right
    simp only [hr]
    exact hc hr

theorem onlySaveFailed_prepend {nodeID : Int} {log : List Event} (front : List Event)
    (hf : clean front) (h : onlySaveFailed nodeID log) : onlySaveFailed nodeID (front ++ log) := by
  obtain ⟨pre, p, b, u, err, hc, hl⟩ := h
  exact ⟨front ++ pre, p, b, u, err, clean_append hf hc, by rw [hl, List.append_assoc]⟩

/-- What the body of the loop does from the normalised list on leaves `lastHash`
alone, or ran without an error, or is the `xray-grpc` branch with fail-fast off
whose only failure is the final `saveAppliedState`. -/
theorem syncFiles_advance (env : Env σ) (cfg : Config) (nodeID : Int) (normalized : List String)
    (t : String) (lastHash : Int → String) (s : σ) :
    (syncFiles env cfg nodeID normalized t lastHash s).lastHash = lastHash ∨
    clean (syncFiles env cfg nodeID normalized t lastHash s).log ∨
    (cfg.FailFast = false ∧ cfg.ApplyMode = "xray-grpc" ∧
      (syncFiles env cfg nodeID normalized t lastHash s).ret = none ∧
      (syncFiles env cfg nodeID normalized t lastHash s).lastHash =
        Function.update lastHash nodeID (fingerprint nodeID t normalized) ∧
      onlySaveFailed nodeID (syncFiles env cfg nodeID normalized t lastHash s).log) := by
  unfold syncFiles ensureDir
  simp only
  cases hd : (env.mkdirAll (env.joinPath cfg.OutputDir ("node-" ++ toString nodeID)) s).1 with
  | some e => left; rfl
  | none =>
    simp only
    by_cases hh : lastHash nodeID = sha256Hex (allowedJSON nodeID t normalized)
    · left; simp [hh]
    · simp only [hh, if_false]
      have c0 : clean
          [Event.mkdirAll (env.joinPath cfg.OutputDir ("node-" ++ toString nodeID)) none] :=
        clean_cons rfl clean_nil
      generalize hw1 : writeIfChanged env _ _ _ = w1
      have c1 : w1.val.2 = none → clean w1.log := hw1 ▸ writeIfChanged_clean env _ _ _
      cases h1 : w1.val.2 with
      | some e => left; rfl
      | none =>
        simp only
        generalize hw2 : writeIfChanged env _ _ w1.st = w2
        have c2 : w2.val.2 = none → clean w2.log := hw2 ▸ writeIfChanged_clean env _ _ _
        cases h2 : w2.val.2 with
        | some e => left; rfl
        | none =>
          simp only
          have cf := clean_append (clean_append c0 (c1 h1)) (c2 h2)
          by_cases hm : cfg.ApplyMode = "xray-grpc"
          · simp only [hm, if_true]
            rcases syncXray_advance env cfg nodeID normalized
              (env.joinPath (env.joinPath cfg.OutputDir ("node-" ++ toString nodeID))
                "applied.json")
              (sha256Hex (allowedJSON nodeID t normalized)) lastHash w2.st with h | h | h
            · exact Or.inl h
            · exact Or.inr (Or.inl (clean_append cf h))
            · obtain ⟨hff, hret, hlh, pre, b, err, hc, hl⟩ := h
              exact Or.inr (Or.inr ⟨hff, trivial, hret, hlh,
                onlySaveFailed_prepend _ cf ⟨pre, _, b, normalized, err, hc, hl⟩⟩)
          · simp only [hm, if_false]
            rcases syncCommand_advance env cfg nodeID
              (env.joinPath (env.joinPath cfg.OutputDir ("node-" ++ toString nodeID))
                "allowed-uuids.txt")
              (env.joinPath (env.joinPath cfg.OutputDir ("node-" ++ toString nodeID))
                "allowed-uuids.json")
              (sha256Hex (allowedJSON nodeID t normalized)) lastHash w2.st with h | h
            · exact Or.inl h
            · exact Or.inr (Or.inl (clean_append cf h))

/-- The pass over one node leaves `lastHash` alone, or ran without an error, or
is the `xray-grpc` mode with fail-fast off whose only failure is the final
`saveAppliedState`; in that last case the pass goes on to the next node with
the entry of the node set to the new fingerprint. -/
theorem syncNode_advance (env : Env σ) (cfg : Config) (nodeID : Int) (lastHash : Int → String)
    (s : σ) :
    (syncNode env cfg nodeID lastHash s).lastHash = lastHash ∨
    clean (syncNode env cfg nodeID lastHash s).log ∨
    (cfg.FailFast = false ∧ cfg.ApplyMode = "xray-grpc" ∧
      (syncNode env cfg nodeID lastHash s).ret = none ∧
      (∃ raw, (env.fetchAllowedUUIDs nodeID s).1 = .ok raw ∧
        (syncNode env cfg nodeID lastHash s).lastHash =
          Function.update lastHash nodeID
            (fingerprint nodeID (env.now (env.fetchAllowedUUIDs nodeID s).2).1 (normalize raw))) ∧
      onlySaveFailed nodeID (syncNode env cfg nodeID lastHash s).log) := by
  unfold syncNode
  cases hf : (env.fetchAllowedUUIDs nodeID s).1 with
  | error e =>
    left
    cases hff : cfg.FailFast <;> simp [hf, hff]
  | ok raw =>
    simp only [hf]
    have c0 : clean [Event.fetchAllowedUUIDs nodeID (Except.ok raw),
        Event.now (env.now (env.fetchAllowedUUIDs nodeID s).2).1] :=
      clean_cons rfl (clean_cons rfl clean_nil)
    rcases syncFiles_advance env cfg nodeID (normalize raw)
      (env.now (env.fetchAllowedUUIDs nodeID s).2).1 lastHash
      (env.now (env.fetchAllowedUUIDs nodeID s).2).2 with h | h | h
    · exact Or.inl h
    · exact Or.inr (Or.inl (clean_append c0 h))
    · obtain ⟨hff, hm, hret, hlh, hs⟩ := h
      exact Or.inr (Or.inr ⟨hff, hm, hret, ⟨raw, rfl, hlh⟩, onlySaveFailed_prepend _ c0 hs⟩)

/-- C12. In every environment the pass of `syncOnce` over one node either leaves
the node's entry of `lastHash` as it was, or ran without any error, or is the
`xray-grpc` mode with fail-fast off in which the only failure is the final
`saveAppliedState`: then the pass goes on with the entry set to the new
fingerprint. So a failed fetch, `MkdirAll`, write of a generated file or apply
leaves the entry alone, and a failed save does not. With fail-fast off, node 1,
the panel listing `a` and an `applied.json` that cannot be written, `syncOnce`
returns nil, `saveAppliedState` has failed, no `applied.json` exists, and
`lastHash[1]` went from the empty string to the new fingerprint; a next cycle
that computes the same fingerprint stops at the short-circuit and never saves.
When instead the apply, the fetch or the write of `allowed-uuids.json` fails,
`lastHash[1]` is still the empty string. -/
theorem C12_failed_save_advances_lastHash :
    (∀ (σ : Type) (env : Env σ) (cfg : Config) (nodeID : Int) (lastHash : Int → String) (s : σ),
      (syncNode env cfg nodeID lastHash s).lastHash = lastHash ∨
      clean (syncNode env cfg nodeID lastHash s).log ∨
      (cfg.FailFast = false ∧ cfg.ApplyMode = "xray-grpc" ∧
        (syncNode env cfg nodeID lastHash s).ret = none ∧
        (∃ raw, (env.fetchAllowedUUIDs nodeID s).1 = .ok raw ∧
          (syncNode env cfg nodeID lastHash s).lastHash =
            Function.update lastHash nodeID
              (fingerprint nodeID (env.now (env.fetchAllowedUUIDs nodeID s).2).1
                (normalize raw))) ∧
        onlySaveFailed nodeID (syncNode env cfg nodeID lastHash s).log)) ∧
    cfgXrayOne.FailFast = false ∧ cfgXrayOne.ApplyMode = "xray-grpc" ∧
    cfgXrayOne.NodeIDs = [1] ∧
    Event.saveAppliedState "out/node-1/applied.json" 1 ["a"] (some "read-only file system") ∈
      (syncOnce (simEnv simNoSaveApplied) cfgXrayOne (fun _ => "") world0).log ∧
    (syncOnce (simEnv simNoSaveApplied) cfgXrayOne (fun _ => "") world0).ret = none ∧
    fileGet (syncOnce (simEnv simNoSaveApplied) cfgXrayOne (fun _ => "") world0).st.files
      "out/node-1/applied.json" = none ∧
    (syncOnce (simEnv simNoSaveApplied) cfgXrayOne (fun _ => "") world0).lastHash 1 =
      "3b0b59e6d5f841e3d409c2c932564e734f1dde239d3175d4f3779a497a09bb1e" ∧
    (syncOnce (simEnv simNoSaveApplied) cfgXrayOne (fun _ => "") world0).lastHash 1 ≠
      (fun _ : Int => "") 1 ∧
    (syncOnce (simEnv simNoSaveFrozen) cfgXrayOne
      (syncOnce (simEnv simNoSaveFrozen) cfgXrayOne (fun _ => "") world0).lastHash
      (syncOnce (simEnv simNoSaveFrozen) cfgXrayOne (fun _ => "") world0).st).log =
      [Event.mkdirAll "out" none, Event.fetchAllowedUUIDs 1 (.ok ["a"]),
        Event.now "2024-01-01T00:00:00Z", Event.mkdirAll "out/node-1" none] ∧
    Event.addUser "in-vless-reality" "a" "vless" (some "internal error") ∈
      (syncOnce (simEnv simFault) cfgXrayOne (fun _ => "") world0).log ∧
    (syncOnce (simEnv simFault) cfgXrayOne (fun _ => "") world0).lastHash 1 = "" ∧
    (syncOnce (simEnv simFetchDown) cfgXrayOne (fun _ => "") world0).lastHash 1 = "" ∧
    (syncOnce (simEnv simReadOnly) cfgXrayOne (fun _ => "") world0).lastHash 1 = "" := by
  refine ⟨fun σ env cfg nodeID lastHash s => syncNode_advance env cfg nodeID lastHash s, ?_⟩
  constructorm* _ ∧ _
  all_goals decide

end Connector
